import Mathlib

/-!
# Labelled dataset generators: embedding and verification

A shallow embedding of the three generator programs of the repository

* `datagen.go` (uniform strategy, namespace `Uniform`),
* `generators/random_cluster_generator.go` (cluster strategy, namespace `Cluster`),
* `sine_datagen.go` (sine strategy, namespace `Sine`),

followed by theorems about them.

Conventions of the embedding.

* `float64` values are rationals (`ℚ`): arithmetic is exact, there is no rounding,
  no infinity and no NaN.  Only the section on rounded arithmetic (`round64`, `getValue64`,
  `main64`) rounds every operation of the uniform strategy to binary64.
* Go `int` values are integers (`Int`); a counted loop `for i := 0; i < n; i++` runs
  `n.toNat` times, that is not at all when `n ≤ 0`.
* The global random source of `math/rand` is an explicit value of type `Rng` that is passed
  through the program.  It holds one stream for the integer draws and one for the float
  draws, so that every sequence of draws is the run of some `Rng`.
* A Go runtime panic is the result `Except.error Fault.panic`.  Loops without an a priori
  bound take a `fuel` argument, the number of body executions they may perform;
  `Except.error Fault.fuel` means the budget did not suffice.
* Command line parsing, seeding and the two renderers are not modelled: `main` returns the
  local variables that the renderer would print.  Of the renderers only their first statement,
  the read `measurements[0]`, is embedded (`headerRow`).
-/

namespace DataGen

/-! ## Shared vocabulary -/

/-- Ways in which a run stops without a result. -/
inductive Fault where
  | panic
  | fuel
deriving DecidableEq, Repr

/-- The record `dataRow` declared (identically) in each of the three programs. -/
structure dataRow where
  IsOutlier : Bool
  Measurements : List ℚ
deriving DecidableEq, Repr

/-- Go conversion `int(f)` of a float to an integer: truncation toward zero. -/
def toInt (q : ℚ) : Int := if 0 ≤ q then ⌊q⌋ else ⌈q⌉

/-- Go `make([]T, n)`: a slice of `n` zero values; panics when `n` is negative. -/
def make {α : Type} (zero : α) (n : Int) : Except Fault (List α) :=
  if n < 0 then .error .panic else .ok (List.replicate n.toNat zero)

/-- Go slice read `xs[i]`: panics when `i` is out of range. -/
def index {α : Type} (xs : List α) (i : Nat) : Except Fault α :=
  match xs[i]? with
  | some a => .ok a
  | none => .error .panic

/-- Go slice write `xs[i] = a`: panics when `i` is out of range. -/
def assign {α : Type} (xs : List α) (i : Nat) (a : α) : Except Fault (List α) :=
  if i < xs.length then .ok (xs.set i a) else .error .panic

/-- The counted loop `for i := lo; i < lo + k; i++ { s = body i s }`. -/
def forRange {σ : Type} (body : Nat → σ → Except Fault σ) :
    Nat → Nat → σ → Except Fault σ
  | _, 0, s => .ok s
  | i, k + 1, s => (body i s).bind (fun s1 => forRange body (i + 1) k s1)

/-- The loop `for cond(s) { s = body s }`, allowed at most `fuel` executions of its body. -/
def whileLoop {σ : Type} (cond : σ → Except Fault Bool) (body : σ → Except Fault σ) :
    Nat → σ → Except Fault σ
  | 0, s => (cond s).bind (fun b => if b then .error .fuel else .ok s)
  | fuel + 1, s =>
    (cond s).bind (fun b =>
      if b then (body s).bind (fun s1 => whileLoop cond body fuel s1) else .ok s)

/-! ## The random source -/

/-- State of the `math/rand` global source: the stream of raw integer draws, the stream of
raw float draws, and how many of each have been consumed. -/
structure Rng where
  ints : Nat → Nat
  floats : Nat → ℚ
  ipos : Nat
  fpos : Nat

/-- Library call `rand.Intn(n)`: a value in `[0, n)`; panics when `n ≤ 0`.  The next raw integer
draw is reduced modulo `n`, so every value of `[0, n)` is the outcome of some raw draw. -/
def Rng.Intn (g : Rng) (n : Int) : Except Fault (Nat × Rng) :=
  if n ≤ 0 then .error .panic
  else .ok (g.ints g.ipos % n.toNat, { g with ipos := g.ipos + 1 })

/-- Library call `rand.Float64()`: a value in `[0, 1)`.  The next raw float draw is returned when
it lies in `[0, 1)` and is replaced by `0` otherwise. -/
def Rng.Float64 (g : Rng) : ℚ × Rng :=
  (if 0 ≤ g.floats g.fpos ∧ g.floats g.fpos < 1 then g.floats g.fpos else 0,
    { g with fpos := g.fpos + 1 })

/-- The swap closure `xs[i], xs[j] = xs[j], xs[i]` handed to `rand.Shuffle`. -/
def swap {α : Type} (xs : List α) (i j : Nat) : List α :=
  match xs[i]?, xs[j]? with
  | some a, some b => (xs.set i b).set j a
  | _, _ => xs

/-- The loop of `rand.Shuffle`: `for ; i > 0; i-- { j := Intn(i+1); swap(i, j) }`. -/
def shuffleLoop {α : Type} : Nat → List α → Rng → Except Fault (List α × Rng)
  | 0, xs, g => .ok (xs, g)
  | i + 1, xs, g =>
    (g.Intn (((i + 1 : Nat) : Int) + 1)).bind (fun r => shuffleLoop i (swap xs (i + 1) r.1) r.2)

/-- Library call `rand.Shuffle(len(xs), swap)` (Fisher-Yates, from the last index down). -/
def Rng.Shuffle {α : Type} (g : Rng) (xs : List α) : Except Fault (List α × Rng) :=
  shuffleLoop (xs.length - 1) xs g

/-! ## `datagen.go`: the uniform strategy -/

namespace Uniform

/-- The flags read by `datagen.go` (the rendering flag and the seed are left out). -/
structure Config where
  numRows : Int
  dimensionCount : Int
  outlierPercentage : ℚ
  minValue : ℚ
  maxValue : ℚ
  outlierDelta : ℚ
  generateNegativeOutliers : Bool
  multiDimensionalOutliersOnly : Bool
  singleDimensionalOutliersOnly : Bool

/-- Function `getValue` of `datagen.go`. -/
def getValue (c : Config) (g : Rng) : ℚ × Rng :=
  let delta := c.maxValue - c.minValue
  let r := g.Float64
  (c.minValue + r.1 * delta, r.2)

/-- Function `getOutlierValue` of `datagen.go`. -/
def getOutlierValue (c : Config) (g : Rng) : Except Fault (ℚ × Rng) :=
  (g.Intn 2).bind (fun r =>
    let isNegative := r.1 == 0 && c.generateNegativeOutliers
    let f := r.2.Float64
    let value := c.maxValue + f.1 * c.outlierDelta
    let value := if isNegative then value * -1 else value
    .ok (value, f.2))

/-- Body of the loop over `j` at lines 107-127 of `main`: the value stored in `m[j]`. -/
def outlierCell (c : Config) (j : Nat) (g : Rng) : Except Fault (ℚ × Rng) :=
  if c.multiDimensionalOutliersOnly && !c.singleDimensionalOutliersOnly then
    getOutlierValue c g
  else if c.singleDimensionalOutliersOnly && !c.multiDimensionalOutliersOnly then
    if j == 0 then getOutlierValue c g else .ok (getValue c g)
  else
    if j == 0 then getOutlierValue c g
    else
      (g.Intn 2).bind (fun r =>
        if r.1 == 0 then getOutlierValue c r.2 else .ok (getValue c r.2))

/-- Lines 93-96 of `main`: one slice of inlier values. -/
def inlierRow (c : Config) (g : Rng) : Except Fault (List ℚ × Rng) :=
  (make (0 : ℚ) c.dimensionCount).bind (fun m =>
    forRange (fun j s => let r := getValue c s.2; .ok (s.1.set j r.1, r.2)) 0 m.length (m, g))

/-- Lines 106-132 of `main`: one slice of an outlier row, shuffled when longer than one. -/
def outlierRow (c : Config) (g : Rng) : Except Fault (List ℚ × Rng) :=
  (make (0 : ℚ) c.dimensionCount).bind (fun m =>
    (forRange (fun j s => (outlierCell c j s.2).bind (fun r => .ok (s.1.set j r.1, r.2)))
        0 m.length (m, g)).bind (fun s =>
      if s.1.length > 1 then s.2.Shuffle s.1 else .ok s))

/-- The local variables of `main` when rendering starts. -/
structure Locals where
  measurements : List dataRow
  outliers : List dataRow
  generatedMeasurements : List dataRow

/-- Function `main` of `datagen.go`, lines 88-144. -/
def main (c : Config) (g : Rng) : Except Fault (Locals × Rng) :=
  let numOutliers := toInt ((c.numRows : ℚ) * c.outlierPercentage)
  let numNonOutliers := c.numRows - numOutliers
  (forRange (fun _ s => (inlierRow c s.2).bind (fun r =>
      .ok (s.1 ++ [{ IsOutlier := false, Measurements := r.1 }], r.2)))
      0 numNonOutliers.toNat (([] : List dataRow), g)).bind (fun ms =>
    (forRange (fun _ s => (outlierRow c s.2).bind (fun r =>
        .ok (s.1 ++ [{ IsOutlier := true, Measurements := r.1 }], r.2)))
        0 numOutliers.toNat (([] : List dataRow), ms.2)).bind (fun os =>
      (os.2.Shuffle (([] ++ os.1) ++ ms.1)).bind (fun sh =>
        .ok ({ measurements := ms.1, outliers := os.1, generatedMeasurements := sh.1 }, sh.2))))

end Uniform

/-! ## Rows of a dataset that is mutated in place (cluster and sine strategies) -/

/-- Statement `measurements[mIdx].IsOutlier = true`. -/
def markOutlier (ms : List dataRow) (mIdx : Nat) : Except Fault (List dataRow) :=
  (index ms mIdx).bind (fun r => .ok (ms.set mIdx { r with IsOutlier := true }))

/-- Statement `measurements[mIdx].Measurements[dim] = v`. -/
def setMeasurement (ms : List dataRow) (mIdx dim : Nat) (v : ℚ) : Except Fault (List dataRow) :=
  (index ms mIdx).bind (fun r =>
    (assign r.Measurements dim v).bind (fun m => .ok (ms.set mIdx { r with Measurements := m })))

/-- Expression `len(measurements[mIdx].Measurements)`. -/
def rowLen (ms : List dataRow) (mIdx : Nat) : Except Fault Nat :=
  (index ms mIdx).bind (fun r => .ok r.Measurements.length)

/-- Loop condition `!measurements[mIdx].IsOutlier`. -/
def notOutlier (mIdx : Nat) (s : List dataRow × Rng) : Except Fault Bool :=
  (index s.1 mIdx).bind (fun r => .ok (!r.IsOutlier))

/-- A Go `map[int]V`, as the list of its entries; `GoMap.write` keeps the keys distinct. -/
abbrev GoMap (V : Type) := List (Int × V)

/-- Map read `m[k]`: the stored value, or the zero value of `V` when `k` is not a key. -/
def GoMap.read {V : Type} (m : GoMap V) (k : Int) (zero : V) : V :=
  (List.lookup k m).getD zero

/-- Map write `m[k] = v`. -/
def GoMap.write {V : Type} (m : GoMap V) (k : Int) (v : V) : GoMap V :=
  (k, v) :: m.filter (fun e => e.1 != k)

/-! ## `generators/random_cluster_generator.go`: the cluster strategy -/

namespace Cluster

/-- The flags read by `random_cluster_generator.go` (rendering flag and seed left out). -/
structure Config where
  numRows : Int
  dimensionCount : Int
  outlierPercentage : ℚ
  minClusterCount : Int
  maxClusterCount : Int
  clusterMax : ℚ
  clusterSpread : ℚ
  generateNegativeOutliers : Bool
  shuffle : Bool
  multiDimensionalOutliersOnly : Bool
  singleDimensionalOutliersOnly : Bool

/-- Membership of `v` in the band `[f - clusterSpread/2, f + clusterSpread/2]` around the
centre `f`: the test in the body of `isProhibited`. -/
def inBand (c : Config) (v f : ℚ) : Bool :=
  let min := f - c.clusterSpread / 2
  let max := f + c.clusterSpread / 2
  decide (v ≥ min ∧ v ≤ max)

/-- Function `isProhibited`: some entry of the map has `v` in its band. -/
def isProhibited (c : Config) (v : ℚ) (prohibitedRanges : GoMap ℚ) : Bool :=
  prohibitedRanges.any (fun e => inBand c v e.2)

/-- Number of entries of the map whose band contains `v` (a counting companion of
`isProhibited`, used to state how many bands a value lies in). -/
def bandsContaining (c : Config) (v : ℚ) (prohibitedRanges : GoMap ℚ) : Nat :=
  prohibitedRanges.countP (fun e => inBand c v e.2)

/-- Body of the rejection loop of `getOutlierValue`, lines 158-162. -/
def resample (c : Config) (s : ℚ × Rng) : Except Fault (ℚ × Rng) :=
  (s.2.Intn 2).bind (fun r =>
    let isNegative := r.1 == 0 && c.generateNegativeOutliers
    let f := r.2.Float64
    let value := f.1 * (c.clusterMax * 1.25)
    let value := if isNegative then value * -1 else value
    .ok (value, f.2))

/-- Function `getOutlierValue` of `random_cluster_generator.go`. -/
def getOutlierValue (c : Config) (prohibitedRanges : GoMap ℚ) (fuel : Nat) (g : Rng) :
    Except Fault (ℚ × Rng) :=
  whileLoop (fun s => .ok (isProhibited c s.1 prohibitedRanges)) (resample c) fuel
    (GoMap.read prohibitedRanges 0 0, g)

/-- The variables `clusterCount` and `clusterOffsets` of `main`. -/
structure Clusters where
  clusterCount : List Int
  clusterOffsets : GoMap (GoMap ℚ)

/-- Lines 86-90 of `main`: cluster count and centres of dimension `i`. -/
def setupDim (c : Config) (i : Nat) (s : Clusters × Rng) : Except Fault (Clusters × Rng) :=
  (s.2.Intn (c.maxClusterCount - c.minClusterCount)).bind (fun r =>
    (assign s.1.clusterCount i (c.minClusterCount + (r.1 : Int))).bind (fun cc =>
      (forRange (fun j t =>
          let f := t.2.Float64
          .ok (GoMap.write t.1 (i : Int)
                (GoMap.write (GoMap.read t.1 (i : Int) []) (j : Int) (f.1 * c.clusterMax)), f.2))
        0 (c.minClusterCount + (r.1 : Int)).toNat
        (GoMap.write s.1.clusterOffsets (i : Int) [], r.2)).bind (fun t =>
          .ok ({ clusterCount := cc, clusterOffsets := t.1 }, t.2))))

/-- Lines 83-91 of `main`. -/
def setup (c : Config) (g : Rng) : Except Fault (Clusters × Rng) :=
  (make (0 : Int) c.dimensionCount).bind (fun cc =>
    forRange (setupDim c) 0 c.dimensionCount.toNat
      ({ clusterCount := cc, clusterOffsets := [] }, g))

/-- Lines 97-99 of `main`: the inlier value of dimension `j`. -/
def inlierCell (c : Config) (cl : Clusters) (j : Nat) (g : Rng) : Except Fault (ℚ × Rng) :=
  (index cl.clusterCount j).bind (fun k =>
    (g.Intn k).bind (fun r =>
      let f := r.2.Float64
      let spread := f.1 * c.clusterSpread - c.clusterSpread / 2
      .ok (GoMap.read (GoMap.read cl.clusterOffsets (j : Int) []) (r.1 : Int) 0 + spread, f.2)))

/-- Lines 95-100 of `main`: one slice of inlier values. -/
def inlierRow (c : Config) (cl : Clusters) (g : Rng) : Except Fault (List ℚ × Rng) :=
  (make (0 : ℚ) c.dimensionCount).bind (fun m =>
    forRange (fun j s => (inlierCell c cl j s.2).bind (fun r => .ok (s.1.set j r.1, r.2)))
      0 m.length (m, g))

/-- Lines 93-105 of `main`: the inlier dataset. -/
def inliers (c : Config) (cl : Clusters) (g : Rng) : Except Fault (List dataRow × Rng) :=
  forRange (fun _ s => (inlierRow c cl s.2).bind (fun r =>
      .ok (s.1 ++ [{ IsOutlier := false, Measurements := r.1 }], r.2)))
    0 c.numRows.toNat (([] : List dataRow), g)

/-- Statement `measurements[mIdx].Measurements[dim] = getOutlierValue(clusterOffsets[dim])`. -/
def placeOutlier (c : Config) (cl : Clusters) (fuel mIdx dim : Nat) (s : List dataRow × Rng) :
    Except Fault (List dataRow × Rng) :=
  (getOutlierValue c (GoMap.read cl.clusterOffsets (dim : Int) []) fuel s.2).bind (fun r =>
    (setMeasurement s.1 mIdx dim r.1).bind (fun ms => .ok (ms, r.2)))

/-- Lines 119-125 of `main`: one iteration of the coin-flip loop of the mixed policy; the
Boolean of the state is `addedOutlier`. -/
def mixedDim (c : Config) (cl : Clusters) (fuel mIdx dim : Nat)
    (t : (List dataRow × Rng) × Bool) : Except Fault ((List dataRow × Rng) × Bool) :=
  (t.1.2.Intn 2).bind (fun r =>
    if r.1 == 0 then .ok ((t.1.1, r.2), t.2)
    else (placeOutlier c cl fuel mIdx dim (t.1.1, r.2)).bind (fun u => .ok (u, true)))

/-- Lines 109-130 of `main`: the body of the loop over `mIdx`. -/
def injectBody (c : Config) (cl : Clusters) (fuel mIdx : Nat) (s : List dataRow × Rng) :
    Except Fault (List dataRow × Rng) :=
  (markOutlier s.1 mIdx).bind (fun ms =>
    (rowLen ms mIdx).bind (fun n =>
      if c.multiDimensionalOutliersOnly && !c.singleDimensionalOutliersOnly then
        forRange (placeOutlier c cl fuel mIdx) 0 n (ms, s.2)
      else if !c.multiDimensionalOutliersOnly && c.singleDimensionalOutliersOnly then
        (s.2.Intn (n : Int)).bind (fun r => placeOutlier c cl fuel mIdx r.1 (ms, r.2))
      else
        (forRange (mixedDim c cl fuel mIdx) 0 n ((ms, s.2), false)).bind (fun t =>
          if !t.2 then
            (t.1.2.Intn (n : Int)).bind (fun r => placeOutlier c cl fuel mIdx r.1 (t.1.1, r.2))
          else .ok t.1)))

/-- Lines 108-131 of `main`, the loop
`for mIdx := rand.Intn(*numRows); !measurements[mIdx].IsOutlier; { ... }`.
The index is drawn once, in the init statement; the loop has no post statement. -/
def injectStep (c : Config) (cl : Clusters) (fuel : Nat) (s : List dataRow × Rng) :
    Except Fault (List dataRow × Rng) :=
  (s.2.Intn c.numRows).bind (fun r =>
    whileLoop (notOutlier r.1) (injectBody c cl fuel r.1) fuel (s.1, r.2))

/-- Lines 107-132 of `main`: the outlier-injection loop. -/
def inject (c : Config) (cl : Clusters) (fuel : Nat) (numOutliers : Int)
    (s : List dataRow × Rng) : Except Fault (List dataRow × Rng) :=
  forRange (fun _ t => injectStep c cl fuel t) 0 numOutliers.toNat s

/-- The local variables of `main` when rendering starts; `measurements` and
`generatedMeasurements` are the same slice. -/
structure Locals where
  clusters : Clusters
  generatedMeasurements : List dataRow

/-- Function `main` of `random_cluster_generator.go`, lines 81-139. -/
def main (c : Config) (fuel : Nat) (g : Rng) : Except Fault (Locals × Rng) :=
  let numOutliers := toInt ((c.numRows : ℚ) * c.outlierPercentage)
  (setup c g).bind (fun cl =>
    (inliers c cl.1 cl.2).bind (fun ms =>
      (inject c cl.1 fuel numOutliers ms).bind (fun s =>
        (if c.shuffle then s.2.Shuffle s.1 else .ok s).bind (fun sh =>
          .ok ({ clusters := cl.1, generatedMeasurements := sh.1 }, sh.2)))))

end Cluster

/-! ## `sine_datagen.go`: the sine strategy

The library function `math.Sin` is a parameter `sin` of the definitions that call it. -/

namespace Sine

/-- The flags read by `sine_datagen.go` (rendering flag and seed left out). -/
structure Config where
  numRows : Int
  dimensionCount : Int
  outlierPercentage : ℚ
  amplitude : ℚ
  offset : ℚ
  divider : ℚ
  maxValue : ℚ
  outlierDelta : ℚ
  generateNegativeOutliers : Bool
  shuffle : Bool
  multiDimensionalOutliersOnly : Bool
  singleDimensionalOutliersOnly : Bool

/-- Function `getSineValue`. -/
def getSineValue (sin : ℚ → ℚ) (c : Config) (idx : ℚ) : ℚ :=
  c.offset + sin idx * c.amplitude

/-- Loop condition of `getOutlierValue`: `value >= min && value <= max` with
`min := offset - amplitude` and `max := offset + amplitude`. -/
def inBand (c : Config) (value : ℚ) : Bool :=
  let min := c.offset - c.amplitude
  let max := c.offset + c.amplitude
  decide (value ≥ min ∧ value ≤ max)

/-- Body of the rejection loop of `getOutlierValue`, lines 154-158. -/
def resample (c : Config) (s : ℚ × Rng) : Except Fault (ℚ × Rng) :=
  (s.2.Intn 2).bind (fun r =>
    let isNegative := r.1 == 0 && c.generateNegativeOutliers
    let f := r.2.Float64
    let value := c.maxValue + f.1 * c.outlierDelta
    let value := if isNegative then value * -1 else value
    .ok (value, f.2))

/-- Function `getOutlierValue` of `sine_datagen.go`; its argument `idx` is not used. -/
def getOutlierValue (c : Config) (_idx : Int) (fuel : Nat) (g : Rng) : Except Fault (ℚ × Rng) :=
  whileLoop (fun s => .ok (inBand c s.1)) (resample c) fuel
    (c.offset + c.amplitude * 0.5, g)

/-- Lines 85-88 of `main`: the starting phases. -/
def setup (c : Config) (g : Rng) : Except Fault (List Int × Rng) :=
  (make (0 : Int) c.dimensionCount).bind (fun st =>
    forRange (fun i s => (s.2.Intn c.numRows).bind (fun r =>
        (assign s.1 i (r.1 : Int)).bind (fun xs => .ok (xs, r.2))))
      0 c.dimensionCount.toNat (st, g))

/-- Lines 92-96 of `main`: the slice of inlier values of row `i`. -/
def inlierRow (sin : ℚ → ℚ) (c : Config) (startIdxes : List Int) (i : Nat) :
    Except Fault (List ℚ) :=
  (make (0 : ℚ) c.dimensionCount).bind (fun m =>
    forRange (fun j s => (index startIdxes j).bind (fun st =>
        let sineIdx := ((i : ℚ) / c.divider) + (st : ℚ)
        .ok (s.set j (getSineValue sin c sineIdx))))
      0 m.length m)

/-- Lines 90-101 of `main`: the inlier dataset. -/
def inliers (sin : ℚ → ℚ) (c : Config) (startIdxes : List Int) :
    Except Fault (List dataRow) :=
  forRange (fun i s => (inlierRow sin c startIdxes i).bind (fun m =>
      .ok (s ++ [{ IsOutlier := false, Measurements := m }])))
    0 c.numRows.toNat ([] : List dataRow)

/-- Statement `measurements[mIdx].Measurements[dim] = getOutlierValue(i)`. -/
def placeOutlier (c : Config) (fuel i mIdx dim : Nat) (s : List dataRow × Rng) :
    Except Fault (List dataRow × Rng) :=
  (getOutlierValue c (i : Int) fuel s.2).bind (fun r =>
    (setMeasurement s.1 mIdx dim r.1).bind (fun ms => .ok (ms, r.2)))

/-- Lines 114-119 of `main`: one iteration of the coin-flip loop of the mixed policy. -/
def mixedDim (c : Config) (fuel i mIdx dim : Nat) (s : List dataRow × Rng) :
    Except Fault (List dataRow × Rng) :=
  (s.2.Intn 2).bind (fun r =>
    if r.1 == 0 then .ok (s.1, r.2) else placeOutlier c fuel i mIdx dim (s.1, r.2))

/-- Lines 105-120 of `main`: the body of the loop over `mIdx`. -/
def injectBody (c : Config) (fuel i mIdx : Nat) (s : List dataRow × Rng) :
    Except Fault (List dataRow × Rng) :=
  (markOutlier s.1 mIdx).bind (fun ms =>
    (rowLen ms mIdx).bind (fun n =>
      if c.multiDimensionalOutliersOnly && !c.singleDimensionalOutliersOnly then
        forRange (placeOutlier c fuel i mIdx) 0 n (ms, s.2)
      else if !c.multiDimensionalOutliersOnly && c.singleDimensionalOutliersOnly then
        (s.2.Intn (n : Int)).bind (fun r => placeOutlier c fuel i mIdx r.1 (ms, r.2))
      else
        forRange (mixedDim c fuel i mIdx) 0 n (ms, s.2)))

/-- Lines 104-121 of `main`, the loop
`for mIdx := rand.Intn(*numRows); !measurements[mIdx].IsOutlier; { ... }`.
The index is drawn once, in the init statement; the loop has no post statement. -/
def injectStep (c : Config) (fuel i : Nat) (s : List dataRow × Rng) :
    Except Fault (List dataRow × Rng) :=
  (s.2.Intn c.numRows).bind (fun r =>
    whileLoop (notOutlier r.1) (injectBody c fuel i r.1) fuel (s.1, r.2))

/-- Lines 103-122 of `main`: the outlier-injection loop. -/
def inject (c : Config) (fuel : Nat) (numOutliers : Int) (s : List dataRow × Rng) :
    Except Fault (List dataRow × Rng) :=
  forRange (fun i t => injectStep c fuel i t) 0 numOutliers.toNat s

/-- The local variables of `main` when rendering starts; `measurements` and
`generatedMeasurements` are the same slice. -/
structure Locals where
  startIdxes : List Int
  generatedMeasurements : List dataRow

/-- Function `main` of `sine_datagen.go`, lines 83-129. -/
def main (sin : ℚ → ℚ) (c : Config) (fuel : Nat) (g : Rng) : Except Fault (Locals × Rng) :=
  let numOutliers := toInt ((c.numRows : ℚ) * c.outlierPercentage)
  (setup c g).bind (fun st =>
    (inliers sin c st.1).bind (fun ms =>
      (inject c fuel numOutliers (ms, st.2)).bind (fun s =>
        (if c.shuffle then s.2.Shuffle s.1 else .ok s).bind (fun sh =>
          .ok ({ startIdxes := st.1, generatedMeasurements := sh.1 }, sh.2)))))

end Sine

/-! ## Vocabulary of the statements about outlier injection -/

/-- Relation between the inlier dataset `ms0` and a dataset `ms` reached from it by outlier
injection under the single-only policy: the datasets have the same number of rows, a row that is
not labelled is unchanged, and a labelled row differs from its original in one position `d`,
which holds a value `v` with `fails d v`. -/
def SingleInjected (fails : Nat → ℚ → Prop) (ms0 ms : List dataRow) : Prop :=
  ms.length = ms0.length ∧
  ∀ (idx : Nat) (r r0 : dataRow), ms[idx]? = some r → ms0[idx]? = some r0 →
    (r.IsOutlier = false → r = r0) ∧
    (r.IsOutlier = true → ∃ d v, d < r0.Measurements.length ∧ fails d v ∧
      r.Measurements = r0.Measurements.set d v)

/-- The map `m` holds the `k` centres of one dimension: it has `k` entries (none when
`k ≤ 0`), every index below `k` is a key whose centre is `u × clusterMax` for some `u` in
`[0, 1)`, and every key is an index below `k`. -/
def Cluster.CentresAt (c : Cluster.Config) (k : Int) (m : GoMap ℚ) : Prop :=
  m.length = k.toNat ∧
  (∀ i : Nat, (i : Int) < k →
    ∃ u : ℚ, 0 ≤ u ∧ u < 1 ∧ List.lookup (i : Int) m = some (u * c.clusterMax)) ∧
  ∀ e ∈ m, ∃ i : Nat, e.1 = (i : Int) ∧ (i : Int) < k

/-- Relation between an inlier row `r0` and the row `r` that one execution of the body of the
loop over `mIdx` makes of it: `r` is labelled, has as many measurements as `r0`, and each of its
measurements is the one of `r0` at the same position or a value `w` with `fails d w`. -/
def RowInjected (fails : Nat → ℚ → Prop) (r0 r : dataRow) : Prop :=
  r.IsOutlier = true ∧ r.Measurements.length = r0.Measurements.length ∧
  ∀ (d : Nat) (w : ℚ), r.Measurements[d]? = some w →
    r0.Measurements[d]? = some w ∨ fails d w

/-- Relation between the inlier dataset `ms0` and a dataset `ms` reached from it by outlier
injection: the datasets have the same number of rows, a row that is not labelled is unchanged,
and a labelled row `r` is related to its original `r0` by `Q r0 r`. -/
def InjectedWith (Q : dataRow → dataRow → Prop) (ms0 ms : List dataRow) : Prop :=
  ms.length = ms0.length ∧
  ∀ (idx : Nat) (r r0 : dataRow), ms[idx]? = some r → ms0[idx]? = some r0 →
    (r.IsOutlier = false → r = r0) ∧ (r.IsOutlier = true → Q r0 r)

/-- The states in which the iterations of `forRange body i k s` start, in order (a record of the
run; the list stops at the first iteration whose body does not return). -/
def forRangeStates {σ : Type} (body : Nat → σ → Except Fault σ) : Nat → Nat → σ → List σ
  | _, 0, _ => []
  | i, k + 1, s =>
    s :: (match body i s with
          | .ok s1 => forRangeStates body (i + 1) k s1
          | .error _ => [])

/-- The row indices drawn by the selection loop, given the states in which its iterations
start: each iteration begins with `mIdx := rand.Intn(*numRows)`, the next integer draw reduced
modulo `numRows`. -/
def drawnRows (numRows : Int) (states : List (List dataRow × Rng)) : List Nat :=
  states.map (fun t => t.2.ints t.2.ipos % numRows.toNat)

/-- Effect of one iteration of the selection loop on the dataset, from state `s` to state
`s1`: the drawn row exists; if it is already labelled the dataset is unchanged, otherwise the
row, and only the row, is replaced by a labelled row of the same length. -/
def StepEffect (numRows : Int) (s s1 : List dataRow × Rng) : Prop :=
  ∃ row : dataRow, s.1[s.2.ints s.2.ipos % numRows.toNat]? = some row ∧
    ((row.IsOutlier = true ∧ s1.1 = s.1) ∨
      (row.IsOutlier = false ∧ ∃ r1 : dataRow,
        s1.1 = s.1.set (s.2.ints s.2.ipos % numRows.toNat) r1 ∧ r1.IsOutlier = true ∧
        r1.Measurements.length = row.Measurements.length))


/-- The header read `measurements[0]` with which both renderers of `datagen.go` start (lines
147 and 152); `measurements` is the batch of inlier rows. -/
def Uniform.headerRow (l : Uniform.Locals) : Except Fault dataRow :=
  index l.measurements 0

/-- The header read `measurements[0]` with which both renderers of
`random_cluster_generator.go` start (lines 142 and 147); `measurements` is the slice that
`generatedMeasurements` names too. -/
def Cluster.headerRow (l : Cluster.Locals) : Except Fault dataRow :=
  index l.generatedMeasurements 0

/-- The header read `measurements[0]` with which both renderers of `sine_datagen.go` start
(lines 132 and 137); `measurements` is the slice that `generatedMeasurements` names too. -/
def Sine.headerRow (l : Sine.Locals) : Except Fault dataRow :=
  index l.generatedMeasurements 0

/-! ## The uniform strategy with rounded arithmetic

The definitions above compute with exact rationals.  The definitions of this section round the
result of every floating-point operation to binary64, as the Go program does, and serve to
tell which bounds on the values of `datagen.go` depend on exactness.  Results outside the
normal range of binary64 (overflow, subnormal numbers) are not modelled. -/

/-- The number `⌊log₂ n⌋` for `n ≥ 1` (and `0` for `n = 0`) by repeated halving; the first
argument bounds the number of halvings. -/
def log2Halving : Nat → Nat → Nat
  | 0, _ => 0
  | fuel + 1, n => if 2 ≤ n then log2Halving fuel (n / 2) + 1 else 0

/-- The power `2 ^ e` for an integer exponent `e`. -/
def pow2 (e : Int) : ℚ :=
  if 0 ≤ e then ((2 ^ e.toNat : Nat) : ℚ) else 1 / ((2 ^ (-e).toNat : Nat) : ℚ)

/-- The binary exponent of a rational `q ≠ 0`: the integer `e` with
`2 ^ e ≤ |q| < 2 ^ (e + 1)`. -/
def binade (q : ℚ) : Int :=
  let e0 : Int := (log2Halving 2200 q.num.natAbs : Int) - (log2Halving 2200 q.den : Int)
  if |q| < pow2 e0 then e0 - 1 else e0

/-- Rounding to binary64: the multiple of `2 ^ (binade q - 52)` nearest to `q`, the one with
the even multiplier when two are equally near (IEEE 754 round to nearest, ties to even, with
a significand of 53 bits). -/
def round64 (q : ℚ) : ℚ :=
  if q = 0 then 0
  else
    let ulp := pow2 (binade q - 52)
    let m := q / ulp
    let f := ⌊m⌋
    let n := if m - f < 1 / 2 then f
      else if 1 / 2 < m - f then f + 1
      else if f % 2 = 0 then f else f + 1
    (n : ℚ) * ulp

namespace Uniform

/-- Function `getValue` of `datagen.go` in binary64.  The Go specification lets a compiler fuse
`x*y + z` into one operation with one rounding; `fused` tells whether it did. -/
def getValue64 (fused : Bool) (c : Config) (g : Rng) : ℚ × Rng :=
  let delta := round64 (c.maxValue - c.minValue)
  let r := g.Float64
  (if fused then round64 (c.minValue + r.1 * delta)
    else round64 (c.minValue + round64 (r.1 * delta)), r.2)

/-- Function `getOutlierValue` of `datagen.go` in binary64. -/
def getOutlierValue64 (fused : Bool) (c : Config) (g : Rng) : Except Fault (ℚ × Rng) :=
  (g.Intn 2).bind (fun r =>
    let isNegative := r.1 == 0 && c.generateNegativeOutliers
    let f := r.2.Float64
    let value := if fused then round64 (c.maxValue + f.1 * c.outlierDelta)
      else round64 (c.maxValue + round64 (f.1 * c.outlierDelta))
    let value := if isNegative then value * -1 else value
    .ok (value, f.2))

/-- Body of the loop over `j` at lines 107-127 of `main`, in binary64. -/
def outlierCell64 (fused : Bool) (c : Config) (j : Nat) (g : Rng) : Except Fault (ℚ × Rng) :=
  if c.multiDimensionalOutliersOnly && !c.singleDimensionalOutliersOnly then
    getOutlierValue64 fused c g
  else if c.singleDimensionalOutliersOnly && !c.multiDimensionalOutliersOnly then
    if j == 0 then getOutlierValue64 fused c g else .ok (getValue64 fused c g)
  else
    if j == 0 then getOutlierValue64 fused c g
    else
      (g.Intn 2).bind (fun r =>
        if r.1 == 0 then getOutlierValue64 fused c r.2 else .ok (getValue64 fused c r.2))

/-- Lines 93-96 of `main`, in binary64: one slice of inlier values. -/
def inlierRow64 (fused : Bool) (c : Config) (g : Rng) : Except Fault (List ℚ × Rng) :=
  (make (0 : ℚ) c.dimensionCount).bind (fun m =>
    forRange (fun j s => let r := getValue64 fused c s.2; .ok (s.1.set j r.1, r.2))
      0 m.length (m, g))

/-- Lines 106-132 of `main`, in binary64: one slice of an outlier row, shuffled when longer than
one. -/
def outlierRow64 (fused : Bool) (c : Config) (g : Rng) : Except Fault (List ℚ × Rng) :=
  (make (0 : ℚ) c.dimensionCount).bind (fun m =>
    (forRange (fun j s => (outlierCell64 fused c j s.2).bind (fun r =>
        .ok (s.1.set j r.1, r.2)))
        0 m.length (m, g)).bind (fun s =>
      if s.1.length > 1 then s.2.Shuffle s.1 else .ok s))

/-- Function `main` of `datagen.go`, lines 88-144, in binary64. -/
def main64 (fused : Bool) (c : Config) (g : Rng) : Except Fault (Locals × Rng) :=
  let numOutliers := toInt (round64 ((c.numRows : ℚ) * c.outlierPercentage))
  let numNonOutliers := c.numRows - numOutliers
  (forRange (fun _ s => (inlierRow64 fused c s.2).bind (fun r =>
      .ok (s.1 ++ [{ IsOutlier := false, Measurements := r.1 }], r.2)))
      0 numNonOutliers.toNat (([] : List dataRow), g)).bind (fun ms =>
    (forRange (fun _ s => (outlierRow64 fused c s.2).bind (fun r =>
        .ok (s.1 ++ [{ IsOutlier := true, Measurements := r.1 }], r.2)))
        0 numOutliers.toNat (([] : List dataRow), ms.2)).bind (fun os =>
      (os.2.Shuffle (([] ++ os.1) ++ ms.1)).bind (fun sh =>
        .ok ({ measurements := ms.1, outliers := os.1, generatedMeasurements := sh.1 }, sh.2))))

end Uniform
/-! ## Concrete configurations and random sources -/

/-- The random source whose every integer draw is `0` and whose every float draw is `1/2`. -/
def zeroHalfRng : Rng :=
  { ints := fun _ => 0, floats := fun _ => 1 / 2, ipos := 0, fpos := 0 }

/-- Cluster run `-num-rows=2 -num-dims=1 -outlier-percentage=1 -min-clusters=1 -max-clusters=2
-max-value=100 -cluster-spread=10`. -/
def collisionCluster : Cluster.Config :=
  { numRows := 2, dimensionCount := 1, outlierPercentage := 1, minClusterCount := 1,
    maxClusterCount := 2, clusterMax := 100, clusterSpread := 10,
    generateNegativeOutliers := false, shuffle := false,
    multiDimensionalOutliersOnly := false, singleDimensionalOutliersOnly := false }

/-- Sine run `-num-rows=2 -num-dims=1 -outlier-percentage=1` with the default wave. -/
def collisionSine : Sine.Config :=
  { numRows := 2, dimensionCount := 1, outlierPercentage := 1, amplitude := 50, offset := 80,
    divider := 50, maxValue := 65, outlierDelta := 100, generateNegativeOutliers := true,
    shuffle := false, multiDimensionalOutliersOnly := false,
    singleDimensionalOutliersOnly := false }

/-- Sine run `-num-rows=1 -num-dims=1 -outlier-percentage=1` with the default wave and the
default (mixed) placement policy. -/
def mixedSine : Sine.Config :=
  { numRows := 1, dimensionCount := 1, outlierPercentage := 1, amplitude := 50, offset := 80,
    divider := 50, maxValue := 65, outlierDelta := 100, generateNegativeOutliers := true,
    shuffle := false, multiDimensionalOutliersOnly := false,
    singleDimensionalOutliersOnly := false }

/-- Uniform run `-num-rows=1 -num-dims=1 -outlier-percentage=2`. -/
def overfullUniform : Uniform.Config :=
  { numRows := 1, dimensionCount := 1, outlierPercentage := 2, minValue := 5, maxValue := 65,
    outlierDelta := 100, generateNegativeOutliers := true,
    multiDimensionalOutliersOnly := false, singleDimensionalOutliersOnly := false }

/-- Uniform run of the example scenario: `-num-rows=100 -num-dims=1 -outlier-percentage=0.1
-min=5 -max=65 -outlier-delta=100 -negative-outliers=false`. -/
def scenarioUniform : Uniform.Config :=
  { numRows := 100, dimensionCount := 1, outlierPercentage := 1 / 10, minValue := 5,
    maxValue := 65, outlierDelta := 100, generateNegativeOutliers := false,
    multiDimensionalOutliersOnly := false, singleDimensionalOutliersOnly := false }

/-- The random source whose every integer draw is `0` and whose every float draw is `0`. -/
def zeroZeroRng : Rng :=
  { ints := fun _ => 0, floats := fun _ => 0, ipos := 0, fpos := 0 }

/-- Uniform run with the default range: `-min=5 -max=65 -outlier-delta=100`. -/
def defaultUniform : Uniform.Config :=
  { numRows := 10, dimensionCount := 2, outlierPercentage := 1 / 10, minValue := 5,
    maxValue := 65, outlierDelta := 100, generateNegativeOutliers := true,
    multiDimensionalOutliersOnly := false, singleDimensionalOutliersOnly := false }

/-- Uniform run with an inlier range that reaches below `-max`:
`-min=-200 -max=65 -outlier-delta=100`. -/
def wideUniform : Uniform.Config :=
  { numRows := 10, dimensionCount := 2, outlierPercentage := 1 / 10, minValue := -200,
    maxValue := 65, outlierDelta := 100, generateNegativeOutliers := true,
    multiDimensionalOutliersOnly := false, singleDimensionalOutliersOnly := false }

/-- The random source whose integer draws are all `0` and whose float draws are `1/10`, then
`11/100`, then `1/2` forever. -/
def nearCentresRng : Rng :=
  { ints := fun _ => 0,
    floats := fun i => if i = 0 then 1 / 10 else if i = 1 then 11 / 100 else 1 / 2,
    ipos := 0, fpos := 0 }

/-- Cluster run `-num-rows=1 -num-dims=1 -outlier-percentage=0 -min-clusters=2 -max-clusters=3
-max-value=100 -cluster-spread=5`: two clusters in the only dimension. -/
def twoClusters : Cluster.Config :=
  { numRows := 1, dimensionCount := 1, outlierPercentage := 0, minClusterCount := 2,
    maxClusterCount := 3, clusterMax := 100, clusterSpread := 5,
    generateNegativeOutliers := false, shuffle := false,
    multiDimensionalOutliersOnly := false, singleDimensionalOutliersOnly := false }

/-- Sine run with a negative amplitude: `-amplitude=-1 -offset=0`. -/
def negativeAmplitudeSine : Sine.Config :=
  { numRows := 1, dimensionCount := 1, outlierPercentage := 1, amplitude := -1, offset := 0,
    divider := 50, maxValue := 65, outlierDelta := 100, generateNegativeOutliers := true,
    shuffle := false, multiDimensionalOutliersOnly := false,
    singleDimensionalOutliersOnly := false }

/-- Cluster run under the single-only policy: `-num-rows=2 -num-dims=2
-only-singledimenstional-outliers -max-value=100 -cluster-spread=10`. -/
def singleCluster : Cluster.Config :=
  { numRows := 2, dimensionCount := 2, outlierPercentage := 1 / 2, minClusterCount := 1,
    maxClusterCount := 2, clusterMax := 100, clusterSpread := 10,
    generateNegativeOutliers := false, shuffle := false,
    multiDimensionalOutliersOnly := false, singleDimensionalOutliersOnly := true }

/-- Sine run under the single-only policy: `-num-rows=2 -num-dims=2
-only-singledimenstional-outliers` with the default wave. -/
def singleSine : Sine.Config :=
  { numRows := 2, dimensionCount := 2, outlierPercentage := 1 / 2, amplitude := 50, offset := 80,
    divider := 50, maxValue := 65, outlierDelta := 100, generateNegativeOutliers := true,
    shuffle := false, multiDimensionalOutliersOnly := false,
    singleDimensionalOutliersOnly := true }

/-- A rational function with values in `[-1, 1]`, standing in for `math.Sin` where a concrete
function is needed. -/
def boundedWave (x : ℚ) : ℚ := 2 * x / (1 + x * x)

/-- Uniform run with a negative range: `-min=-20 -max=-10 -outlier-delta=1
-negative-outliers=false`. -/
def negativeMaxUniform : Uniform.Config :=
  { numRows := 10, dimensionCount := 2, outlierPercentage := 1 / 10, minValue := -20,
    maxValue := -10, outlierDelta := 1, generateNegativeOutliers := false,
    multiDimensionalOutliersOnly := false, singleDimensionalOutliersOnly := false }

/-- The random source whose every integer draw is `0` and whose every float draw is `9/10`. -/
def zeroNineTenthsRng : Rng :=
  { ints := fun _ => 0, floats := fun _ => 9 / 10, ipos := 0, fpos := 0 }

/-- Cluster configuration with `-max-value=100`, the given `-cluster-spread` and the given
`-negative-outliers` flag. -/
def wideBandCluster (spread : ℚ) (negative : Bool) : Cluster.Config :=
  { numRows := 1, dimensionCount := 1, outlierPercentage := 1, minClusterCount := 1,
    maxClusterCount := 2, clusterMax := 100, clusterSpread := spread,
    generateNegativeOutliers := negative, shuffle := false,
    multiDimensionalOutliersOnly := false, singleDimensionalOutliersOnly := false }

/-- Uniform run under the single-only policy: `-num-rows=4 -num-dims=3
-outlier-percentage=0.5 -only-singledimenstional-outliers` with the default range. -/
def singleUniform : Uniform.Config :=
  { numRows := 4, dimensionCount := 3, outlierPercentage := 1 / 2, minValue := 5,
    maxValue := 65, outlierDelta := 100, generateNegativeOutliers := true,
    multiDimensionalOutliersOnly := false, singleDimensionalOutliersOnly := true }

/-- Cluster run under the multi-only policy: `-num-rows=2 -num-dims=2
-only-multidimensional-outliers -max-value=100 -cluster-spread=10`. -/
def multiCluster : Cluster.Config :=
  { singleCluster with
    multiDimensionalOutliersOnly := true, singleDimensionalOutliersOnly := false }

/-- Cluster run under the mixed policy (both placement flags off): `-num-rows=2 -num-dims=2
-max-value=100 -cluster-spread=10`. -/
def mixedCluster : Cluster.Config :=
  { singleCluster with
    multiDimensionalOutliersOnly := false, singleDimensionalOutliersOnly := false }

/-- Sine run under the multi-only policy: `-num-rows=2 -num-dims=2
-only-multidimensional-outliers` with the default wave. -/
def multiSine : Sine.Config :=
  { singleSine with
    multiDimensionalOutliersOnly := true, singleDimensionalOutliersOnly := false }

/-- The cluster centres of the concrete cluster runs: one centre per dimension, 10 and 11. -/
def twoCentres : Cluster.Clusters :=
  { clusterCount := [1, 1], clusterOffsets := [(1, [(0, 11)]), (0, [(0, 10)])] }

/-- The inlier dataset of the concrete cluster runs. -/
def clusterInlierRows : List dataRow :=
  [{ IsOutlier := false, Measurements := [10, 11] },
   { IsOutlier := false, Measurements := [10, 11] }]

/-- The inlier dataset of the concrete sine runs (starting phases 0 and 0). -/
def sineInlierRows : List dataRow :=
  [{ IsOutlier := false, Measurements := [80, 80] },
   { IsOutlier := false, Measurements := [205080 / 2501, 205080 / 2501] }]

/-- The random source whose integer draws are `0, 1, 0, 0, ...` and whose float draws are all
`1/2`. -/
def secondOddRng : Rng :=
  { ints := fun i => if i = 1 then 1 else 0, floats := fun _ => 1 / 2, ipos := 0, fpos := 0 }


/-- The cluster centres that `Cluster.setup collisionCluster` builds from `zeroHalfRng`: one
centre, `50`, in dimension 0. -/
def collisionCentres : Cluster.Clusters :=
  { clusterCount := [1], clusterOffsets := [(0, [(0, 50)])] }

/-- The inlier dataset of `collisionCluster` for the centres `collisionCentres` and the random
source `zeroHalfRng`. -/
def collisionClusterRows : List dataRow :=
  [{ IsOutlier := false, Measurements := [50] }, { IsOutlier := false, Measurements := [50] }]

/-- The inlier dataset of `collisionSine` for the start index `0` and the wave `boundedWave`. -/
def collisionSineRows : List dataRow :=
  [{ IsOutlier := false, Measurements := [80] },
   { IsOutlier := false, Measurements := [205080 / 2501] }]

/-- Uniform run `-num-rows=10 -num-dims=1 -outlier-percentage=1 -negative-outliers=false`: every
row is an outlier. -/
def allOutliersUniform : Uniform.Config :=
  { numRows := 10, dimensionCount := 1, outlierPercentage := 1, minValue := 5, maxValue := 65,
    outlierDelta := 100, generateNegativeOutliers := false,
    multiDimensionalOutliersOnly := false, singleDimensionalOutliersOnly := false }

/-- Uniform run `-num-rows=1 -num-dims=2 -outlier-percentage=1 -min=5 -max=65
-outlier-delta=100 -negative-outliers=false -only-singledimenstional-outliers`. -/
def roundingUniform : Uniform.Config :=
  { numRows := 1, dimensionCount := 2, outlierPercentage := 1, minValue := 5, maxValue := 65,
    outlierDelta := 100, generateNegativeOutliers := false,
    multiDimensionalOutliersOnly := false, singleDimensionalOutliersOnly := true }

/-- The random source whose every integer draw is `0` and whose float draws are `1/2`, except
the second one, which is `1 - 2⁻⁵³`, the largest binary64 number below 1. -/
def nearOneRng : Rng :=
  { ints := fun _ => 0,
    floats := fun i => if i = 1 then 9007199254740991 / 9007199254740992 else 1 / 2,
    ipos := 0, fpos := 0 }
/-! ## Loop and random-source lemmas -/

theorem bind_eq_ok {ε α β : Type} (x : Except ε α) (f : α → Except ε β) (b : β) :
    x.bind f = .ok b ↔ ∃ a, x = .ok a ∧ f a = .ok b := by
  cases x <;> simp [Except.bind]

theorem ok_bind {ε α β : Type} (a : α) (f : α → Except ε β) :
    (Except.ok a : Except ε α).bind f = f a := rfl

theorem forRange_inv {σ : Type} (body : Nat → σ → Except Fault σ) (P : Nat → σ → Prop)
    (hi : Nat) (hstep : ∀ i s s1, i < hi → P i s → body i s = .ok s1 → P (i + 1) s1) :
    ∀ k i s s1, i + k ≤ hi → P i s → forRange body i k s = .ok s1 → P (i + k) s1 := by
  intro k
  induction k with
  | zero =>
    intro i s s1 _ hP h
    simp only [forRange, Except.ok.injEq] at h
    subst h
    simpa using hP
  | succ k ih =>
    intro i s s1 hle hP h
    simp only [forRange] at h
    obtain ⟨s2, h2, h3⟩ := (bind_eq_ok _ _ _).1 h
    have := ih (i + 1) s2 s1 (by omega) (hstep i s s2 (by omega) hP h2) h3
    have e : i + 1 + k = i + (k + 1) := by omega
    rw [e] at this
    exact this

theorem forRange_ok {σ : Type} (body : Nat → σ → Except Fault σ) (P : Nat → σ → Prop)
    (hi : Nat) (hstep : ∀ i s, i < hi → P i s → ∃ s1, body i s = .ok s1 ∧ P (i + 1) s1) :
    ∀ k i s, i + k ≤ hi → P i s → ∃ s1, forRange body i k s = .ok s1 := by
  intro k
  induction k with
  | zero => intro i s _ _; exact ⟨s, rfl⟩
  | succ k ih =>
    intro i s hle hP
    obtain ⟨s2, h2, hP2⟩ := hstep i s (by omega) hP
    obtain ⟨s3, h3⟩ := ih (i + 1) s2 (by omega) hP2
    refine ⟨s3, ?_⟩
    simp only [forRange, h2, ok_bind]
    exact h3

theorem whileLoop_exit {σ : Type} (cond : σ → Except Fault Bool)
    (body : σ → Except Fault σ) :
    ∀ fuel s s1, whileLoop cond body fuel s = .ok s1 → cond s1 = .ok false := by
  intro fuel
  induction fuel with
  | zero =>
    intro s s1 h
    simp only [whileLoop] at h
    obtain ⟨b, hb, h2⟩ := (bind_eq_ok _ _ _).1 h
    cases b
    · simp only [Bool.false_eq_true, if_false, Except.ok.injEq] at h2
      subst h2; exact hb
    · simp at h2
  | succ fuel ih =>
    intro s s1 h
    simp only [whileLoop] at h
    obtain ⟨b, hb, h2⟩ := (bind_eq_ok _ _ _).1 h
    cases b
    · simp only [Bool.false_eq_true, if_false, Except.ok.injEq] at h2
      subst h2; exact hb
    · simp only [if_true] at h2
      obtain ⟨s2, _, h3⟩ := (bind_eq_ok _ _ _).1 h2
      exact ih s2 s1 h3

theorem whileLoop_inv {σ : Type} (cond : σ → Except Fault Bool) (body : σ → Except Fault σ)
    (P : σ → Prop) (hstep : ∀ s s1, P s → cond s = .ok true → body s = .ok s1 → P s1) :
    ∀ fuel s s1, P s → whileLoop cond body fuel s = .ok s1 → P s1 := by
  intro fuel
  induction fuel with
  | zero =>
    intro s s1 hP h
    simp only [whileLoop] at h
    obtain ⟨b, hb, h2⟩ := (bind_eq_ok _ _ _).1 h
    cases b
    · simp only [Bool.false_eq_true, if_false, Except.ok.injEq] at h2
      subst h2; exact hP
    · simp at h2
  | succ fuel ih =>
    intro s s1 hP h
    simp only [whileLoop] at h
    obtain ⟨b, hb, h2⟩ := (bind_eq_ok _ _ _).1 h
    cases b
    · simp only [Bool.false_eq_true, if_false, Except.ok.injEq] at h2
      subst h2; exact hP
    · simp only [if_true] at h2
      obtain ⟨s2, hs2, h3⟩ := (bind_eq_ok _ _ _).1 h2
      exact ih s2 s1 (hstep s s2 hP hb hs2) h3

theorem Intn_eq_ok (g : Rng) (n : Int) (r : Nat × Rng) (h : g.Intn n = .ok r) :
    0 < n ∧ (r.1 : Int) < n ∧ r.1 = g.ints g.ipos % n.toNat := by
  unfold Rng.Intn at h
  split at h
  · simp at h
  · rename_i hn
    simp only [Except.ok.injEq] at h
    subst h
    have hn0 : 0 < n := by omega
    refine ⟨hn0, ?_, rfl⟩
    have : 0 < n.toNat := by omega
    have := Nat.mod_lt (g.ints g.ipos) this
    simp only
    omega

theorem Intn_pos (g : Rng) (n : Int) (h : 0 < n) :
    ∃ r, g.Intn n = .ok r := by
  unfold Rng.Intn
  rw [if_neg (by omega)]
  exact ⟨_, rfl⟩

theorem Float64_range (g : Rng) : 0 ≤ g.Float64.1 ∧ g.Float64.1 < 1 := by
  unfold Rng.Float64
  simp only
  split
  · assumption
  · norm_num

theorem swap_length {α : Type} (xs : List α) (i j : Nat) : (swap xs i j).length = xs.length := by
  unfold swap
  split <;> simp

theorem swap_perm {α : Type} [DecidableEq α] (xs : List α) (i j : Nat) :
    (swap xs i j).Perm xs := by
  unfold swap
  split
  · rename_i a b ha hb
    obtain ⟨hi, rfl⟩ := List.getElem?_eq_some_iff.1 ha
    obtain ⟨hj, rfl⟩ := List.getElem?_eq_some_iff.1 hb
    rw [List.perm_iff_count]
    intro x
    rw [List.count_set _ _ _ _ (by simpa using hj), List.count_set _ _ _ _ hi]
    have h1 := List.boole_getElem_le_countP (fun y => y == x) xs i hi
    have h2 := List.boole_getElem_le_countP (fun y => y == x) xs j hj
    rw [← List.count_eq_countP] at h1 h2
    by_cases hij : i = j
    · subst hij
      simp only [List.getElem_set_self]
      split_ifs at * <;> omega
    · rw [List.getElem_set_ne hij]
      simp only [beq_iff_eq] at h1 h2 ⊢
      split_ifs at * <;> omega
  · exact List.Perm.refl _

theorem shuffleLoop_spec {α : Type} [DecidableEq α] :
    ∀ (i : Nat) (xs : List α) (g : Rng),
      ∃ ys g1, shuffleLoop i xs g = .ok (ys, g1) ∧ ys.Perm xs := by
  intro i
  induction i with
  | zero => intro xs g; exact ⟨xs, g, rfl, List.Perm.refl _⟩
  | succ i ih =>
    intro xs g
    obtain ⟨r, hr⟩ := Intn_pos g (((i + 1 : Nat) : Int) + 1) (by omega)
    obtain ⟨ys, g1, h, hp⟩ := ih (swap xs (i + 1) r.1) r.2
    refine ⟨ys, g1, ?_, hp.trans (swap_perm _ _ _)⟩
    simp only [shuffleLoop, hr, ok_bind]
    exact h

theorem Shuffle_spec {α : Type} [DecidableEq α] (g : Rng) (xs : List α) :
    ∃ ys g1, g.Shuffle xs = .ok (ys, g1) ∧ ys.Perm xs :=
  shuffleLoop_spec _ xs g

/-! ## Slices and row batches -/

theorem make_eq_ok {α : Type} (z : α) (n : Int) (m : List α) (h : make z n = .ok m) :
    0 ≤ n ∧ m = List.replicate n.toNat z := by
  unfold make at h
  split at h
  · simp at h
  · simp only [Except.ok.injEq] at h
    exact ⟨by omega, h.symm⟩

theorem make_ok {α : Type} (z : α) (n : Int) (h : 0 ≤ n) :
    make z n = .ok (List.replicate n.toNat z) := by
  unfold make
  rw [if_neg (by omega)]

/-- A loop that stores one computed value per index keeps the length of the slice. -/
theorem fill_length (cell : Nat → Rng → Except Fault (ℚ × Rng)) :
    ∀ k i (s s1 : List ℚ × Rng),
      forRange (fun j s => (cell j s.2).bind (fun r => .ok (s.1.set j r.1, r.2))) i k s = .ok s1 →
      s1.1.length = s.1.length := by
  intro k i s s1 h
  have := forRange_inv _ (fun _ t => t.1.length = s.1.length) (i + k)
    (by
      intro j t t1 _ hP hb
      obtain ⟨r, _, h2⟩ := (bind_eq_ok _ _ _).1 hb
      simp only [Except.ok.injEq] at h2
      subst h2
      simpa using hP) k i s s1 (le_refl _) rfl h
  exact this

/-- A loop that stores one computed value per index succeeds when every computation does. -/
theorem fill_ok (cell : Nat → Rng → Except Fault (ℚ × Rng))
    (hcell : ∀ j g, ∃ r, cell j g = .ok r) :
    ∀ k i (s : List ℚ × Rng),
      ∃ s1, forRange (fun j s => (cell j s.2).bind (fun r => .ok (s.1.set j r.1, r.2))) i k s
        = .ok s1 := by
  intro k i s
  refine forRange_ok _ (fun _ _ => True) (i + k) ?_ k i s (le_refl _) trivial
  intro j t _ _
  obtain ⟨r, hr⟩ := hcell j t.2
  simp only [hr, ok_bind]
  exact ⟨_, rfl, trivial⟩

/-- A loop that appends one generated row per iteration: number and shape of the rows. -/
theorem rows_loop (rowGen : Rng → Except Fault (List ℚ × Rng)) (b : Bool)
    (Q : List ℚ → Prop)
    (hQ : ∀ g r, rowGen g = .ok r → Q r.1) :
    ∀ k i (s s1 : List dataRow × Rng),
      forRange (fun _ s => (rowGen s.2).bind (fun r =>
          .ok (s.1 ++ [{ IsOutlier := b, Measurements := r.1 }], r.2))) i k s = .ok s1 →
      s1.1.length = s.1.length + k ∧
        ∀ x ∈ s1.1, x ∈ s.1 ∨ (x.IsOutlier = b ∧ Q x.Measurements) := by
  intro k
  induction k with
  | zero =>
    intro i s s1 h
    simp only [forRange, Except.ok.injEq] at h
    subst h
    exact ⟨rfl, fun x hx => Or.inl hx⟩
  | succ k ih =>
    intro i s s1 h
    simp only [forRange] at h
    obtain ⟨s2, h2, h3⟩ := (bind_eq_ok _ _ _).1 h
    obtain ⟨r, hr, h4⟩ := (bind_eq_ok _ _ _).1 h2
    simp only [Except.ok.injEq] at h4
    subst h4
    obtain ⟨hl, hall⟩ := ih _ _ _ h3
    refine ⟨by simp only [List.length_append, List.length_singleton] at hl; omega, ?_⟩
    intro x hx
    rcases hall x hx with hx1 | hx1
    · simp only [List.mem_append, List.mem_singleton] at hx1
      rcases hx1 with hx1 | hx1
      · exact Or.inl hx1
      · subst hx1
        exact Or.inr ⟨rfl, hQ _ _ hr⟩
    · exact Or.inr hx1

/-- A loop that appends one generated row per iteration succeeds when the generator does. -/
theorem rows_loop_ok (rowGen : Rng → Except Fault (List ℚ × Rng)) (b : Bool)
    (hgen : ∀ g, ∃ r, rowGen g = .ok r) :
    ∀ k i (s : List dataRow × Rng),
      ∃ s1, forRange (fun _ s => (rowGen s.2).bind (fun r =>
          .ok (s.1 ++ [{ IsOutlier := b, Measurements := r.1 }], r.2))) i k s = .ok s1 := by
  intro k i s
  refine forRange_ok _ (fun _ _ => True) (i + k) ?_ k i s (le_refl _) trivial
  intro j t _ _
  obtain ⟨r, hr⟩ := hgen t.2
  simp only [hr, ok_bind]
  exact ⟨_, rfl, trivial⟩

/-! ## The uniform strategy -/

theorem uniform_getOutlierValue_ok (c : Uniform.Config) (g : Rng) :
    ∃ r, Uniform.getOutlierValue c g = .ok r := by
  obtain ⟨r, hr⟩ := Intn_pos g 2 (by norm_num)
  simp only [Uniform.getOutlierValue, hr, ok_bind]
  exact ⟨_, rfl⟩

theorem uniform_outlierCell_ok (c : Uniform.Config) (j : Nat) (g : Rng) :
    ∃ r, Uniform.outlierCell c j g = .ok r := by
  unfold Uniform.outlierCell
  split
  · exact uniform_getOutlierValue_ok c g
  · split
    · split
      · exact uniform_getOutlierValue_ok c g
      · exact ⟨_, rfl⟩
    · split
      · exact uniform_getOutlierValue_ok c g
      · obtain ⟨r, hr⟩ := Intn_pos g 2 (by norm_num)
        simp only [hr, ok_bind]
        split
        · exact uniform_getOutlierValue_ok c r.2
        · exact ⟨_, rfl⟩

theorem uniform_inlierRow_length (c : Uniform.Config) (g : Rng) (r : List ℚ × Rng)
    (h : Uniform.inlierRow c g = .ok r) : r.1.length = c.dimensionCount.toNat := by
  unfold Uniform.inlierRow at h
  obtain ⟨m, hm, h2⟩ := (bind_eq_ok _ _ _).1 h
  obtain ⟨_, rfl⟩ := make_eq_ok _ _ _ hm
  have := fill_length (fun _ g => .ok (Uniform.getValue c g)) _ _ _ _ h2
  simpa using this

theorem uniform_inlierRow_ok (c : Uniform.Config) (g : Rng) (hd : 0 ≤ c.dimensionCount) :
    ∃ r, Uniform.inlierRow c g = .ok r := by
  unfold Uniform.inlierRow
  rw [make_ok _ _ hd]
  exact fill_ok (fun _ g => .ok (Uniform.getValue c g)) (fun _ _ => ⟨_, rfl⟩) _ _ _

theorem uniform_outlierRow_length (c : Uniform.Config) (g : Rng) (r : List ℚ × Rng)
    (h : Uniform.outlierRow c g = .ok r) : r.1.length = c.dimensionCount.toNat := by
  unfold Uniform.outlierRow at h
  obtain ⟨m, hm, h2⟩ := (bind_eq_ok _ _ _).1 h
  obtain ⟨_, rfl⟩ := make_eq_ok _ _ _ hm
  obtain ⟨s, hs, h3⟩ := (bind_eq_ok _ _ _).1 h2
  have hl := fill_length (Uniform.outlierCell c) _ _ _ _ hs
  simp only [List.length_replicate] at hl
  split at h3
  · obtain ⟨ys, g1, hsh, hp⟩ := Shuffle_spec s.2 s.1
    rw [hsh] at h3
    simp only [Except.ok.injEq] at h3
    subst h3
    simpa [hp.length_eq] using hl
  · simp only [Except.ok.injEq] at h3
    subst h3
    exact hl

theorem uniform_outlierRow_ok (c : Uniform.Config) (g : Rng) (hd : 0 ≤ c.dimensionCount) :
    ∃ r, Uniform.outlierRow c g = .ok r := by
  unfold Uniform.outlierRow
  rw [make_ok _ _ hd]
  obtain ⟨s, hs⟩ := fill_ok (Uniform.outlierCell c) (uniform_outlierCell_ok c)
    (List.replicate c.dimensionCount.toNat (0 : ℚ)).length 0
    (List.replicate c.dimensionCount.toNat (0 : ℚ), g)
  simp only [hs, ok_bind]
  split
  · obtain ⟨ys, g1, hsh, _⟩ := Shuffle_spec s.2 s.1
    exact ⟨_, hsh⟩
  · exact ⟨_, rfl⟩

/-- Every completed run of `Uniform.main`: sizes and labels of the two batches, length of every row,
and the final dataset as a permutation of the concatenated batches. -/
theorem uniform_main_partial (c : Uniform.Config) (g : Rng) (r : Uniform.Locals) (g1 : Rng)
    (h : Uniform.main c g = .ok (r, g1)) :
    r.measurements.length
        = (c.numRows - toInt ((c.numRows : ℚ) * c.outlierPercentage)).toNat ∧
    r.outliers.length = (toInt ((c.numRows : ℚ) * c.outlierPercentage)).toNat ∧
    (∀ x ∈ r.measurements,
        x.IsOutlier = false ∧ x.Measurements.length = c.dimensionCount.toNat) ∧
    (∀ x ∈ r.outliers,
        x.IsOutlier = true ∧ x.Measurements.length = c.dimensionCount.toNat) ∧
    r.generatedMeasurements.Perm (r.outliers ++ r.measurements) := by
  unfold Uniform.main at h
  simp only at h
  obtain ⟨ms, hms, h2⟩ := (bind_eq_ok _ _ _).1 h
  obtain ⟨os, hos, h3⟩ := (bind_eq_ok _ _ _).1 h2
  obtain ⟨sh, hsh, h4⟩ := (bind_eq_ok _ _ _).1 h3
  simp only [Except.ok.injEq, Prod.mk.injEq] at h4
  obtain ⟨rfl, _⟩ := h4
  obtain ⟨hl1, ha1⟩ := rows_loop (Uniform.inlierRow c) false
    (fun m => m.length = c.dimensionCount.toNat) (uniform_inlierRow_length c) _ _ _ _ hms
  obtain ⟨hl2, ha2⟩ := rows_loop (Uniform.outlierRow c) true
    (fun m => m.length = c.dimensionCount.toNat) (uniform_outlierRow_length c) _ _ _ _ hos
  obtain ⟨ys, g2, hsh2, hp⟩ := Shuffle_spec os.2 (([] ++ os.1) ++ ms.1)
  rw [hsh2] at hsh
  simp only [Except.ok.injEq] at hsh
  subst hsh
  refine ⟨by simpa using hl1, by simpa using hl2, ?_, ?_, by simpa using hp⟩
  · intro x hx
    rcases ha1 x hx with h5 | h5
    · simp at h5
    · exact h5
  · intro x hx
    rcases ha2 x hx with h5 | h5
    · simp at h5
    · exact h5

/-- The program `Uniform.main` returns whenever the dimension count is not negative. -/
theorem uniform_main_ok (c : Uniform.Config) (g : Rng) (hd : 0 ≤ c.dimensionCount) :
    ∃ r g1, Uniform.main c g = .ok (r, g1) := by
  unfold Uniform.main
  simp only
  obtain ⟨ms, hms⟩ := rows_loop_ok (Uniform.inlierRow c) false
    (fun g => uniform_inlierRow_ok c g hd)
    (c.numRows - toInt ((c.numRows : ℚ) * c.outlierPercentage)).toNat 0 ([], g)
  obtain ⟨os, hos⟩ := rows_loop_ok (Uniform.outlierRow c) true (fun g => uniform_outlierRow_ok c g hd)
    (toInt ((c.numRows : ℚ) * c.outlierPercentage)).toNat 0 ([], ms.2)
  obtain ⟨ys, g2, hsh, _⟩ := Shuffle_spec os.2 (([] ++ os.1) ++ ms.1)
  simp only [hms, hos, hsh, ok_bind]
  exact ⟨_, _, rfl⟩

/-- For a fraction in `[0, 1]` of a non-negative row count, `int(float64(numRows) * fraction)`
is the floor of the product and lies between `0` and `numRows`. -/
theorem uniform_numOutliers_range (n : Int) (p : ℚ) (hn : 0 ≤ n) (h0 : 0 ≤ p) (h1 : p ≤ 1) :
    toInt ((n : ℚ) * p) = ⌊(n : ℚ) * p⌋ ∧ 0 ≤ ⌊(n : ℚ) * p⌋ ∧ ⌊(n : ℚ) * p⌋ ≤ n := by
  have hnq : (0 : ℚ) ≤ (n : ℚ) := by exact_mod_cast hn
  have hq : (0 : ℚ) ≤ (n : ℚ) * p := mul_nonneg hnq h0
  refine ⟨by simp [toInt, hq], Int.floor_nonneg.2 hq, ?_⟩
  have h2 : (n : ℚ) * p ≤ (n : ℚ) := by nlinarith
  have h3 := Int.floor_le ((n : ℚ) * p)
  have h4 : ((⌊(n : ℚ) * p⌋ : Int) : ℚ) ≤ (n : ℚ) := le_trans h3 h2
  exact_mod_cast h4

/-! ## Value synthesizers -/

theorem Intn_float (g : Rng) (n : Int) (r : Nat × Rng) (h : g.Intn n = .ok r) :
    r.2.Float64.1 = g.Float64.1 := by
  unfold Rng.Intn at h
  split at h
  · simp at h
  · simp only [Except.ok.injEq] at h
    subst h
    rfl

theorem lookup_mem {V : Type} (k : Int) (v : V) :
    ∀ m : List (Int × V), List.lookup k m = some v → (k, v) ∈ m := by
  intro m
  induction m with
  | nil => intro h; simp at h
  | cons e m ih =>
    intro h
    obtain ⟨a, b⟩ := e
    by_cases hk : k = a
    · subst hk
      simp only [List.lookup_cons, beq_self_eq_true] at h
      simp only [Option.some.injEq] at h
      subst h
      exact List.mem_cons_self _ _
    · have hb : (k == a) = false := by simpa using hk
      simp only [List.lookup_cons, hb] at h
      exact List.mem_cons_of_mem _ (ih h)

/-- The value returned by the uniform `getOutlierValue`, in terms of the two draws. -/
theorem uniform_getOutlierValue_eq (c : Uniform.Config) (g : Rng) :
    ∃ g1, Uniform.getOutlierValue c g = .ok
      (if (g.ints g.ipos % 2 == 0 && c.generateNegativeOutliers) = true
        then (c.maxValue + g.Float64.1 * c.outlierDelta) * -1
        else c.maxValue + g.Float64.1 * c.outlierDelta, g1) := by
  obtain ⟨r, hr⟩ := Intn_pos g 2 (by norm_num)
  have hf := Intn_float g 2 r hr
  have h1 := (Intn_eq_ok g 2 r hr).2.2
  simp only [Uniform.getOutlierValue, hr, ok_bind, hf, h1]
  exact ⟨_, rfl⟩

/-- One resampling step of the cluster synthesizer yields `u × (clusterMax × 1.25)` for a draw
`u` in `[0, 1)`, or its negation when the negative-outliers flag is on. -/
theorem cluster_resample_form (c : Cluster.Config) (s s1 : ℚ × Rng)
    (h : Cluster.resample c s = .ok s1) :
    ∃ u : ℚ, 0 ≤ u ∧ u < 1 ∧
      (s1.1 = u * (c.clusterMax * 1.25) ∨
        (c.generateNegativeOutliers = true ∧ s1.1 = -(u * (c.clusterMax * 1.25)))) := by
  unfold Cluster.resample at h
  obtain ⟨r, _, h2⟩ := (bind_eq_ok _ _ _).1 h
  simp only [Except.ok.injEq] at h2
  subst h2
  refine ⟨r.2.Float64.1, (Float64_range r.2).1, (Float64_range r.2).2, ?_⟩
  simp only
  split
  · rename_i hneg
    simp only [Bool.and_eq_true] at hneg
    exact Or.inr ⟨hneg.2, by ring⟩
  · exact Or.inl rfl

/-- One resampling step of the sine synthesizer yields `max + u × outlierDelta` for a draw `u`
in `[0, 1)`, or its negation. -/
theorem sine_resample_form (c : Sine.Config) (s s1 : ℚ × Rng)
    (h : Sine.resample c s = .ok s1) :
    ∃ u : ℚ, 0 ≤ u ∧ u < 1 ∧
      (s1.1 = c.maxValue + u * c.outlierDelta ∨ s1.1 = -(c.maxValue + u * c.outlierDelta)) := by
  unfold Sine.resample at h
  obtain ⟨r, _, h2⟩ := (bind_eq_ok _ _ _).1 h
  simp only [Except.ok.injEq] at h2
  subst h2
  refine ⟨r.2.Float64.1, (Float64_range r.2).1, (Float64_range r.2).2, ?_⟩
  simp only
  split
  · exact Or.inr (by ring)
  · exact Or.inl rfl

/-- A value returned by the cluster `getOutlierValue` is not prohibited. -/
theorem cluster_getOutlierValue_exit (c : Cluster.Config) (m : GoMap ℚ) (fuel : Nat) (g : Rng)
    (r : ℚ × Rng) (h : Cluster.getOutlierValue c m fuel g = .ok r) :
    Cluster.isProhibited c r.1 m = false := by
  have := whileLoop_exit _ _ _ _ _ h
  simpa using this

/-- A value returned by the sine `getOutlierValue` is outside the band of the wave. -/
theorem sine_getOutlierValue_exit (c : Sine.Config) (idx : Int) (fuel : Nat) (g : Rng)
    (r : ℚ × Rng) (h : Sine.getOutlierValue c idx fuel g = .ok r) :
    Sine.inBand c r.1 = false := by
  have := whileLoop_exit _ _ _ _ _ h
  simpa using this

theorem cluster_inBand_iff (c : Cluster.Config) (v f : ℚ) :
    Cluster.inBand c v f = true ↔
      f - c.clusterSpread / 2 ≤ v ∧ v ≤ f + c.clusterSpread / 2 := by
  simp [Cluster.inBand]

theorem sine_inBand_iff (c : Sine.Config) (v : ℚ) :
    Sine.inBand c v = true ↔ c.offset - c.amplitude ≤ v ∧ v ≤ c.offset + c.amplitude := by
  simp [Sine.inBand]

/-- A value returned by the cluster `getOutlierValue` is the initial candidate `m[0]` or the
result of a resampling step. -/
theorem cluster_getOutlierValue_form (c : Cluster.Config) (m : GoMap ℚ) (fuel : Nat) (g : Rng)
    (r : ℚ × Rng) (h : Cluster.getOutlierValue c m fuel g = .ok r) :
    r.1 = GoMap.read m 0 0 ∨ ∃ u : ℚ, 0 ≤ u ∧ u < 1 ∧
      (r.1 = u * (c.clusterMax * 1.25) ∨
        (c.generateNegativeOutliers = true ∧ r.1 = -(u * (c.clusterMax * 1.25)))) :=
  whileLoop_inv (fun s : ℚ × Rng => .ok (Cluster.isProhibited c s.1 m)) (Cluster.resample c)
    (fun s : ℚ × Rng => s.1 = GoMap.read m 0 0 ∨ ∃ u : ℚ, 0 ≤ u ∧ u < 1 ∧
      (s.1 = u * (c.clusterMax * 1.25) ∨
        (c.generateNegativeOutliers = true ∧ s.1 = -(u * (c.clusterMax * 1.25)))))
    (fun s s1 _ _ hb => Or.inr (cluster_resample_form c s s1 hb))
    fuel (GoMap.read m 0 0, g) r (Or.inl rfl) h

/-- A value returned by the sine `getOutlierValue` is the initial candidate or the result of a
resampling step. -/
theorem sine_getOutlierValue_form (c : Sine.Config) (idx : Int) (fuel : Nat) (g : Rng)
    (r : ℚ × Rng) (h : Sine.getOutlierValue c idx fuel g = .ok r) :
    r.1 = c.offset + c.amplitude * 0.5 ∨ ∃ u : ℚ, 0 ≤ u ∧ u < 1 ∧
      (r.1 = c.maxValue + u * c.outlierDelta ∨ r.1 = -(c.maxValue + u * c.outlierDelta)) :=
  whileLoop_inv (fun s : ℚ × Rng => .ok (Sine.inBand c s.1)) (Sine.resample c)
    (fun s : ℚ × Rng => s.1 = c.offset + c.amplitude * 0.5 ∨ ∃ u : ℚ, 0 ≤ u ∧ u < 1 ∧
      (s.1 = c.maxValue + u * c.outlierDelta ∨ s.1 = -(c.maxValue + u * c.outlierDelta)))
    (fun s s1 _ _ hb => Or.inr (sine_resample_form c s s1 hb))
    fuel (c.offset + c.amplitude * 0.5, g) r (Or.inl rfl) h

/-! ## Row updates and the injection loop -/

theorem index_eq_ok {α : Type} (xs : List α) (i : Nat) (a : α) :
    index xs i = .ok a ↔ xs[i]? = some a := by
  unfold index
  cases h : xs[i]? <;> simp

theorem markOutlier_eq_ok (ms : List dataRow) (mIdx : Nat) (ms1 : List dataRow)
    (h : markOutlier ms mIdx = .ok ms1) :
    ∃ row, ms[mIdx]? = some row ∧ ms1 = ms.set mIdx { row with IsOutlier := true } := by
  unfold markOutlier at h
  obtain ⟨row, hrow, h2⟩ := (bind_eq_ok _ _ _).1 h
  simp only [Except.ok.injEq] at h2
  exact ⟨row, (index_eq_ok _ _ _).1 hrow, h2.symm⟩

theorem setMeasurement_eq_ok (ms : List dataRow) (mIdx dim : Nat) (v : ℚ) (ms1 : List dataRow)
    (h : setMeasurement ms mIdx dim v = .ok ms1) :
    ∃ row, ms[mIdx]? = some row ∧ dim < row.Measurements.length ∧
      ms1 = ms.set mIdx { row with Measurements := row.Measurements.set dim v } := by
  unfold setMeasurement at h
  obtain ⟨row, hrow, h2⟩ := (bind_eq_ok _ _ _).1 h
  obtain ⟨m, hm, h3⟩ := (bind_eq_ok _ _ _).1 h2
  unfold assign at hm
  split at hm
  · rename_i hlt
    simp only [Except.ok.injEq] at hm h3
    subst hm
    exact ⟨row, (index_eq_ok _ _ _).1 hrow, hlt, h3.symm⟩
  · simp at hm

theorem rowLen_eq_ok (ms : List dataRow) (mIdx n : Nat) (h : rowLen ms mIdx = .ok n) :
    ∃ row, ms[mIdx]? = some row ∧ n = row.Measurements.length := by
  unfold rowLen at h
  obtain ⟨row, hrow, h2⟩ := (bind_eq_ok _ _ _).1 h
  simp only [Except.ok.injEq] at h2
  exact ⟨row, (index_eq_ok _ _ _).1 hrow, h2.symm⟩

theorem notOutlier_eq_ok (mIdx : Nat) (s : List dataRow × Rng) (b : Bool)
    (h : notOutlier mIdx s = .ok b) :
    ∃ row, s.1[mIdx]? = some row ∧ b = !row.IsOutlier := by
  unfold notOutlier at h
  obtain ⟨row, hrow, h2⟩ := (bind_eq_ok _ _ _).1 h
  simp only [Except.ok.injEq] at h2
  exact ⟨row, (index_eq_ok _ _ _).1 hrow, h2.symm⟩

/-- Labelling row `mIdx` and then storing `v` in its dimension `dim`, as one update. -/
theorem mark_then_set (ms : List dataRow) (mIdx n dim : Nat) (v : ℚ) (ms1 ms2 : List dataRow)
    (h1 : markOutlier ms mIdx = .ok ms1) (h2 : rowLen ms1 mIdx = .ok n)
    (h3 : setMeasurement ms1 mIdx dim v = .ok ms2) :
    ∃ row, ms[mIdx]? = some row ∧ n = row.Measurements.length ∧
      dim < row.Measurements.length ∧
      ms2 = ms.set mIdx { IsOutlier := true, Measurements := row.Measurements.set dim v } := by
  obtain ⟨row, hrow, rfl⟩ := markOutlier_eq_ok ms mIdx ms1 h1
  have hlt : mIdx < ms.length := (List.getElem?_eq_some_iff.1 hrow).1
  have hget : (ms.set mIdx { row with IsOutlier := true })[mIdx]?
      = some { row with IsOutlier := true } := List.getElem?_set_self hlt
  obtain ⟨row1, hrow1, hn⟩ := rowLen_eq_ok _ _ _ h2
  obtain ⟨row2, hrow2, hd, hms2⟩ := setMeasurement_eq_ok _ _ _ _ _ h3
  rw [hget] at hrow1 hrow2
  simp only [Option.some.injEq] at hrow1 hrow2
  subst hrow1 hrow2
  refine ⟨row, hrow, hn, hd, ?_⟩
  rw [hms2, List.set_set]

/-- An invariant of the dataset that every execution of the body of the loop over `mIdx`
preserves is preserved by the whole injection loop. -/
theorem inject_loop_inv (P : List dataRow → Prop) (numRows : Int) (fuel : Nat)
    (body : Nat → Nat → List dataRow × Rng → Except Fault (List dataRow × Rng))
    (hbody : ∀ (i mIdx : Nat) (s s1 : List dataRow × Rng), P s.1 → (mIdx : Int) < numRows →
      notOutlier mIdx s = .ok true →
      body i mIdx s = .ok s1 → P s1.1) :
    ∀ k i (s s1 : List dataRow × Rng), P s.1 →
      forRange (fun i t => (t.2.Intn numRows).bind (fun r =>
        whileLoop (notOutlier r.1) (body i r.1) fuel (t.1, r.2))) i k s = .ok s1 → P s1.1 := by
  intro k i s s1 hP h
  refine forRange_inv _ (fun _ t => P t.1) (i + k) ?_ k i s s1 (le_refl _) hP h
  intro j t t1 _ hPt hstep
  obtain ⟨r, hr, hw⟩ := (bind_eq_ok _ _ _).1 hstep
  have hlt := (Intn_eq_ok _ _ _ hr).2.1
  exact whileLoop_inv (notOutlier r.1) (body j r.1) (fun u => P u.1)
    (fun u u1 hu hc hb => hbody j r.1 u u1 hu hlt hc hb) fuel (t.1, r.2) t1 hPt hw

/-! ## Single-only injection -/

theorem singleInjected_refl (fails : Nat → ℚ → Prop) (ms0 : List dataRow)
    (h : ∀ r ∈ ms0, r.IsOutlier = false) : SingleInjected fails ms0 ms0 := by
  refine ⟨rfl, ?_⟩
  intro idx r r0 hr hr0
  rw [hr] at hr0
  simp only [Option.some.injEq] at hr0
  subst hr0
  refine ⟨fun _ => rfl, ?_⟩
  intro ht
  have := h r (List.getElem?_mem hr)
  rw [this] at ht
  exact Bool.noConfusion ht

theorem singleInjected_set (fails : Nat → ℚ → Prop) (ms0 ms : List dataRow) (mIdx dim : Nat)
    (row : dataRow) (v : ℚ) (hinv : SingleInjected fails ms0 ms)
    (hrow : ms[mIdx]? = some row) (hno : row.IsOutlier = false)
    (hd : dim < row.Measurements.length) (hv : fails dim v) :
    SingleInjected fails ms0
      (ms.set mIdx { IsOutlier := true, Measurements := row.Measurements.set dim v }) := by
  obtain ⟨hlen, hall⟩ := hinv
  have hlt : mIdx < ms.length := (List.getElem?_eq_some_iff.1 hrow).1
  refine ⟨by rw [List.length_set, hlen], ?_⟩
  intro idx r r0 hr hr0
  by_cases hidx : mIdx = idx
  · subst hidx
    rw [List.getElem?_set_self hlt] at hr
    simp only [Option.some.injEq] at hr
    subst hr
    have hrr0 : row = r0 := (hall mIdx row r0 hrow hr0).1 hno
    subst hrr0
    refine ⟨fun hf => Bool.noConfusion hf, fun _ => ⟨dim, v, hd, hv, rfl⟩⟩
  · rw [List.getElem?_set_ne hidx] at hr
    exact hall idx r r0 hr hr0

/-- In a dataset reached by single-only injection from inlier rows whose values all pass the
test, a labelled row has exactly one position whose value fails the test, and its other
positions hold the original values. -/
theorem singleInjected_exactly_one (fails : Nat → ℚ → Prop) (ms0 ms : List dataRow)
    (hinv : SingleInjected fails ms0 ms)
    (hin : ∀ r0 ∈ ms0, ∀ (d : Nat) (w : ℚ), r0.Measurements[d]? = some w → ¬ fails d w) :
    ∀ (idx : Nat) (r : dataRow), ms[idx]? = some r → r.IsOutlier = true →
      ∃ (r0 : dataRow) (d : Nat), ms0[idx]? = some r0 ∧ d < r.Measurements.length ∧
        (∀ (e : Nat) (w : ℚ), r.Measurements[e]? = some w → (fails e w ↔ e = d)) ∧
        ∀ e : Nat, e ≠ d → r.Measurements[e]? = r0.Measurements[e]? := by
  intro idx r hr hout
  obtain ⟨hlen, hall⟩ := hinv
  have hlt : idx < ms0.length := by
    rw [← hlen]
    exact (List.getElem?_eq_some_iff.1 hr).1
  have hr0 : ms0[idx]? = some ms0[idx] := List.getElem?_eq_getElem hlt
  obtain ⟨d, v, hd, hv, hM⟩ := (hall idx r ms0[idx] hr hr0).2 hout
  refine ⟨ms0[idx], d, hr0, by rw [hM, List.length_set]; exact hd, ?_, ?_⟩
  · intro e w hw
    by_cases hed : e = d
    · subst hed
      rw [hM, List.getElem?_set_self hd] at hw
      simp only [Option.some.injEq] at hw
      subst hw
      exact ⟨fun _ => rfl, fun _ => hv⟩
    · rw [hM, List.getElem?_set_ne (Ne.symm hed)] at hw
      exact ⟨fun hf => absurd hf (hin _ (List.getElem?_mem hr0) e w hw), fun h => absurd h hed⟩
  · intro e hed
    rw [hM, List.getElem?_set_ne (Ne.symm hed)]

/-- A loop that stores one computed value per index: every stored value has the property that
the computation guarantees for its index. -/
theorem fill_values (cell : Nat → Rng → Except Fault (ℚ × Rng)) (Q : Nat → ℚ → Prop)
    (hcell : ∀ j g r, cell j g = .ok r → Q j r.1) (m : List ℚ) (g : Rng)
    (s1 : List ℚ × Rng)
    (h : forRange (fun j s => (cell j s.2).bind (fun r => .ok (s.1.set j r.1, r.2)))
      0 m.length (m, g) = .ok s1) :
    ∀ (d : Nat) (w : ℚ), s1.1[d]? = some w → Q d w := by
  have key := forRange_inv _
    (fun j (t : List ℚ × Rng) => t.1.length = m.length ∧
      ∀ (d : Nat) (w : ℚ), d < j → t.1[d]? = some w → Q d w) (0 + m.length)
    (by
      intro j t t1 hj hP hb
      obtain ⟨r, hr, h2⟩ := (bind_eq_ok _ _ _).1 hb
      simp only [Except.ok.injEq] at h2
      subst h2
      refine ⟨by simpa using hP.1, ?_⟩
      intro d w hd hw
      by_cases hdj : j = d
      · subst hdj
        rw [List.getElem?_set_self (by rw [hP.1]; omega)] at hw
        simp only [Option.some.injEq] at hw
        subst hw
        exact hcell _ _ _ hr
      · rw [List.getElem?_set_ne hdj] at hw
        exact hP.2 d w (by omega) hw)
    m.length 0 (m, g) s1 (le_refl _) ⟨rfl, fun d w hd => absurd hd (Nat.not_lt_zero d)⟩ h
  intro d w hw
  have hlt : d < s1.1.length := (List.getElem?_eq_some_iff.1 hw).1
  exact key.2 d w (by rw [key.1] at hlt; omega) hw

/-! ## Single-only injection in the cluster strategy -/

theorem cluster_injectBody_single (c : Cluster.Config) (cl : Cluster.Clusters)
    (fuel mIdx : Nat) (s s1 : List dataRow × Rng)
    (hm : c.multiDimensionalOutliersOnly = false) (hsg : c.singleDimensionalOutliersOnly = true)
    (h : Cluster.injectBody c cl fuel mIdx s = .ok s1) :
    ∃ (row : dataRow) (dim : Nat) (v : ℚ), s.1[mIdx]? = some row ∧
      dim < row.Measurements.length ∧
      Cluster.isProhibited c v (GoMap.read cl.clusterOffsets (dim : Int) []) = false ∧
      s1.1 = s.1.set mIdx { IsOutlier := true, Measurements := row.Measurements.set dim v } := by
  unfold Cluster.injectBody at h
  obtain ⟨ms1, h1, h⟩ := (bind_eq_ok _ _ _).1 h
  obtain ⟨n, h2, h⟩ := (bind_eq_ok _ _ _).1 h
  simp only [hm, hsg, Bool.false_and, Bool.not_false, Bool.true_and, Bool.false_eq_true,
    if_false, if_true] at h
  obtain ⟨q, _, h⟩ := (bind_eq_ok _ _ _).1 h
  unfold Cluster.placeOutlier at h
  obtain ⟨rv, hrv, h⟩ := (bind_eq_ok _ _ _).1 h
  obtain ⟨ms2, h3, h⟩ := (bind_eq_ok _ _ _).1 h
  simp only [Except.ok.injEq] at h
  subst h
  obtain ⟨row, hrow, _, hd, hms2⟩ := mark_then_set _ _ _ _ _ _ _ h1 h2 h3
  exact ⟨row, q.1, rv.1, hrow, hd, cluster_getOutlierValue_exit _ _ _ _ _ hrv, hms2⟩

theorem cluster_inject_single (c : Cluster.Config) (cl : Cluster.Clusters) (fuel : Nat)
    (n : Int) (ms0 : List dataRow) (s s1 : List dataRow × Rng)
    (hm : c.multiDimensionalOutliersOnly = false) (hsg : c.singleDimensionalOutliersOnly = true)
    (hinv : SingleInjected
      (fun d v => Cluster.isProhibited c v (GoMap.read cl.clusterOffsets (d : Int) []) = false)
      ms0 s.1)
    (h : Cluster.inject c cl fuel n s = .ok s1) :
    SingleInjected
      (fun d v => Cluster.isProhibited c v (GoMap.read cl.clusterOffsets (d : Int) []) = false)
      ms0 s1.1 := by
  refine inject_loop_inv (fun ms => SingleInjected
      (fun d v => Cluster.isProhibited c v (GoMap.read cl.clusterOffsets (d : Int) []) = false)
      ms0 ms) c.numRows fuel (fun _ mIdx => Cluster.injectBody c cl fuel mIdx) ?_
    n.toNat 0 s s1 hinv h
  intro _ mIdx t t1 hP _ hc hb
  obtain ⟨row1, hrow1, hflag⟩ := notOutlier_eq_ok mIdx t true hc
  obtain ⟨row, dim, v, hrow, hd, hv, ht1⟩ := cluster_injectBody_single c cl fuel mIdx t t1 hm hsg hb
  rw [hrow] at hrow1
  simp only [Option.some.injEq] at hrow1
  subst hrow1
  rw [ht1]
  exact singleInjected_set _ ms0 t.1 mIdx dim row v hP hrow (by simpa using hflag.symm) hd hv

/-- An inlier value of the cluster strategy lies in a band of its dimension when the centres of
the dimension are stored at the indices below its cluster count. -/
theorem cluster_inlierCell_prohibited (c : Cluster.Config) (cl : Cluster.Clusters) (j : Nat)
    (g : Rng) (r : ℚ × Rng) (hs : 0 ≤ c.clusterSpread)
    (hkeys : ∀ (k : Int), index cl.clusterCount j = .ok k → ∀ i : Nat, (i : Int) < k →
      ∃ f, List.lookup (i : Int) (GoMap.read cl.clusterOffsets (j : Int) []) = some f)
    (h : Cluster.inlierCell c cl j g = .ok r) :
    Cluster.isProhibited c r.1 (GoMap.read cl.clusterOffsets (j : Int) []) = true := by
  unfold Cluster.inlierCell at h
  obtain ⟨k, hk, h⟩ := (bind_eq_ok _ _ _).1 h
  obtain ⟨q, hq, h⟩ := (bind_eq_ok _ _ _).1 h
  simp only [Except.ok.injEq] at h
  subst h
  obtain ⟨_, hlt, _⟩ := Intn_eq_ok g k q hq
  obtain ⟨f, hf⟩ := hkeys k hk q.1 hlt
  obtain ⟨hu0, hu1⟩ := Float64_range q.2
  have hread : GoMap.read (GoMap.read cl.clusterOffsets (j : Int) []) (q.1 : Int) 0 = f := by
    rw [GoMap.read, hf]
    rfl
  simp only [hread]
  refine List.any_eq_true.2 ⟨_, lookup_mem _ _ _ hf, (cluster_inBand_iff c _ f).2 ⟨?_, ?_⟩⟩
  · have := mul_nonneg hu0 hs
    linarith
  · have : q.2.Float64.1 * c.clusterSpread ≤ 1 * c.clusterSpread :=
      mul_le_mul_of_nonneg_right (le_of_lt hu1) hs
    linarith

theorem cluster_inliers_prohibited (c : Cluster.Config) (cl : Cluster.Clusters) (g : Rng)
    (s : List dataRow × Rng) (hs : 0 ≤ c.clusterSpread)
    (hcl : ∀ (j : Nat) (k : Int), index cl.clusterCount j = .ok k → ∀ i : Nat, (i : Int) < k →
      ∃ f, List.lookup (i : Int) (GoMap.read cl.clusterOffsets (j : Int) []) = some f)
    (h : Cluster.inliers c cl g = .ok s) :
    ∀ x ∈ s.1, x.IsOutlier = false ∧ ∀ (d : Nat) (w : ℚ), x.Measurements[d]? = some w →
      Cluster.isProhibited c w (GoMap.read cl.clusterOffsets (d : Int) []) = true := by
  have hrow : ∀ g1 r, Cluster.inlierRow c cl g1 = .ok r →
      ∀ (d : Nat) (w : ℚ), r.1[d]? = some w →
        Cluster.isProhibited c w (GoMap.read cl.clusterOffsets (d : Int) []) = true := by
    intro g1 r hr
    unfold Cluster.inlierRow at hr
    obtain ⟨m, _, h2⟩ := (bind_eq_ok _ _ _).1 hr
    exact fill_values (Cluster.inlierCell c cl)
      (fun d w => Cluster.isProhibited c w (GoMap.read cl.clusterOffsets (d : Int) []) = true)
      (fun j g2 r2 h3 => cluster_inlierCell_prohibited c cl j g2 r2 hs (hcl j) h3) m g1 r h2
  unfold Cluster.inliers at h
  obtain ⟨_, hall⟩ := rows_loop (Cluster.inlierRow c cl) false
    (fun m => ∀ (d : Nat) (w : ℚ), m[d]? = some w →
      Cluster.isProhibited c w (GoMap.read cl.clusterOffsets (d : Int) []) = true)
    hrow _ _ _ _ h
  intro x hx
  rcases hall x hx with h5 | h5
  · simp at h5
  · exact h5

/-! ## Single-only injection in the sine strategy -/

theorem sine_injectBody_single (c : Sine.Config) (fuel i mIdx : Nat)
    (s s1 : List dataRow × Rng)
    (hm : c.multiDimensionalOutliersOnly = false) (hsg : c.singleDimensionalOutliersOnly = true)
    (h : Sine.injectBody c fuel i mIdx s = .ok s1) :
    ∃ (row : dataRow) (dim : Nat) (v : ℚ), s.1[mIdx]? = some row ∧
      dim < row.Measurements.length ∧ Sine.inBand c v = false ∧
      s1.1 = s.1.set mIdx { IsOutlier := true, Measurements := row.Measurements.set dim v } := by
  unfold Sine.injectBody at h
  obtain ⟨ms1, h1, h⟩ := (bind_eq_ok _ _ _).1 h
  obtain ⟨n, h2, h⟩ := (bind_eq_ok _ _ _).1 h
  simp only [hm, hsg, Bool.false_and, Bool.not_false, Bool.true_and, Bool.false_eq_true,
    if_false, if_true] at h
  obtain ⟨q, _, h⟩ := (bind_eq_ok _ _ _).1 h
  unfold Sine.placeOutlier at h
  obtain ⟨rv, hrv, h⟩ := (bind_eq_ok _ _ _).1 h
  obtain ⟨ms2, h3, h⟩ := (bind_eq_ok _ _ _).1 h
  simp only [Except.ok.injEq] at h
  subst h
  obtain ⟨row, hrow, _, hd, hms2⟩ := mark_then_set _ _ _ _ _ _ _ h1 h2 h3
  exact ⟨row, q.1, rv.1, hrow, hd, sine_getOutlierValue_exit _ _ _ _ _ hrv, hms2⟩

theorem sine_inject_single (c : Sine.Config) (fuel : Nat) (n : Int) (ms0 : List dataRow)
    (s s1 : List dataRow × Rng)
    (hm : c.multiDimensionalOutliersOnly = false) (hsg : c.singleDimensionalOutliersOnly = true)
    (hinv : SingleInjected (fun _ v => Sine.inBand c v = false) ms0 s.1)
    (h : Sine.inject c fuel n s = .ok s1) :
    SingleInjected (fun _ v => Sine.inBand c v = false) ms0 s1.1 := by
  refine inject_loop_inv (fun ms => SingleInjected (fun _ v => Sine.inBand c v = false) ms0 ms)
    c.numRows fuel (fun i mIdx => Sine.injectBody c fuel i mIdx) ?_ n.toNat 0 s s1 hinv h
  intro i mIdx t t1 hP _ hc hb
  obtain ⟨row1, hrow1, hflag⟩ := notOutlier_eq_ok mIdx t true hc
  obtain ⟨row, dim, v, hrow, hd, hv, ht1⟩ := sine_injectBody_single c fuel i mIdx t t1 hm hsg hb
  rw [hrow] at hrow1
  simp only [Option.some.injEq] at hrow1
  subst hrow1
  rw [ht1]
  exact singleInjected_set _ ms0 t.1 mIdx dim row v hP hrow (by simpa using hflag.symm) hd hv

/-- With `amplitude ≥ 0` and a sine function with values in `[-1, 1]`, `getSineValue` lies in
the band of the wave. -/
theorem sine_getSineValue_inBand (sin : ℚ → ℚ) (c : Sine.Config) (x : ℚ)
    (ha : 0 ≤ c.amplitude) (hsin : ∀ y, -1 ≤ sin y ∧ sin y ≤ 1) :
    Sine.inBand c (Sine.getSineValue sin c x) = true := by
  rw [sine_inBand_iff]
  unfold Sine.getSineValue
  obtain ⟨h1, h2⟩ := hsin x
  constructor
  · nlinarith
  · nlinarith

theorem sine_inliers_inBand (sin : ℚ → ℚ) (c : Sine.Config) (st : List Int)
    (ms : List dataRow) (ha : 0 ≤ c.amplitude) (hsin : ∀ y, -1 ≤ sin y ∧ sin y ≤ 1)
    (h : Sine.inliers sin c st = .ok ms) :
    ∀ x ∈ ms, x.IsOutlier = false ∧
      ∀ (d : Nat) (w : ℚ), x.Measurements[d]? = some w → Sine.inBand c w = true := by
  have hrow : ∀ i m, Sine.inlierRow sin c st i = .ok m →
      ∀ (d : Nat) (w : ℚ), m[d]? = some w → Sine.inBand c w = true := by
    intro i m hm
    unfold Sine.inlierRow at hm
    obtain ⟨m0, _, h2⟩ := (bind_eq_ok _ _ _).1 hm
    have key := forRange_inv _
      (fun j (t : List ℚ) => t.length = m0.length ∧
        ∀ (d : Nat) (w : ℚ), d < j → t[d]? = some w → Sine.inBand c w = true) (0 + m0.length)
      (by
        intro j t t1 hj hP hb
        obtain ⟨r, _, h3⟩ := (bind_eq_ok _ _ _).1 hb
        simp only [Except.ok.injEq] at h3
        subst h3
        refine ⟨by simpa using hP.1, ?_⟩
        intro d w hd hw
        by_cases hdj : j = d
        · subst hdj
          rw [List.getElem?_set_self (by rw [hP.1]; omega)] at hw
          simp only [Option.some.injEq] at hw
          subst hw
          exact sine_getSineValue_inBand sin c _ ha hsin
        · rw [List.getElem?_set_ne hdj] at hw
          exact hP.2 d w (by omega) hw)
      m0.length 0 m0 m (le_refl _) ⟨rfl, fun d w hd => absurd hd (Nat.not_lt_zero d)⟩ h2
    intro d w hw
    have hlt : d < m.length := (List.getElem?_eq_some_iff.1 hw).1
    exact key.2 d w (by rw [key.1] at hlt; omega) hw
  unfold Sine.inliers at h
  exact forRange_inv _
    (fun _ (t : List dataRow) => ∀ x ∈ t, x.IsOutlier = false ∧
      ∀ (d : Nat) (w : ℚ), x.Measurements[d]? = some w → Sine.inBand c w = true)
    (0 + c.numRows.toNat)
    (by
      intro i t t1 _ hP hb
      obtain ⟨m, hm, h3⟩ := (bind_eq_ok _ _ _).1 hb
      simp only [Except.ok.injEq] at h3
      subst h3
      intro x hx
      rcases List.mem_append.1 hx with hx1 | hx1
      · exact hP x hx1
      · simp only [List.mem_singleton] at hx1
        subst hx1
        exact ⟨rfl, hrow i m hm⟩)
    c.numRows.toNat 0 [] ms (le_refl _) (fun x hx => absurd hx (List.not_mem_nil x)) h

/-! ## Facts about the concrete inputs -/

theorem boundedWave_range (y : ℚ) : -1 ≤ boundedWave y ∧ boundedWave y ≤ 1 := by
  unfold boundedWave
  have hpos : 0 < 1 + y * y := by nlinarith [mul_self_nonneg y]
  constructor
  · rw [le_div_iff₀ hpos]
    nlinarith [mul_self_nonneg (y + 1)]
  · rw [div_le_iff₀ hpos]
    nlinarith [mul_self_nonneg (y - 1)]

/-! ## Maps and the cluster setup -/

theorem lookup_filter_ne {V : Type} (k a : Int) (hne : a ≠ k) :
    ∀ m : List (Int × V), List.lookup a (m.filter (fun e => e.1 != k)) = List.lookup a m := by
  intro m
  induction m with
  | nil => rfl
  | cons e m ih =>
    obtain ⟨b, v⟩ := e
    by_cases hb : b = k
    · subst hb
      have h2 : (a == b) = false := by simpa using hne
      simp only [List.filter_cons, bne_self_eq_false, Bool.false_eq_true, if_false,
        List.lookup_cons, h2]
      exact ih
    · have h1 : (b != k) = true := by simpa using hb
      simp only [List.filter_cons, h1, if_true, List.lookup_cons]
      cases (a == b)
      · exact ih
      · rfl

theorem lookup_write_self {V : Type} (m : GoMap V) (k : Int) (v : V) :
    List.lookup k (GoMap.write m k v) = some v := by
  simp [GoMap.write, List.lookup_cons]

theorem lookup_write_ne {V : Type} (m : GoMap V) (k a : Int) (v : V) (hne : a ≠ k) :
    List.lookup a (GoMap.write m k v) = List.lookup a m := by
  have h2 : (a == k) = false := by simpa using hne
  unfold GoMap.write
  rw [List.lookup_cons, h2]
  exact lookup_filter_ne k a hne m

theorem read_write_self {V : Type} (m : GoMap V) (k : Int) (v z : V) :
    GoMap.read (GoMap.write m k v) k z = v := by
  unfold GoMap.read
  rw [lookup_write_self]
  rfl

/-- The loop over `j` of the cluster setup stores a centre at every index below the cluster
count of dimension `i` and leaves the other dimensions of the map unchanged. -/
theorem cluster_centres_loop (c : Cluster.Config) (i : Nat) (offs0 : GoMap (GoMap ℚ))
    (k : Nat) (g : Rng) (t1 : GoMap (GoMap ℚ) × Rng)
    (h : forRange (fun j (t : GoMap (GoMap ℚ) × Rng) =>
          .ok (GoMap.write t.1 (i : Int)
                (GoMap.write (GoMap.read t.1 (i : Int) []) (j : Int)
                  (t.2.Float64.1 * c.clusterMax)), t.2.Float64.2))
        0 k (GoMap.write offs0 (i : Int) [], g) = .ok t1) :
    (∀ idx : Nat, idx < k →
      ∃ f, List.lookup (idx : Int) (GoMap.read t1.1 (i : Int) []) = some f) ∧
    ∀ a : Int, a ≠ (i : Int) → List.lookup a t1.1 = List.lookup a offs0 := by
  have key := forRange_inv _
    (fun j (t : GoMap (GoMap ℚ) × Rng) =>
      (∀ idx : Nat, idx < j →
        ∃ f, List.lookup (idx : Int) (GoMap.read t.1 (i : Int) []) = some f) ∧
      ∀ a : Int, a ≠ (i : Int) → List.lookup a t.1 = List.lookup a offs0) (0 + k)
    (by
      intro j t t2 _ hP hb
      simp only [Except.ok.injEq] at hb
      subst hb
      refine ⟨?_, ?_⟩
      · intro idx hidx
        simp only [read_write_self]
        by_cases hj : idx = j
        · subst hj
          exact ⟨_, lookup_write_self _ _ _⟩
        · rw [lookup_write_ne _ _ _ _ (by omega)]
          exact hP.1 idx (by omega)
      · intro a ha
        simp only
        rw [lookup_write_ne _ _ _ _ ha]
        exact hP.2 a ha)
    k 0 (GoMap.write offs0 (i : Int) [], g) t1 (le_refl _)
    ⟨fun idx hidx => absurd hidx (Nat.not_lt_zero idx),
      fun a ha => lookup_write_ne _ _ _ _ ha⟩ h
  simpa using key

/-- After the cluster setup every dimension has its centres stored at the indices below its
cluster count. -/
theorem cluster_setup_keys (c : Cluster.Config) (g : Rng) (s : Cluster.Clusters × Rng)
    (h : Cluster.setup c g = .ok s) :
    ∀ (j : Nat) (k : Int), index s.1.clusterCount j = .ok k → ∀ i : Nat, (i : Int) < k →
      ∃ f, List.lookup (i : Int) (GoMap.read s.1.clusterOffsets (j : Int) []) = some f := by
  unfold Cluster.setup at h
  obtain ⟨cc0, hcc0, h2⟩ := (bind_eq_ok _ _ _).1 h
  obtain ⟨_, rfl⟩ := make_eq_ok _ _ _ hcc0
  have key := forRange_inv (Cluster.setupDim c)
    (fun n (t : Cluster.Clusters × Rng) =>
      t.1.clusterCount.length = c.dimensionCount.toNat ∧
      ∀ (j : Nat) (k : Int), j < n → t.1.clusterCount[j]? = some k → ∀ i : Nat, (i : Int) < k →
        ∃ f, List.lookup (i : Int) (GoMap.read t.1.clusterOffsets (j : Int) []) = some f)
    (0 + c.dimensionCount.toNat)
    (by
      intro n t t2 _ hP hb
      unfold Cluster.setupDim at hb
      obtain ⟨r, _, hb⟩ := (bind_eq_ok _ _ _).1 hb
      obtain ⟨cc, hcc, hb⟩ := (bind_eq_ok _ _ _).1 hb
      obtain ⟨u, hu, hb⟩ := (bind_eq_ok _ _ _).1 hb
      simp only [Except.ok.injEq] at hb
      subst hb
      unfold assign at hcc
      split at hcc
      · rename_i hlt
        simp only [Except.ok.injEq] at hcc
        subst hcc
        obtain ⟨hin1, hin2⟩ := cluster_centres_loop c n t.1.clusterOffsets _ r.2 u hu
        refine ⟨by simpa using hP.1, ?_⟩
        intro j k hj hk i hi
        simp only at hk ⊢
        by_cases hjn : n = j
        · subst hjn
          rw [List.getElem?_set_self hlt] at hk
          simp only [Option.some.injEq] at hk
          subst hk
          exact hin1 i (by omega)
        · rw [List.getElem?_set_ne hjn] at hk
          have hne : (j : Int) ≠ (n : Int) := by omega
          have hread : GoMap.read u.1 (j : Int) [] = GoMap.read t.1.clusterOffsets (j : Int) [] := by
            unfold GoMap.read
            rw [hin2 _ hne]
          rw [hread]
          exact hP.2 j k (by omega) hk i hi
      · simp at hcc)
    c.dimensionCount.toNat 0 _ s (le_refl _)
    ⟨by simp, fun j k hj => absurd hj (Nat.not_lt_zero j)⟩ h2
  intro j k hk i hi
  rw [index_eq_ok] at hk
  have hlt : j < s.1.clusterCount.length := (List.getElem?_eq_some_iff.1 hk).1
  exact key.2 j k (by rw [key.1] at hlt; omega) hk i hi

/-! ## The sine inlier sampler -/

/-- Every value that `inlierRow` stores in dimension `d` of row `i` is `getSineValue` at
`i / divider + startIdxes[d]`. -/
theorem sine_inlierRow_values (sin : ℚ → ℚ) (c : Sine.Config) (st : List Int) (i : Nat)
    (m : List ℚ) (h : Sine.inlierRow sin c st i = .ok m) :
    m.length = c.dimensionCount.toNat ∧
    ∀ (d : Nat) (w : ℚ), m[d]? = some w →
      ∃ p : Int, st[d]? = some p ∧
        w = Sine.getSineValue sin c (((i : ℚ) / c.divider) + (p : ℚ)) := by
  unfold Sine.inlierRow at h
  obtain ⟨m0, hm0, h2⟩ := (bind_eq_ok _ _ _).1 h
  obtain ⟨_, rfl⟩ := make_eq_ok _ _ _ hm0
  have key := forRange_inv _
    (fun j (t : List ℚ) => t.length = c.dimensionCount.toNat ∧
      ∀ (d : Nat) (w : ℚ), d < j → t[d]? = some w →
        ∃ p : Int, st[d]? = some p ∧
          w = Sine.getSineValue sin c (((i : ℚ) / c.divider) + (p : ℚ)))
    (0 + (List.replicate c.dimensionCount.toNat (0 : ℚ)).length)
    (by
      intro j t t1 hj hP hb
      obtain ⟨p, hp, h3⟩ := (bind_eq_ok _ _ _).1 hb
      simp only [Except.ok.injEq] at h3
      subst h3
      refine ⟨by simpa using hP.1, ?_⟩
      intro d w hd hw
      by_cases hdj : j = d
      · subst hdj
        rw [List.getElem?_set_self (by rw [hP.1]; simpa using hj)] at hw
        simp only [Option.some.injEq] at hw
        subst hw
        exact ⟨p, (index_eq_ok _ _ _).1 hp, rfl⟩
      · rw [List.getElem?_set_ne hdj] at hw
        exact hP.2 d w (by omega) hw)
    (List.replicate c.dimensionCount.toNat (0 : ℚ)).length 0 _ m (le_refl _)
    ⟨by simp, fun d w hd => absurd hd (Nat.not_lt_zero d)⟩ h2
  refine ⟨key.1, ?_⟩
  intro d w hw
  have hlt : d < m.length := (List.getElem?_eq_some_iff.1 hw).1
  exact key.2 d w (by rw [key.1] at hlt; simpa using hlt) hw

/-! ## Rejection loops that cannot exit -/

/-- A loop whose condition holds in every state that it can reach, and whose body always
returns, exhausts every fuel. -/
theorem whileLoop_stuck {σ : Type} (cond : σ → Except Fault Bool)
    (body : σ → Except Fault σ) (P : σ → Prop)
    (hc : ∀ s, P s → cond s = .ok true)
    (hb : ∀ s, P s → ∃ s1, body s = .ok s1 ∧ P s1) :
    ∀ fuel s, P s → whileLoop cond body fuel s = .error .fuel := by
  intro fuel
  induction fuel with
  | zero =>
    intro s hP
    simp only [whileLoop, hc s hP, ok_bind, if_true]
  | succ fuel ih =>
    intro s hP
    obtain ⟨s1, hs1, hP1⟩ := hb s hP
    simp only [whileLoop, hc s hP, ok_bind, if_true, hs1]
    exact ih s1 hP1

theorem cluster_resample_ok (c : Cluster.Config) (s : ℚ × Rng) :
    ∃ s1, Cluster.resample c s = .ok s1 := by
  obtain ⟨r, hr⟩ := Intn_pos s.2 2 (by norm_num)
  simp only [Cluster.resample, hr, ok_bind]
  exact ⟨_, rfl⟩

/-- When the initial candidate and every value that a resampling step can produce are
prohibited, the cluster `getOutlierValue` exhausts every fuel. -/
theorem cluster_getOutlierValue_stuck (c : Cluster.Config) (m : GoMap ℚ)
    (hinit : Cluster.isProhibited c (GoMap.read m 0 0) m = true)
    (hcand : ∀ u : ℚ, 0 ≤ u → u < 1 →
      Cluster.isProhibited c (u * (c.clusterMax * 1.25)) m = true ∧
      (c.generateNegativeOutliers = true →
        Cluster.isProhibited c (-(u * (c.clusterMax * 1.25))) m = true)) :
    ∀ fuel g, Cluster.getOutlierValue c m fuel g = .error .fuel := by
  intro fuel g
  refine whileLoop_stuck (fun s : ℚ × Rng => .ok (Cluster.isProhibited c s.1 m))
    (Cluster.resample c) (fun s => Cluster.isProhibited c s.1 m = true) ?_ ?_ fuel _ hinit
  · intro s hs
    simp only [hs]
  · intro s _
    obtain ⟨s1, hs1⟩ := cluster_resample_ok c s
    obtain ⟨u, hu0, hu1, hv⟩ := cluster_resample_form c s s1 hs1
    refine ⟨s1, hs1, ?_⟩
    rcases hv with hv | ⟨hflag, hv⟩
    · simp only [hv]
      exact (hcand u hu0 hu1).1
    · simp only [hv]
      exact (hcand u hu0 hu1).2 hflag

/-- Membership test for the map with the single centre 50. -/
theorem cluster_isProhibited_single (c : Cluster.Config) (v : ℚ) :
    Cluster.isProhibited c v [(0, 50)] = true ↔
      50 - c.clusterSpread / 2 ≤ v ∧ v ≤ 50 + c.clusterSpread / 2 := by
  simp [Cluster.isProhibited, Cluster.inBand]

/-! ## The cluster setup in full -/

/-- The loop over `j` of the cluster setup, started on an empty map for dimension `i`: after
`k` iterations the map of dimension `i` holds `k` centres and the other dimensions are
unchanged. -/
theorem cluster_centres_loop_full (c : Cluster.Config) (i : Nat) (offs0 : GoMap (GoMap ℚ))
    (k : Nat) (g : Rng) :
    ∃ t1, forRange (fun j (t : GoMap (GoMap ℚ) × Rng) =>
          .ok (GoMap.write t.1 (i : Int)
                (GoMap.write (GoMap.read t.1 (i : Int) []) (j : Int)
                  (t.2.Float64.1 * c.clusterMax)), t.2.Float64.2))
        0 k (GoMap.write offs0 (i : Int) [], g) = .ok t1 ∧
      Cluster.CentresAt c (k : Int) (GoMap.read t1.1 (i : Int) []) ∧
      ∀ a : Int, a ≠ (i : Int) → List.lookup a t1.1 = List.lookup a offs0 := by
  obtain ⟨t1, ht1⟩ := forRange_ok (fun j (t : GoMap (GoMap ℚ) × Rng) =>
          .ok (GoMap.write t.1 (i : Int)
                (GoMap.write (GoMap.read t.1 (i : Int) []) (j : Int)
                  (t.2.Float64.1 * c.clusterMax)), t.2.Float64.2))
    (fun _ _ => True) (0 + k) (fun _ _ _ _ => ⟨_, rfl, trivial⟩) k 0
    (GoMap.write offs0 (i : Int) [], g) (le_refl _) trivial
  refine ⟨t1, ht1, ?_⟩
  have key := forRange_inv _
    (fun j (t : GoMap (GoMap ℚ) × Rng) =>
      Cluster.CentresAt c (j : Int) (GoMap.read t.1 (i : Int) []) ∧
      ∀ a : Int, a ≠ (i : Int) → List.lookup a t.1 = List.lookup a offs0) (0 + k)
    (by
      intro j t t2 _ hP hb
      simp only [Except.ok.injEq] at hb
      subst hb
      obtain ⟨⟨hlen, hlook, hkeys⟩, hother⟩ := hP
      have hfilter : (GoMap.read t.1 (i : Int) []).filter (fun e => e.1 != (j : Int))
          = GoMap.read t.1 (i : Int) [] := by
        rw [List.filter_eq_self]
        intro e he
        obtain ⟨a, ha, hlt⟩ := hkeys e he
        have : e.1 ≠ (j : Int) := by omega
        simpa using this
      refine ⟨⟨?_, ?_, ?_⟩, ?_⟩
      · simp only [read_write_self]
        unfold GoMap.write
        rw [hfilter, List.length_cons, hlen]
        simp
      · intro a ha
        simp only [read_write_self]
        by_cases haj : a = j
        · subst haj
          exact ⟨t.2.Float64.1, (Float64_range t.2).1, (Float64_range t.2).2,
            lookup_write_self _ _ _⟩
        · rw [lookup_write_ne _ _ _ _ (by omega)]
          exact hlook a (by omega)
      · intro e he
        simp only [read_write_self] at he
        unfold GoMap.write at he
        rw [hfilter] at he
        rcases List.mem_cons.1 he with he1 | he1
        · subst he1
          exact ⟨j, rfl, by simp⟩
        · obtain ⟨a, ha, hlt⟩ := hkeys e he1
          exact ⟨a, ha, by omega⟩
      · intro a ha
        simp only
        rw [lookup_write_ne _ _ _ _ ha]
        exact hother a ha)
    k 0 (GoMap.write offs0 (i : Int) [], g) t1 (le_refl _)
    ⟨⟨by simp [read_write_self], fun a ha => absurd ha (by omega),
        fun e he => by simp [read_write_self] at he⟩,
      fun a ha => lookup_write_ne _ _ _ _ ha⟩ ht1
  simpa using key

/-- Invariant of the loop over the dimensions in the cluster setup. -/
theorem cluster_setupDim_step (c : Cluster.Config) (n : Nat) (t : Cluster.Clusters × Rng)
    (hlen : t.1.clusterCount.length = c.dimensionCount.toNat)
    (hn : n < c.dimensionCount.toNat)
    (hP : ∀ j : Nat, j < n → ∃ k : Int, t.1.clusterCount[j]? = some k ∧
      c.minClusterCount ≤ k ∧ k < c.maxClusterCount ∧
      Cluster.CentresAt c k (GoMap.read t.1.clusterOffsets (j : Int) [])) :
    (c.minClusterCount < c.maxClusterCount → ∃ t1, Cluster.setupDim c n t = .ok t1) ∧
    ∀ t1, Cluster.setupDim c n t = .ok t1 →
      t1.1.clusterCount.length = c.dimensionCount.toNat ∧
      ∀ j : Nat, j < n + 1 → ∃ k : Int, t1.1.clusterCount[j]? = some k ∧
        c.minClusterCount ≤ k ∧ k < c.maxClusterCount ∧
        Cluster.CentresAt c k (GoMap.read t1.1.clusterOffsets (j : Int) []) := by
  have hassign : ∀ v : Int, assign t.1.clusterCount n v = .ok (t.1.clusterCount.set n v) := by
    intro v
    unfold assign
    rw [if_pos (by omega)]
  constructor
  · intro hlt
    obtain ⟨r, hr⟩ := Intn_pos t.2 (c.maxClusterCount - c.minClusterCount) (by omega)
    obtain ⟨u, hu, _⟩ := cluster_centres_loop_full c n t.1.clusterOffsets
      (c.minClusterCount + (r.1 : Int)).toNat r.2
    simp only [Cluster.setupDim, hr, ok_bind, hassign, hu]
    exact ⟨_, rfl⟩
  · intro t1 h
    unfold Cluster.setupDim at h
    obtain ⟨r, hr, h⟩ := (bind_eq_ok _ _ _).1 h
    rw [hassign, ok_bind] at h
    obtain ⟨u, hu, h⟩ := (bind_eq_ok _ _ _).1 h
    simp only [Except.ok.injEq] at h
    subst h
    obtain ⟨hpos, hrlt, _⟩ := Intn_eq_ok _ _ _ hr
    obtain ⟨u1, hu1, hcent, hother⟩ := cluster_centres_loop_full c n t.1.clusterOffsets
      (c.minClusterCount + (r.1 : Int)).toNat r.2
    rw [hu] at hu1
    simp only [Except.ok.injEq] at hu1
    subst hu1
    refine ⟨by simpa using hlen, ?_⟩
    intro j hj
    by_cases hjn : n = j
    · subst hjn
      refine ⟨c.minClusterCount + (r.1 : Int),
        by simp only; rw [List.getElem?_set_self (by omega)], by omega, by omega, ?_⟩
      obtain ⟨h1, h2, h3⟩ := hcent
      refine ⟨by rw [h1]; omega, ?_, ?_⟩
      · intro a ha
        exact h2 a (by omega)
      · intro e he
        obtain ⟨a, ha, hlt⟩ := h3 e he
        exact ⟨a, ha, by omega⟩
    · obtain ⟨k, hk, hk1, hk2, hk3⟩ := hP j (by omega)
      have hne : (j : Int) ≠ (n : Int) := by omega
      have hread : GoMap.read u.1 (j : Int) []
          = GoMap.read t.1.clusterOffsets (j : Int) [] := by
        unfold GoMap.read
        rw [hother _ hne]
      refine ⟨k, by simp only; rw [List.getElem?_set_ne hjn]; exact hk, hk1, hk2, ?_⟩
      simp only [hread]
      exact hk3

/-- The cluster setup: it returns when the dimension count is not negative and
`minClusters < maxClusters`, and in every completed setup each dimension has a cluster count in
`[minClusters, maxClusters)` and that many centres. -/
theorem cluster_setup_full (c : Cluster.Config) (g : Rng) :
    (0 ≤ c.dimensionCount → c.minClusterCount < c.maxClusterCount →
      ∃ s, Cluster.setup c g = .ok s) ∧
    ∀ s, Cluster.setup c g = .ok s →
      s.1.clusterCount.length = c.dimensionCount.toNat ∧
      ∀ j : Nat, j < c.dimensionCount.toNat → ∃ k : Int, s.1.clusterCount[j]? = some k ∧
        c.minClusterCount ≤ k ∧ k < c.maxClusterCount ∧
        Cluster.CentresAt c k (GoMap.read s.1.clusterOffsets (j : Int) []) := by
  constructor
  · intro hd hlt
    unfold Cluster.setup
    rw [make_ok _ _ hd, ok_bind]
    refine forRange_ok (Cluster.setupDim c)
      (fun n (t : Cluster.Clusters × Rng) =>
        t.1.clusterCount.length = c.dimensionCount.toNat ∧
        ∀ j : Nat, j < n → ∃ k : Int, t.1.clusterCount[j]? = some k ∧
          c.minClusterCount ≤ k ∧ k < c.maxClusterCount ∧
          Cluster.CentresAt c k (GoMap.read t.1.clusterOffsets (j : Int) []))
      (0 + c.dimensionCount.toNat) ?_ c.dimensionCount.toNat 0 _ (le_refl _)
      ⟨by simp, fun j hj => absurd hj (Nat.not_lt_zero j)⟩
    intro n t hn hP
    obtain ⟨h1, h2⟩ := cluster_setupDim_step c n t hP.1 (by omega) hP.2
    obtain ⟨t1, ht1⟩ := h1 hlt
    exact ⟨t1, ht1, h2 t1 ht1⟩
  · intro s h
    unfold Cluster.setup at h
    obtain ⟨cc0, hcc0, h2⟩ := (bind_eq_ok _ _ _).1 h
    obtain ⟨_, rfl⟩ := make_eq_ok _ _ _ hcc0
    have key := forRange_inv (Cluster.setupDim c)
      (fun n (t : Cluster.Clusters × Rng) =>
        t.1.clusterCount.length = c.dimensionCount.toNat ∧
        ∀ j : Nat, j < n → ∃ k : Int, t.1.clusterCount[j]? = some k ∧
          c.minClusterCount ≤ k ∧ k < c.maxClusterCount ∧
          Cluster.CentresAt c k (GoMap.read t.1.clusterOffsets (j : Int) []))
      (0 + c.dimensionCount.toNat)
      (fun n t t1 hn hP hb =>
        (cluster_setupDim_step c n t hP.1 (by omega) hP.2).2 t1 hb)
      c.dimensionCount.toNat 0 _ s (le_refl _)
      ⟨by simp, fun j hj => absurd hj (Nat.not_lt_zero j)⟩ h2
    exact ⟨key.1, fun j hj => key.2 j (by omega)⟩

/-! ## Outlier rows of the uniform strategy -/

theorem uniform_getValue_range (c : Uniform.Config) (g : Rng) (h : c.minValue < c.maxValue) :
    c.minValue ≤ (Uniform.getValue c g).1 ∧ (Uniform.getValue c g).1 < c.maxValue := by
  obtain ⟨hu0, hu1⟩ := Float64_range g
  unfold Uniform.getValue
  simp only
  constructor
  · nlinarith
  · nlinarith

theorem uniform_getOutlierValue_abs (c : Uniform.Config) (g : Rng) (r : ℚ × Rng)
    (hd : 0 ≤ c.outlierDelta) (h : Uniform.getOutlierValue c g = .ok r) :
    c.maxValue ≤ |r.1| := by
  obtain ⟨g1, h1⟩ := uniform_getOutlierValue_eq c g
  rw [h1] at h
  simp only [Except.ok.injEq] at h
  subst h
  have hpos : 0 ≤ g.Float64.1 * c.outlierDelta := mul_nonneg (Float64_range g).1 hd
  simp only
  split
  · have h2 : (c.maxValue + g.Float64.1 * c.outlierDelta) * -1
        = -(c.maxValue + g.Float64.1 * c.outlierDelta) := by ring
    rw [h2, abs_neg]
    exact le_trans (by linarith) (le_abs_self _)
  · exact le_trans (by linarith) (le_abs_self _)

/-- Under the single-only policy the value stored at position 0 of an outlier row is an outlier
value and the value stored at any other position is an inlier value. -/
theorem uniform_outlierCell_single (c : Uniform.Config) (j : Nat) (g : Rng) (r : ℚ × Rng)
    (hs : c.singleDimensionalOutliersOnly = true) (hm : c.multiDimensionalOutliersOnly = false)
    (hlt : c.minValue < c.maxValue) (hd : 0 ≤ c.outlierDelta)
    (h : Uniform.outlierCell c j g = .ok r) :
    (j = 0 → c.maxValue ≤ |r.1|) ∧ (j ≠ 0 → c.minValue ≤ r.1 ∧ r.1 < c.maxValue) := by
  unfold Uniform.outlierCell at h
  simp only [hs, hm, Bool.false_and, Bool.not_false, Bool.true_and, Bool.false_eq_true,
    if_false, if_true, Bool.and_self] at h
  by_cases hj : j = 0
  · subst hj
    simp only [beq_self_eq_true, if_true] at h
    exact ⟨fun _ => uniform_getOutlierValue_abs c g r hd h, fun hne => absurd rfl hne⟩
  · have hb : (j == 0) = false := by simpa using hj
    simp only [hb, Bool.false_eq_true, if_false, Except.ok.injEq] at h
    subst h
    exact ⟨fun h0 => absurd h0 hj, fun _ => uniform_getValue_range c g hlt⟩

/-- An outlier row of the uniform strategy under the single-only policy is a permutation of one
outlier value followed by `dimensionCount - 1` inlier values. -/
theorem uniform_outlierRow_single (c : Uniform.Config) (g : Rng) (r : List ℚ × Rng)
    (hs : c.singleDimensionalOutliersOnly = true) (hm : c.multiDimensionalOutliersOnly = false)
    (hlt : c.minValue < c.maxValue) (hd : 0 ≤ c.outlierDelta) (hdim : 1 ≤ c.dimensionCount)
    (h : Uniform.outlierRow c g = .ok r) :
    ∃ (v0 : ℚ) (rest : List ℚ), r.1.Perm (v0 :: rest) ∧ c.maxValue ≤ |v0| ∧
      (rest.length : Int) = c.dimensionCount - 1 ∧
      ∀ v ∈ rest, c.minValue ≤ v ∧ v < c.maxValue := by
  unfold Uniform.outlierRow at h
  obtain ⟨m, hm0, h2⟩ := (bind_eq_ok _ _ _).1 h
  obtain ⟨_, rfl⟩ := make_eq_ok _ _ _ hm0
  obtain ⟨s, hfill, h3⟩ := (bind_eq_ok _ _ _).1 h2
  have hlen := fill_length (Uniform.outlierCell c) _ _ _ _ hfill
  simp only [List.length_replicate] at hlen
  have hvals := fill_values (Uniform.outlierCell c)
    (fun j w => (j = 0 → c.maxValue ≤ |w|) ∧ (j ≠ 0 → c.minValue ≤ w ∧ w < c.maxValue))
    (fun j g1 r1 h4 => uniform_outlierCell_single c j g1 r1 hs hm hlt hd h4) _ g s hfill
  have hperm : r.1.Perm s.1 := by
    split at h3
    · obtain ⟨ys, g1, hsh, hp⟩ := Shuffle_spec s.2 s.1
      rw [hsh] at h3
      simp only [Except.ok.injEq] at h3
      subst h3
      exact hp
    · simp only [Except.ok.injEq] at h3
      subst h3
      exact List.Perm.refl _
  cases hs1 : s.1 with
  | nil =>
    rw [hs1] at hlen
    simp only [List.length_nil] at hlen
    omega
  | cons a rest =>
    rw [hs1] at hlen hvals hperm
    refine ⟨a, rest, hperm, (hvals 0 a (List.getElem?_cons_zero ..)).1 rfl, ?_, ?_⟩
    · simp only [List.length_cons] at hlen
      omega
    · intro v hv
      obtain ⟨d, hd1⟩ := List.mem_iff_getElem?.1 hv
      exact (hvals (d + 1) v (by simpa using hd1)).2 (by omega)

/-- Every completed run of the uniform `main`, with row properties of the two generators. -/
theorem uniform_main_rows (c : Uniform.Config) (g : Rng) (r : Uniform.Locals) (g1 : Rng)
    (Qi Qo : List ℚ → Prop)
    (hQi : ∀ g2 m, Uniform.inlierRow c g2 = .ok m → Qi m.1)
    (hQo : ∀ g2 m, Uniform.outlierRow c g2 = .ok m → Qo m.1)
    (h : Uniform.main c g = .ok (r, g1)) :
    (∀ x ∈ r.measurements, x.IsOutlier = false ∧ Qi x.Measurements) ∧
    (∀ x ∈ r.outliers, x.IsOutlier = true ∧ Qo x.Measurements) ∧
    r.generatedMeasurements.Perm (r.outliers ++ r.measurements) := by
  unfold Uniform.main at h
  simp only at h
  obtain ⟨ms, hms, h2⟩ := (bind_eq_ok _ _ _).1 h
  obtain ⟨os, hos, h3⟩ := (bind_eq_ok _ _ _).1 h2
  obtain ⟨sh, hsh, h4⟩ := (bind_eq_ok _ _ _).1 h3
  simp only [Except.ok.injEq, Prod.mk.injEq] at h4
  obtain ⟨rfl, _⟩ := h4
  obtain ⟨_, ha1⟩ := rows_loop (Uniform.inlierRow c) false Qi hQi _ _ _ _ hms
  obtain ⟨_, ha2⟩ := rows_loop (Uniform.outlierRow c) true Qo hQo _ _ _ _ hos
  obtain ⟨ys, g2, hsh2, hp⟩ := Shuffle_spec os.2 (([] ++ os.1) ++ ms.1)
  rw [hsh2] at hsh
  simp only [Except.ok.injEq] at hsh
  subst hsh
  refine ⟨?_, ?_, by simpa using hp⟩
  · intro x hx
    rcases ha1 x hx with h5 | h5
    · simp at h5
    · exact h5
  · intro x hx
    rcases ha2 x hx with h5 | h5
    · simp at h5
    · exact h5

/-! ## Rows under injection -/

theorem rowInjected_mark (fails : Nat → ℚ → Prop) (row : dataRow) :
    RowInjected fails row { row with IsOutlier := true } :=
  ⟨rfl, rfl, fun _ _ hw => Or.inl hw⟩

theorem rowInjected_place (fails : Nat → ℚ → Prop) (row r : dataRow) (d : Nat) (v : ℚ)
    (h : RowInjected fails row r) (hd : d < r.Measurements.length) (hv : fails d v) :
    RowInjected fails row { r with Measurements := r.Measurements.set d v } := by
  obtain ⟨h1, h2, h3⟩ := h
  refine ⟨h1, by simpa using h2, ?_⟩
  intro e w hw
  simp only at hw
  by_cases hde : d = e
  · subst hde
    rw [List.getElem?_set_self hd] at hw
    simp only [Option.some.injEq] at hw
    subst hw
    exact Or.inr hv
  · rw [List.getElem?_set_ne hde] at hw
    exact h3 e w hw

theorem injectedWith_refl (Q : dataRow → dataRow → Prop) (ms0 : List dataRow)
    (h : ∀ r ∈ ms0, r.IsOutlier = false) : InjectedWith Q ms0 ms0 := by
  refine ⟨rfl, ?_⟩
  intro idx r r0 hr hr0
  rw [hr] at hr0
  simp only [Option.some.injEq] at hr0
  subst hr0
  refine ⟨fun _ => rfl, ?_⟩
  intro ht
  rw [h r (List.getElem?_mem hr)] at ht
  exact Bool.noConfusion ht

theorem injectedWith_set (Q : dataRow → dataRow → Prop) (ms0 ms : List dataRow) (mIdx : Nat)
    (row r1 : dataRow) (hinv : InjectedWith Q ms0 ms)
    (hrow : ms[mIdx]? = some row) (hno : row.IsOutlier = false)
    (hr1 : r1.IsOutlier = true) (hQ : Q row r1) :
    InjectedWith Q ms0 (ms.set mIdx r1) := by
  obtain ⟨hlen, hall⟩ := hinv
  have hlt : mIdx < ms.length := (List.getElem?_eq_some_iff.1 hrow).1
  refine ⟨by rw [List.length_set, hlen], ?_⟩
  intro idx r r0 hr hr0
  by_cases hidx : mIdx = idx
  · subst hidx
    rw [List.getElem?_set_self hlt] at hr
    simp only [Option.some.injEq] at hr
    subst hr
    have hrr0 : row = r0 := (hall mIdx row r0 hrow hr0).1 hno
    subst hrr0
    exact ⟨fun hf => by rw [hr1] at hf; exact Bool.noConfusion hf, fun _ => hQ⟩
  · rw [List.getElem?_set_ne hidx] at hr
    exact hall idx r r0 hr hr0

/-- One placement `measurements[mIdx].Measurements[dim] = v` on a dataset that differs from
`ms` in row `mIdx` only. -/
theorem place_on_row (ms : List dataRow) (mIdx dim : Nat) (r : dataRow) (v : ℚ)
    (t1 : List dataRow) (hlt : mIdx < ms.length)
    (h : setMeasurement (ms.set mIdx r) mIdx dim v = .ok t1) :
    dim < r.Measurements.length ∧
      t1 = ms.set mIdx { r with Measurements := r.Measurements.set dim v } := by
  obtain ⟨row1, hrow1, hd, ht1⟩ := setMeasurement_eq_ok _ _ _ _ _ h
  rw [List.getElem?_set_self hlt] at hrow1
  simp only [Option.some.injEq] at hrow1
  subst hrow1
  exact ⟨hd, by rw [ht1, List.set_set]⟩

/-- The loop `for dim := 0; dim < n; dim++ { place dim }` of the multi-only policy overwrites
every position of row `mIdx` with a value that fails the test. -/
theorem multi_loop_row (fails : Nat → ℚ → Prop) (mIdx : Nat)
    (place : Nat → List dataRow × Rng → Except Fault (List dataRow × Rng))
    (hplace : ∀ dim t t1, place dim t = .ok t1 →
      ∃ v, fails dim v ∧ setMeasurement t.1 mIdx dim v = .ok t1.1)
    (ms : List dataRow) (row r : dataRow) (g : Rng) (t1 : List dataRow × Rng)
    (hlt : mIdx < ms.length) (hr : RowInjected fails row r)
    (h : forRange place 0 r.Measurements.length (ms.set mIdx r, g) = .ok t1) :
    ∃ r1, t1.1 = ms.set mIdx r1 ∧ RowInjected fails row r1 ∧
      ∀ (d : Nat) (w : ℚ), r1.Measurements[d]? = some w → fails d w := by
  have key := forRange_inv place
    (fun j (t : List dataRow × Rng) => ∃ r1, t.1 = ms.set mIdx r1 ∧ RowInjected fails row r1 ∧
      ∀ (d : Nat) (w : ℚ), d < j → r1.Measurements[d]? = some w → fails d w)
    (0 + r.Measurements.length)
    (by
      intro j t t2 _ hP hb
      obtain ⟨r1, ht, hri, hall⟩ := hP
      obtain ⟨v, hv, hset⟩ := hplace j t t2 hb
      rw [ht] at hset
      obtain ⟨hd, ht2⟩ := place_on_row ms mIdx j r1 v t2.1 hlt hset
      refine ⟨_, ht2, rowInjected_place fails row r1 j v hri hd hv, ?_⟩
      intro d w hdj hw
      simp only at hw
      by_cases hjd : j = d
      · subst hjd
        rw [List.getElem?_set_self hd] at hw
        simp only [Option.some.injEq] at hw
        subst hw
        exact hv
      · rw [List.getElem?_set_ne hjd] at hw
        exact hall d w (by omega) hw)
    r.Measurements.length 0 (ms.set mIdx r, g) t1 (le_refl _)
    ⟨r, rfl, hr, fun d w hd => absurd hd (Nat.not_lt_zero d)⟩ h
  obtain ⟨r1, ht1, hri, hall⟩ := key
  refine ⟨r1, ht1, hri, ?_⟩
  intro d w hw
  have hd : d < r1.Measurements.length := (List.getElem?_eq_some_iff.1 hw).1
  exact hall d w (by rw [hri.2.1, ← hr.2.1] at hd; omega) hw

/-! ## The body of the loop over `mIdx`, cluster strategy -/

theorem cluster_placeOutlier_spec (c : Cluster.Config) (cl : Cluster.Clusters)
    (fuel mIdx dim : Nat) (t t1 : List dataRow × Rng)
    (h : Cluster.placeOutlier c cl fuel mIdx dim t = .ok t1) :
    ∃ v, Cluster.isProhibited c v (GoMap.read cl.clusterOffsets (dim : Int) []) = false ∧
      setMeasurement t.1 mIdx dim v = .ok t1.1 := by
  unfold Cluster.placeOutlier at h
  obtain ⟨rv, hrv, h⟩ := (bind_eq_ok _ _ _).1 h
  obtain ⟨ms2, h3, h⟩ := (bind_eq_ok _ _ _).1 h
  simp only [Except.ok.injEq] at h
  subst h
  exact ⟨rv.1, cluster_getOutlierValue_exit _ _ _ _ _ hrv, h3⟩

/-- The coin-flip loop of the mixed policy in the cluster strategy: it changes row `mIdx`
only, and when `addedOutlier` is set some position of the row holds a value that is not
prohibited. -/
theorem cluster_mixed_loop_row (c : Cluster.Config) (cl : Cluster.Clusters) (fuel mIdx n : Nat)
    (ms : List dataRow) (row r : dataRow) (g : Rng) (t1 : (List dataRow × Rng) × Bool)
    (hlt : mIdx < ms.length)
    (hr : RowInjected
      (fun d v => Cluster.isProhibited c v (GoMap.read cl.clusterOffsets (d : Int) []) = false)
      row r)
    (h : forRange (Cluster.mixedDim c cl fuel mIdx) 0 n ((ms.set mIdx r, g), false)
      = .ok t1) :
    ∃ r1, t1.1.1 = ms.set mIdx r1 ∧
      RowInjected
        (fun d v => Cluster.isProhibited c v (GoMap.read cl.clusterOffsets (d : Int) []) = false)
        row r1 ∧
      (t1.2 = true → ∃ (d : Nat) (w : ℚ), r1.Measurements[d]? = some w ∧
        Cluster.isProhibited c w (GoMap.read cl.clusterOffsets (d : Int) []) = false) ∧
      (t1.2 = false → r1 = r) := by
  refine forRange_inv (Cluster.mixedDim c cl fuel mIdx)
    (fun _ (t : (List dataRow × Rng) × Bool) => ∃ r1, t.1.1 = ms.set mIdx r1 ∧
      RowInjected
        (fun d v => Cluster.isProhibited c v (GoMap.read cl.clusterOffsets (d : Int) []) = false)
        row r1 ∧
      (t.2 = true → ∃ (d : Nat) (w : ℚ), r1.Measurements[d]? = some w ∧
        Cluster.isProhibited c w (GoMap.read cl.clusterOffsets (d : Int) []) = false) ∧
      (t.2 = false → r1 = r))
    (0 + n) ?_ n 0 _ t1 (le_refl _)
    ⟨r, rfl, hr, fun hf => absurd hf Bool.false_ne_true, fun _ => rfl⟩ h
  intro j t t2 _ hP hb
  obtain ⟨r1, ht, hri, hadd, hsame⟩ := hP
  unfold Cluster.mixedDim at hb
  obtain ⟨q, _, hb⟩ := (bind_eq_ok _ _ _).1 hb
  split at hb
  · simp only [Except.ok.injEq] at hb
    subst hb
    exact ⟨r1, ht, hri, hadd, hsame⟩
  · obtain ⟨u, hu, hb⟩ := (bind_eq_ok _ _ _).1 hb
    simp only [Except.ok.injEq] at hb
    subst hb
    obtain ⟨v, hv, hset⟩ := cluster_placeOutlier_spec c cl fuel mIdx j _ u hu
    simp only [ht] at hset
    obtain ⟨hd, hu1⟩ := place_on_row ms mIdx j r1 v u.1 hlt hset
    refine ⟨_, hu1, rowInjected_place _ row r1 j v hri hd hv, fun _ => ⟨j, v, ?_, hv⟩,
      fun hf => absurd hf (by simp)⟩
    simp only
    exact List.getElem?_set_self hd

/-- Every execution of the body of the loop over `mIdx` in the cluster strategy replaces row
`mIdx`, and only that row, by a labelled row; under the multi-only policy every value of the new
row is not prohibited, under the other policies at least one is. -/
theorem cluster_injectBody_row (c : Cluster.Config) (cl : Cluster.Clusters) (fuel mIdx : Nat)
    (s s1 : List dataRow × Rng) (h : Cluster.injectBody c cl fuel mIdx s = .ok s1) :
    ∃ row r1, s.1[mIdx]? = some row ∧ s1.1 = s.1.set mIdx r1 ∧
      RowInjected
        (fun d v => Cluster.isProhibited c v (GoMap.read cl.clusterOffsets (d : Int) []) = false)
        row r1 ∧
      ((c.multiDimensionalOutliersOnly && !c.singleDimensionalOutliersOnly) = true →
        ∀ (d : Nat) (w : ℚ), r1.Measurements[d]? = some w →
          Cluster.isProhibited c w (GoMap.read cl.clusterOffsets (d : Int) []) = false) ∧
      ((c.multiDimensionalOutliersOnly && !c.singleDimensionalOutliersOnly) = false →
        ∃ (d : Nat) (w : ℚ), r1.Measurements[d]? = some w ∧
          Cluster.isProhibited c w (GoMap.read cl.clusterOffsets (d : Int) []) = false) := by
  unfold Cluster.injectBody at h
  obtain ⟨ms1, h1, h⟩ := (bind_eq_ok _ _ _).1 h
  obtain ⟨n, h2, h⟩ := (bind_eq_ok _ _ _).1 h
  obtain ⟨row, hrow, rfl⟩ := markOutlier_eq_ok s.1 mIdx ms1 h1
  have hlt : mIdx < s.1.length := (List.getElem?_eq_some_iff.1 hrow).1
  obtain ⟨row1, hrow1, hn⟩ := rowLen_eq_ok _ _ _ h2
  rw [List.getElem?_set_self hlt] at hrow1
  simp only [Option.some.injEq] at hrow1
  subst hrow1
  simp only at hn
  have hmark := rowInjected_mark
    (fun d v => Cluster.isProhibited c v (GoMap.read cl.clusterOffsets (d : Int) []) = false) row
  refine ⟨row, ?_⟩
  split at h
  · rename_i hmulti
    subst hn
    obtain ⟨r1, hs1, hri, hall⟩ := multi_loop_row _ mIdx (Cluster.placeOutlier c cl fuel mIdx)
      (cluster_placeOutlier_spec c cl fuel mIdx) s.1 row { row with IsOutlier := true } s.2 s1
      hlt hmark h
    exact ⟨r1, hrow, hs1, hri, fun _ => hall, fun hf => by rw [hmulti] at hf; exact absurd hf (by simp)⟩
  · rename_i hmulti
    have hmf : (c.multiDimensionalOutliersOnly && !c.singleDimensionalOutliersOnly) = false := by
      simpa using hmulti
    split at h
    · obtain ⟨q, _, h⟩ := (bind_eq_ok _ _ _).1 h
      obtain ⟨v, hv, hset⟩ := cluster_placeOutlier_spec c cl fuel mIdx q.1 _ s1 h
      obtain ⟨hd, hs1⟩ := place_on_row s.1 mIdx q.1 _ v s1.1 hlt hset
      refine ⟨_, hrow, hs1, rowInjected_place _ row _ q.1 v hmark hd hv,
        fun hf => by rw [hmf] at hf; exact absurd hf (by simp), fun _ => ⟨q.1, v, ?_, hv⟩⟩
      simp only
      exact List.getElem?_set_self hd
    · obtain ⟨t, ht, h⟩ := (bind_eq_ok _ _ _).1 h
      obtain ⟨r1, ht1, hri, hadd, _⟩ := cluster_mixed_loop_row c cl fuel mIdx n s.1 row
        { row with IsOutlier := true } s.2 t hlt hmark ht
      split at h
      · obtain ⟨q, _, h⟩ := (bind_eq_ok _ _ _).1 h
        obtain ⟨v, hv, hset⟩ := cluster_placeOutlier_spec c cl fuel mIdx q.1 _ s1 h
        simp only [ht1] at hset
        obtain ⟨hd, hs1⟩ := place_on_row s.1 mIdx q.1 r1 v s1.1 hlt hset
        refine ⟨_, hrow, hs1, rowInjected_place _ row r1 q.1 v hri hd hv,
          fun hf => by rw [hmf] at hf; exact absurd hf (by simp), fun _ => ⟨q.1, v, ?_, hv⟩⟩
        simp only
        exact List.getElem?_set_self hd
      · rename_i hadded
        simp only [Except.ok.injEq] at h
        subst h
        have hadd1 : t.2 = true := by simpa using hadded
        exact ⟨r1, hrow, ht1, hri, fun hf => by rw [hmf] at hf; exact absurd hf (by simp),
          fun _ => hadd hadd1⟩

/-! ## The body of the loop over `mIdx`, sine strategy -/

theorem sine_placeOutlier_spec (c : Sine.Config) (fuel i mIdx dim : Nat)
    (t t1 : List dataRow × Rng) (h : Sine.placeOutlier c fuel i mIdx dim t = .ok t1) :
    ∃ v, Sine.inBand c v = false ∧ setMeasurement t.1 mIdx dim v = .ok t1.1 := by
  unfold Sine.placeOutlier at h
  obtain ⟨rv, hrv, h⟩ := (bind_eq_ok _ _ _).1 h
  obtain ⟨ms2, h3, h⟩ := (bind_eq_ok _ _ _).1 h
  simp only [Except.ok.injEq] at h
  subst h
  exact ⟨rv.1, sine_getOutlierValue_exit _ _ _ _ _ hrv, h3⟩

/-- The coin-flip loop of the mixed policy in the sine strategy changes row `mIdx` only. -/
theorem sine_mixed_loop_row (c : Sine.Config) (fuel i mIdx n : Nat)
    (ms : List dataRow) (row r : dataRow) (g : Rng) (t1 : List dataRow × Rng)
    (hlt : mIdx < ms.length)
    (hr : RowInjected (fun _ v => Sine.inBand c v = false) row r)
    (h : forRange (Sine.mixedDim c fuel i mIdx) 0 n (ms.set mIdx r, g) = .ok t1) :
    ∃ r1, t1.1 = ms.set mIdx r1 ∧
      RowInjected (fun _ v => Sine.inBand c v = false) row r1 := by
  refine forRange_inv (Sine.mixedDim c fuel i mIdx)
    (fun _ (t : List dataRow × Rng) => ∃ r1, t.1 = ms.set mIdx r1 ∧
      RowInjected (fun _ v => Sine.inBand c v = false) row r1)
    (0 + n) ?_ n 0 _ t1 (le_refl _) ⟨r, rfl, hr⟩ h
  intro j t t2 _ hP hb
  obtain ⟨r1, ht, hri⟩ := hP
  unfold Sine.mixedDim at hb
  obtain ⟨q, _, hb⟩ := (bind_eq_ok _ _ _).1 hb
  split at hb
  · simp only [Except.ok.injEq] at hb
    subst hb
    exact ⟨r1, ht, hri⟩
  · obtain ⟨v, hv, hset⟩ := sine_placeOutlier_spec c fuel i mIdx j _ t2 hb
    simp only [ht] at hset
    obtain ⟨hd, hu1⟩ := place_on_row ms mIdx j r1 v t2.1 hlt hset
    exact ⟨_, hu1, rowInjected_place _ row r1 j v hri hd hv⟩

/-- Every execution of the body of the loop over `mIdx` in the sine strategy replaces row
`mIdx`, and only that row, by a labelled row; under the multi-only policy every value of the new
row is outside the band of the wave. -/
theorem sine_injectBody_row (c : Sine.Config) (fuel i mIdx : Nat)
    (s s1 : List dataRow × Rng) (h : Sine.injectBody c fuel i mIdx s = .ok s1) :
    ∃ row r1, s.1[mIdx]? = some row ∧ s1.1 = s.1.set mIdx r1 ∧
      RowInjected (fun _ v => Sine.inBand c v = false) row r1 ∧
      ((c.multiDimensionalOutliersOnly && !c.singleDimensionalOutliersOnly) = true →
        ∀ (d : Nat) (w : ℚ), r1.Measurements[d]? = some w → Sine.inBand c w = false) := by
  unfold Sine.injectBody at h
  obtain ⟨ms1, h1, h⟩ := (bind_eq_ok _ _ _).1 h
  obtain ⟨n, h2, h⟩ := (bind_eq_ok _ _ _).1 h
  obtain ⟨row, hrow, rfl⟩ := markOutlier_eq_ok s.1 mIdx ms1 h1
  have hlt : mIdx < s.1.length := (List.getElem?_eq_some_iff.1 hrow).1
  obtain ⟨row1, hrow1, hn⟩ := rowLen_eq_ok _ _ _ h2
  rw [List.getElem?_set_self hlt] at hrow1
  simp only [Option.some.injEq] at hrow1
  subst hrow1
  simp only at hn
  have hmark := rowInjected_mark (fun _ v => Sine.inBand c v = false) row
  refine ⟨row, ?_⟩
  split at h
  · subst hn
    obtain ⟨r1, hs1, hri, hall⟩ := multi_loop_row _ mIdx (Sine.placeOutlier c fuel i mIdx)
      (sine_placeOutlier_spec c fuel i mIdx) s.1 row { row with IsOutlier := true } s.2 s1
      hlt hmark h
    exact ⟨r1, hrow, hs1, hri, fun _ => hall⟩
  · rename_i hmulti
    have hmf : (c.multiDimensionalOutliersOnly && !c.singleDimensionalOutliersOnly) = false := by
      simpa using hmulti
    split at h
    · obtain ⟨q, _, h⟩ := (bind_eq_ok _ _ _).1 h
      obtain ⟨v, hv, hset⟩ := sine_placeOutlier_spec c fuel i mIdx q.1 _ s1 h
      obtain ⟨hd, hs1⟩ := place_on_row s.1 mIdx q.1 _ v s1.1 hlt hset
      exact ⟨_, hrow, hs1, rowInjected_place _ row _ q.1 v hmark hd hv,
        fun hf => by rw [hmf] at hf; exact absurd hf (by simp)⟩
    · obtain ⟨r1, ht1, hri⟩ := sine_mixed_loop_row c fuel i mIdx n s.1 row
        { row with IsOutlier := true } s.2 s1 hlt hmark h
      exact ⟨r1, hrow, ht1, hri, fun hf => by rw [hmf] at hf; exact absurd hf (by simp)⟩

/-! ## The selection loop -/

/-- A loop whose body falsifies its condition runs its body at most once. -/
theorem whileLoop_once {σ : Type} (cond : σ → Except Fault Bool) (body : σ → Except Fault σ)
    (hflip : ∀ t t1, cond t = .ok true → body t = .ok t1 → cond t1 = .ok false) :
    ∀ fuel s s1, whileLoop cond body fuel s = .ok s1 →
      (cond s = .ok false ∧ s1 = s) ∨ (cond s = .ok true ∧ body s = .ok s1) := by
  have hstop : ∀ fuel t, cond t = .ok false → whileLoop cond body fuel t = .ok t := by
    intro fuel t ht
    cases fuel <;> simp [whileLoop, ht, ok_bind]
  intro fuel s s1 h
  cases fuel with
  | zero =>
    simp only [whileLoop] at h
    obtain ⟨b, hb, h2⟩ := (bind_eq_ok _ _ _).1 h
    cases b
    · simp only [Bool.false_eq_true, if_false, Except.ok.injEq] at h2
      exact Or.inl ⟨hb, h2.symm⟩
    · simp at h2
  | succ fuel =>
    simp only [whileLoop] at h
    obtain ⟨b, hb, h2⟩ := (bind_eq_ok _ _ _).1 h
    cases b
    · simp only [Bool.false_eq_true, if_false, Except.ok.injEq] at h2
      exact Or.inl ⟨hb, h2.symm⟩
    · simp only [if_true] at h2
      obtain ⟨s2, hs2, h3⟩ := (bind_eq_ok _ _ _).1 h2
      rw [hstop fuel s2 (hflip s s2 hb hs2)] at h3
      simp only [Except.ok.injEq] at h3
      subst h3
      exact Or.inr ⟨hb, hs2⟩

/-- A loop whose body falsifies its condition, given at least one unit of fuel, is a
conditional: the body runs once when the condition holds and not at all otherwise. -/
theorem whileLoop_succ_eq {σ : Type} (cond : σ → Except Fault Bool)
    (body : σ → Except Fault σ)
    (hflip : ∀ t t1, cond t = .ok true → body t = .ok t1 → cond t1 = .ok false)
    (fuel : Nat) (s : σ) :
    whileLoop cond body (fuel + 1) s
      = (cond s).bind (fun b => if b then body s else .ok s) := by
  have hstop : ∀ fuel t, cond t = .ok false → whileLoop cond body fuel t = .ok t := by
    intro fuel t ht
    cases fuel <;> simp [whileLoop, ht, ok_bind]
  simp only [whileLoop]
  cases hc : cond s with
  | error e => rfl
  | ok b =>
    cases b
    · rfl
    · simp only [ok_bind, if_true]
      cases hb : body s with
      | error e => rfl
      | ok s2 =>
        rw [ok_bind]
        exact hstop fuel s2 (hflip s s2 hc hb)

theorem notOutlier_set (ms : List dataRow) (mIdx : Nat) (r1 : dataRow)
    (t1 : List dataRow × Rng) (hlt : mIdx < ms.length) (hr1 : r1.IsOutlier = true)
    (ht1 : t1.1 = ms.set mIdx r1) : notOutlier mIdx t1 = .ok false := by
  unfold notOutlier index
  simp only [ht1, List.getElem?_set_self hlt, ok_bind, hr1, Bool.not_true]

/-! ## Row selection: what one iteration does, and the record of the drawn indices -/

/-- One iteration of the selection loop, for any body that replaces row `mIdx` by a labelled
row of the same length. -/
theorem selection_step_effect (numRows : Int) (fuel : Nat)
    (body : Nat → List dataRow × Rng → Except Fault (List dataRow × Rng))
    (hbody : ∀ (mIdx : Nat) (s s1 : List dataRow × Rng), body mIdx s = .ok s1 →
      ∃ row r1, s.1[mIdx]? = some row ∧ s1.1 = s.1.set mIdx r1 ∧ r1.IsOutlier = true ∧
        r1.Measurements.length = row.Measurements.length)
    (s s1 : List dataRow × Rng)
    (h : (s.2.Intn numRows).bind (fun r =>
      whileLoop (notOutlier r.1) (body r.1) fuel (s.1, r.2)) = .ok s1) :
    StepEffect numRows s s1 := by
  obtain ⟨r, hr, hw⟩ := (bind_eq_ok _ _ _).1 h
  have hm := (Intn_eq_ok _ _ _ hr).2.2
  have hflip : ∀ t t1, notOutlier r.1 t = .ok true → body r.1 t = .ok t1 →
      notOutlier r.1 t1 = .ok false := by
    intro t t1 _ hb
    obtain ⟨row, r1, hrow, ht1, hr1, _⟩ := hbody r.1 t t1 hb
    exact notOutlier_set t.1 r.1 r1 t1 (List.getElem?_eq_some_iff.1 hrow).1 hr1 ht1
  unfold StepEffect
  rw [← hm]
  rcases whileLoop_once _ _ hflip fuel _ _ hw with ⟨hc, hs1⟩ | ⟨hc, hb⟩
  · obtain ⟨row, hrow, hflag⟩ := notOutlier_eq_ok r.1 _ false hc
    refine ⟨row, hrow, Or.inl ⟨by simpa using hflag.symm, ?_⟩⟩
    rw [hs1]
  · obtain ⟨row, hrow, hflag⟩ := notOutlier_eq_ok r.1 _ true hc
    obtain ⟨row1, r1, hrow1, ht1, hr1, hlen⟩ := hbody r.1 _ s1 hb
    simp only at hrow hrow1 ht1
    rw [hrow] at hrow1
    simp only [Option.some.injEq] at hrow1
    subst hrow1
    exact ⟨row, hrow, Or.inr ⟨by simpa using hflag.symm, r1, ht1, hr1, hlen⟩⟩

theorem forRange_succ_ok {σ : Type} (body : Nat → σ → Except Fault σ) (i k : Nat) (s s1 : σ)
    (h : forRange body i (k + 1) s = .ok s1) :
    ∃ s2, body i s = .ok s2 ∧ forRange body (i + 1) k s2 = .ok s1 ∧
      forRangeStates body i (k + 1) s = s :: forRangeStates body (i + 1) k s2 := by
  simp only [forRange] at h
  obtain ⟨s2, h2, h3⟩ := (bind_eq_ok _ _ _).1 h
  exact ⟨s2, h2, h3, by simp only [forRangeStates, h2]⟩

/-- Frame of the selection loop: the number of rows and the length of every row are kept, and
a row whose index is not among the drawn indices is unchanged. -/
theorem selection_frame (numRows : Int)
    (step : Nat → List dataRow × Rng → Except Fault (List dataRow × Rng))
    (hstep : ∀ i s s1, step i s = .ok s1 → StepEffect numRows s s1) :
    ∀ (k i : Nat) (s s1 : List dataRow × Rng), forRange step i k s = .ok s1 →
      s1.1.length = s.1.length ∧
      (∀ idx : Nat, idx ∉ drawnRows numRows (forRangeStates step i k s) →
        s1.1[idx]? = s.1[idx]?) ∧
      ∀ (idx : Nat) (r : dataRow), s1.1[idx]? = some r →
        ∃ r0, s.1[idx]? = some r0 ∧ r.Measurements.length = r0.Measurements.length := by
  intro k
  induction k with
  | zero =>
    intro i s s1 h
    simp only [forRange, Except.ok.injEq] at h
    subst h
    exact ⟨rfl, fun _ _ => rfl, fun idx r hr => ⟨r, hr, rfl⟩⟩
  | succ k ih =>
    intro i s s1 h
    obtain ⟨s2, h2, h3, htr⟩ := forRange_succ_ok step i k s s1 h
    obtain ⟨hlen, hframe, hrows⟩ := ih (i + 1) s2 s1 h3
    obtain ⟨row, hrow, heff⟩ := hstep i s s2 h2
    have hlt := (List.getElem?_eq_some_iff.1 hrow).1
    rw [htr]
    simp only [drawnRows, List.map_cons, List.mem_cons, not_or]
    rcases heff with ⟨_, hs2⟩ | ⟨_, r1, hs2, _, hr1len⟩
    · rw [hs2] at hlen hframe hrows
      exact ⟨hlen, fun idx hidx => hframe idx hidx.2, hrows⟩
    · refine ⟨by rw [hlen, hs2, List.length_set], ?_, ?_⟩
      · intro idx hidx
        rw [hframe idx hidx.2, hs2, List.getElem?_set_ne (Ne.symm hidx.1)]
      · intro idx r hr
        obtain ⟨r0, hr0, hl⟩ := hrows idx r hr
        rw [hs2] at hr0
        by_cases hidx : s.2.ints s.2.ipos % numRows.toNat = idx
        · subst hidx
          rw [List.getElem?_set_self hlt] at hr0
          simp only [Option.some.injEq] at hr0
          subst hr0
          exact ⟨row, hrow, by rw [hl, hr1len]⟩
        · rw [List.getElem?_set_ne hidx] at hr0
          exact ⟨r0, hr0, hl⟩

/-- The rows labelled by the selection loop are the rows whose index was drawn, and their
number is the number of distinct drawn indices. The list `pre` holds the indices labelled
before the loop starts. -/
theorem selection_count (numRows : Int)
    (step : Nat → List dataRow × Rng → Except Fault (List dataRow × Rng))
    (hstep : ∀ i s s1, step i s = .ok s1 → StepEffect numRows s s1) :
    ∀ (k i : Nat) (s s1 : List dataRow × Rng) (pre : List Nat),
      (∀ (idx : Nat) (r : dataRow), s.1[idx]? = some r → (r.IsOutlier = true ↔ idx ∈ pre)) →
      s.1.countP (fun x => x.IsOutlier) = pre.toFinset.card →
      forRange step i k s = .ok s1 →
      (∀ (idx : Nat) (r : dataRow), s1.1[idx]? = some r →
        (r.IsOutlier = true ↔
          idx ∈ pre ++ drawnRows numRows (forRangeStates step i k s))) ∧
      s1.1.countP (fun x => x.IsOutlier)
        = (pre ++ drawnRows numRows (forRangeStates step i k s)).toFinset.card ∧
      (drawnRows numRows (forRangeStates step i k s)).length = k := by
  intro k
  induction k with
  | zero =>
    intro i s s1 pre hlab hcnt h
    simp only [forRange, Except.ok.injEq] at h
    subst h
    simp only [forRangeStates, drawnRows, List.map_nil, List.append_nil, List.length_nil]
    exact ⟨hlab, hcnt, trivial⟩
  | succ k ih =>
    intro i s s1 pre hlab hcnt h
    obtain ⟨s2, h2, h3, htr⟩ := forRange_succ_ok step i k s s1 h
    obtain ⟨row, hrow, heff⟩ := hstep i s s2 h2
    have hlt := (List.getElem?_eq_some_iff.1 hrow).1
    have hlab2 : ∀ (idx : Nat) (r : dataRow), s2.1[idx]? = some r →
        (r.IsOutlier = true ↔ idx ∈ pre ++ [s.2.ints s.2.ipos % numRows.toNat]) := by
      intro idx r hr
      simp only [List.mem_append, List.mem_singleton]
      rcases heff with ⟨hl, hs2⟩ | ⟨_, r1, hs2, hr1, _⟩
      · rw [hs2] at hr
        have hmem := (hlab _ row hrow).1 hl
        constructor
        · intro hrl
          exact Or.inl ((hlab idx r hr).1 hrl)
        · rintro (hp | hp)
          · exact (hlab idx r hr).2 hp
          · subst hp
            exact (hlab _ r hr).2 hmem
      · rw [hs2] at hr
        by_cases hidx : s.2.ints s.2.ipos % numRows.toNat = idx
        · subst hidx
          rw [List.getElem?_set_self hlt] at hr
          simp only [Option.some.injEq] at hr
          subst hr
          exact ⟨fun _ => Or.inr rfl, fun _ => hr1⟩
        · rw [List.getElem?_set_ne hidx] at hr
          constructor
          · intro hrl
            exact Or.inl ((hlab idx r hr).1 hrl)
          · rintro (hp | hp)
            · exact (hlab idx r hr).2 hp
            · exact absurd hp.symm hidx
    have hcnt2 : s2.1.countP (fun x => x.IsOutlier)
        = (pre ++ [s.2.ints s.2.ipos % numRows.toNat]).toFinset.card := by
      rcases heff with ⟨hl, hs2⟩ | ⟨hl, r1, hs2, hr1, _⟩
      · have hmem := (hlab _ row hrow).1 hl
        rw [hs2, hcnt]
        congr 1
        ext x
        simp only [List.mem_toFinset, List.mem_append, List.mem_singleton]
        constructor
        · exact fun hx => Or.inl hx
        · rintro (hx | hx)
          · exact hx
          · subst hx
            exact hmem
      · have hnot : s.2.ints s.2.ipos % numRows.toNat ∉ pre := by
          intro hmem
          rw [(hlab _ row hrow).2 hmem] at hl
          exact Bool.noConfusion hl
        have hget : s.1[s.2.ints s.2.ipos % numRows.toNat] = row := by
          have := List.getElem?_eq_getElem hlt
          rw [hrow] at this
          exact (Option.some.inj this).symm
        rw [hs2, List.countP_set _ _ _ _ hlt, hget, hl, hr1, hcnt]
        simp only [Bool.false_eq_true, if_false, if_true, Nat.sub_zero]
        rw [List.toFinset_append]
        simp only [List.toFinset_cons, List.toFinset_nil, insert_emptyc_eq]
        rw [Finset.card_union_of_disjoint]
        · simp
        · simpa using hnot
    obtain ⟨hl3, hc3, hlen3⟩ := ih (i + 1) s2 s1 _ hlab2 hcnt2 h3
    rw [htr]
    simp only [drawnRows, List.map_cons, List.length_cons]
    simp only [drawnRows, List.append_assoc, List.singleton_append] at hl3 hc3 hlen3
    exact ⟨hl3, hc3, by omega⟩

/-! ## The injection loops of the two programs -/

/-- A relation `Q` between original and labelled rows that every execution of the body
establishes holds for every labelled row after the injection loop. -/
theorem inject_injectedWith (Q : dataRow → dataRow → Prop) (numRows : Int) (fuel : Nat)
    (body : Nat → Nat → List dataRow × Rng → Except Fault (List dataRow × Rng))
    (hbody : ∀ (i mIdx : Nat) (s s1 : List dataRow × Rng), body i mIdx s = .ok s1 →
      ∃ row r1, s.1[mIdx]? = some row ∧ s1.1 = s.1.set mIdx r1 ∧ r1.IsOutlier = true ∧
        Q row r1)
    (ms0 : List dataRow) (k i : Nat) (s s1 : List dataRow × Rng)
    (hinv : InjectedWith Q ms0 s.1)
    (h : forRange (fun i t => (t.2.Intn numRows).bind (fun r =>
        whileLoop (notOutlier r.1) (body i r.1) fuel (t.1, r.2))) i k s = .ok s1) :
    InjectedWith Q ms0 s1.1 := by
  refine inject_loop_inv (fun ms => InjectedWith Q ms0 ms) numRows fuel body ?_ k i s s1 hinv h
  intro j mIdx t t1 hP _ hc hb
  obtain ⟨row1, hrow1, hflag⟩ := notOutlier_eq_ok mIdx t true hc
  obtain ⟨row, r1, hrow, ht1, hr1, hQ⟩ := hbody j mIdx t t1 hb
  rw [hrow] at hrow1
  simp only [Option.some.injEq] at hrow1
  subst hrow1
  rw [ht1]
  exact injectedWith_set Q ms0 t.1 mIdx row r1 hP hrow (by simpa using hflag.symm) hr1 hQ

theorem cluster_step_effect (c : Cluster.Config) (cl : Cluster.Clusters) (fuel : Nat)
    (s s1 : List dataRow × Rng) (h : Cluster.injectStep c cl fuel s = .ok s1) :
    StepEffect c.numRows s s1 := by
  refine selection_step_effect c.numRows fuel (fun mIdx => Cluster.injectBody c cl fuel mIdx)
    ?_ s s1 h
  intro mIdx t t1 hb
  obtain ⟨row, r1, hrow, ht1, hri, _⟩ := cluster_injectBody_row c cl fuel mIdx t t1 hb
  exact ⟨row, r1, hrow, ht1, hri.1, hri.2.1⟩

theorem sine_step_effect (c : Sine.Config) (fuel i : Nat)
    (s s1 : List dataRow × Rng) (h : Sine.injectStep c fuel i s = .ok s1) :
    StepEffect c.numRows s s1 := by
  refine selection_step_effect c.numRows fuel (fun mIdx => Sine.injectBody c fuel i mIdx)
    ?_ s s1 h
  intro mIdx t t1 hb
  obtain ⟨row, r1, hrow, ht1, hri, _⟩ := sine_injectBody_row c fuel i mIdx t t1 hb
  exact ⟨row, r1, hrow, ht1, hri.1, hri.2.1⟩

/-- Shape of the inlier dataset of the cluster strategy. -/
theorem cluster_inliers_shape (c : Cluster.Config) (cl : Cluster.Clusters) (g : Rng)
    (s : List dataRow × Rng) (h : Cluster.inliers c cl g = .ok s) :
    s.1.length = c.numRows.toNat ∧
    ∀ x ∈ s.1, x.IsOutlier = false ∧ x.Measurements.length = c.dimensionCount.toNat := by
  have hrow : ∀ g1 r, Cluster.inlierRow c cl g1 = .ok r →
      r.1.length = c.dimensionCount.toNat := by
    intro g1 r hr
    unfold Cluster.inlierRow at hr
    obtain ⟨m, hm, h2⟩ := (bind_eq_ok _ _ _).1 hr
    obtain ⟨_, rfl⟩ := make_eq_ok _ _ _ hm
    have := fill_length (Cluster.inlierCell c cl) _ _ _ _ h2
    simpa using this
  unfold Cluster.inliers at h
  obtain ⟨hlen, hall⟩ := rows_loop (Cluster.inlierRow c cl) false
    (fun m => m.length = c.dimensionCount.toNat) hrow _ _ _ _ h
  refine ⟨by simpa using hlen, ?_⟩
  intro x hx
  rcases hall x hx with h5 | h5
  · simp at h5
  · exact h5

/-- Shape of the inlier dataset of the sine strategy. -/
theorem sine_inliers_shape (sin : ℚ → ℚ) (c : Sine.Config) (st : List Int)
    (ms : List dataRow) (h : Sine.inliers sin c st = .ok ms) :
    ms.length = c.numRows.toNat ∧
    ∀ x ∈ ms, x.IsOutlier = false ∧ x.Measurements.length = c.dimensionCount.toNat := by
  unfold Sine.inliers at h
  have key := forRange_inv _
    (fun j (t : List dataRow) => t.length = j ∧
      ∀ x ∈ t, x.IsOutlier = false ∧ x.Measurements.length = c.dimensionCount.toNat)
    (0 + c.numRows.toNat)
    (by
      intro i t t1 _ hP hb
      obtain ⟨m, hm, h3⟩ := (bind_eq_ok _ _ _).1 hb
      simp only [Except.ok.injEq] at h3
      subst h3
      refine ⟨by simp [hP.1], ?_⟩
      intro x hx
      rcases List.mem_append.1 hx with hx1 | hx1
      · exact hP.2 x hx1
      · simp only [List.mem_singleton] at hx1
        subst hx1
        exact ⟨rfl, (sine_inlierRow_values sin c st i m hm).1⟩)
    c.numRows.toNat 0 [] ms (le_refl _)
    ⟨rfl, fun x hx => absurd hx (List.not_mem_nil x)⟩ h
  exact ⟨by simpa using key.1, key.2⟩

/-- Outcome of `rand.Intn(2)`. -/
theorem Intn_two (g : Rng) :
    g.Intn 2 = .ok (g.ints g.ipos % 2, { g with ipos := g.ipos + 1 }) := by
  unfold Rng.Intn
  rw [if_neg (by norm_num)]
  rfl

/-- When the next `k` integer draws are even, the coin-flip loop of the mixed policy in the
cluster strategy skips `k` dimensions: the dataset is unchanged and `addedOutlier` stays
false. -/
theorem cluster_mixed_all_skip (c : Cluster.Config) (cl : Cluster.Clusters) (fuel mIdx : Nat)
    (ms : List dataRow) :
    ∀ (k i : Nat) (g : Rng), (∀ d : Nat, d < k → g.ints (g.ipos + d) % 2 = 0) →
      ∃ g1, forRange (Cluster.mixedDim c cl fuel mIdx) i k ((ms, g), false)
        = .ok ((ms, g1), false) := by
  intro k
  induction k with
  | zero => intro i g _; exact ⟨g, rfl⟩
  | succ k ih =>
    intro i g hskip
    have h0 : g.ints g.ipos % 2 = 0 := by simpa using hskip 0 (by omega)
    obtain ⟨g1, hg1⟩ := ih (i + 1) { g with ipos := g.ipos + 1 } (by
      intro d hd
      have := hskip (d + 1) (by omega)
      simp only
      rw [show g.ipos + 1 + d = g.ipos + (d + 1) by omega]
      exact this)
    refine ⟨g1, ?_⟩
    simp only [forRange, Cluster.mixedDim, Intn_two, ok_bind, h0, beq_self_eq_true, if_true]
    exact hg1

/-! ## Row selection: one draw per iteration -/

/-- An iteration of the selection loop whose drawn row is already labelled returns the dataset
as it is after one integer draw, whatever the fuel and the body. -/
theorem selection_labelled_returns (numRows : Int) (fuel : Nat)
    (body : Nat → List dataRow × Rng → Except Fault (List dataRow × Rng))
    (s : List dataRow × Rng) (hrows : 1 ≤ numRows) (hlen : s.1.length = numRows.toNat)
    (hall : ∀ r ∈ s.1, r.IsOutlier = true) :
    (s.2.Intn numRows).bind (fun r => whileLoop (notOutlier r.1) (body r.1) fuel (s.1, r.2))
      = .ok (s.1, { s.2 with ipos := s.2.ipos + 1 }) := by
  have hpos : 0 < numRows.toNat := by omega
  have hlt : s.2.ints s.2.ipos % numRows.toNat < s.1.length := by
    rw [hlen]
    exact Nat.mod_lt _ hpos
  have hcond : ∀ g1 : Rng,
      notOutlier (s.2.ints s.2.ipos % numRows.toNat) (s.1, g1) = .ok false := by
    intro g1
    unfold notOutlier index
    simp only [List.getElem?_eq_getElem hlt, ok_bind,
      hall _ (List.getElem_mem hlt), Bool.not_true]
  unfold Rng.Intn
  rw [if_neg (by omega), ok_bind]
  cases fuel <;> simp only [whileLoop, hcond, ok_bind, Bool.false_eq_true, if_false]

/-- The selection loop over a dataset whose rows are all labelled returns, for every fuel and
every number of iterations, the dataset as it is after one integer draw per iteration. -/
theorem selection_all_labelled (numRows : Int) (fuel : Nat)
    (body : Nat → Nat → List dataRow × Rng → Except Fault (List dataRow × Rng))
    (hrows : 1 ≤ numRows) :
    ∀ (k i : Nat) (s : List dataRow × Rng), s.1.length = numRows.toNat →
      (∀ r ∈ s.1, r.IsOutlier = true) →
      forRange (fun i t => (t.2.Intn numRows).bind (fun r =>
        whileLoop (notOutlier r.1) (body i r.1) fuel (t.1, r.2))) i k s
        = .ok (s.1, { s.2 with ipos := s.2.ipos + k }) := by
  intro k
  induction k with
  | zero =>
    intro i s _ _
    rfl
  | succ k ih =>
    intro i s hlen hall
    simp only [forRange]
    rw [selection_labelled_returns numRows fuel (body i) s hrows hlen hall, ok_bind]
    have h2 := ih (i + 1) (s.1, { s.2 with ipos := s.2.ipos + 1 }) hlen hall
    rw [h2]
    have hk : s.2.ipos + 1 + k = s.2.ipos + (k + 1) := by omega
    simp only [hk]

/-- With at least one unit of fuel an iteration of the selection loop is one draw followed by a
conditional: the body runs once when the drawn row is not labelled, and not at all otherwise. -/
theorem selection_step_eq (numRows : Int) (fuel : Nat)
    (body : Nat → List dataRow × Rng → Except Fault (List dataRow × Rng))
    (hbody : ∀ (mIdx : Nat) (s s1 : List dataRow × Rng), body mIdx s = .ok s1 →
      ∃ row r1, s.1[mIdx]? = some row ∧ s1.1 = s.1.set mIdx r1 ∧ r1.IsOutlier = true ∧
        r1.Measurements.length = row.Measurements.length)
    (s : List dataRow × Rng) :
    (s.2.Intn numRows).bind (fun r =>
      whileLoop (notOutlier r.1) (body r.1) (fuel + 1) (s.1, r.2))
      = (s.2.Intn numRows).bind (fun r =>
          (notOutlier r.1 (s.1, r.2)).bind (fun b =>
            if b then body r.1 (s.1, r.2) else .ok (s.1, r.2))) := by
  congr 1
  funext r
  refine whileLoop_succ_eq _ _ ?_ fuel _
  intro t t1 _ hb
  obtain ⟨row, r1, hrow, ht1, hr1, _⟩ := hbody r.1 t t1 hb
  exact notOutlier_set t.1 r.1 r1 t1 (List.getElem?_eq_some_iff.1 hrow).1 hr1 ht1

/-- Counting the labelled rows after the selection loop has run over an unlabelled dataset. -/
theorem selection_count_fresh (numRows : Int)
    (step : Nat → List dataRow × Rng → Except Fault (List dataRow × Rng))
    (hstep : ∀ i s s1, step i s = .ok s1 → StepEffect numRows s s1)
    (k : Nat) (s s1 : List dataRow × Rng)
    (hun : ∀ r ∈ s.1, r.IsOutlier = false) (hlen : s.1.length = numRows.toNat)
    (h : forRange step 0 k s = .ok s1) :
    (drawnRows numRows (forRangeStates step 0 k s)).length = k ∧
    (∀ (idx : Nat) (r : dataRow), s1.1[idx]? = some r →
      (r.IsOutlier = true ↔ idx ∈ drawnRows numRows (forRangeStates step 0 k s))) ∧
    s1.1.countP (fun x => x.IsOutlier)
      = (drawnRows numRows (forRangeStates step 0 k s)).dedup.length ∧
    s1.1.countP (fun x => x.IsOutlier) ≤ min k numRows.toNat := by
  have h0 : ∀ (idx : Nat) (r : dataRow), s.1[idx]? = some r →
      (r.IsOutlier = true ↔ idx ∈ ([] : List Nat)) := by
    intro idx r hr
    have := hun r (List.getElem?_mem hr)
    simp [this]
  have hc0 : s.1.countP (fun x => x.IsOutlier) = ([] : List Nat).toFinset.card := by
    simp only [List.toFinset_nil, Finset.card_empty, List.countP_eq_zero]
    intro r hr
    simp [hun r hr]
  obtain ⟨hlab, hcount, hk⟩ := selection_count numRows step hstep k 0 s s1 [] h0 hc0 h
  simp only [List.nil_append] at hlab hcount
  have hfr := (selection_frame numRows step hstep k 0 s s1 h).1
  refine ⟨hk, hlab, ?_, ?_⟩
  · rw [hcount, List.card_toFinset]
  · refine le_min ?_ ?_
    · rw [hcount]
      calc _ ≤ (drawnRows numRows (forRangeStates step 0 k s)).length :=
            List.toFinset_card_le _
        _ = k := hk
    · rw [← hlen, ← hfr]
      exact List.countP_le_length _
/-! ## The stages of `main` (cluster and sine strategies) -/

/-- The optional shuffle returns a permutation of the dataset. -/
theorem optional_shuffle_perm (flag : Bool) (s sh : List dataRow × Rng)
    (h : (if flag then s.2.Shuffle s.1 else .ok s) = .ok sh) :
    sh.1.Perm s.1 ∧ (flag = false → sh = s) := by
  cases flag
  · simp only [Bool.false_eq_true, if_false, Except.ok.injEq] at h
    subst h
    exact ⟨List.Perm.refl _, fun _ => rfl⟩
  · simp only [if_true] at h
    obtain ⟨ys, g1, hsh, hperm⟩ := Shuffle_spec s.2 s.1
    rw [hsh] at h
    simp only [Except.ok.injEq] at h
    subst h
    exact ⟨hperm, fun hf => absurd hf (by simp)⟩

/-- A completed run of the cluster `main` is a completed run of each of its stages. -/
theorem cluster_main_stages (c : Cluster.Config) (fuel : Nat) (g g1 : Rng)
    (l : Cluster.Locals) (h : Cluster.main c fuel g = .ok (l, g1)) :
    ∃ (cl : Cluster.Clusters × Rng) (ms ms1 : List dataRow × Rng),
      Cluster.setup c g = .ok cl ∧ Cluster.inliers c cl.1 cl.2 = .ok ms ∧
      Cluster.inject c cl.1 fuel (toInt ((c.numRows : ℚ) * c.outlierPercentage)) ms
        = .ok ms1 ∧
      l.clusters = cl.1 ∧ l.generatedMeasurements.Perm ms1.1 ∧
      (c.shuffle = false → l.generatedMeasurements = ms1.1) := by
  unfold Cluster.main at h
  obtain ⟨cl, hcl, h⟩ := (bind_eq_ok _ _ _).1 h
  obtain ⟨ms, hms, h⟩ := (bind_eq_ok _ _ _).1 h
  obtain ⟨ms1, hms1, h⟩ := (bind_eq_ok _ _ _).1 h
  obtain ⟨sh, hsh, h⟩ := (bind_eq_ok _ _ _).1 h
  simp only [Except.ok.injEq, Prod.mk.injEq] at h
  obtain ⟨hperm, heq⟩ := optional_shuffle_perm c.shuffle ms1 sh hsh
  refine ⟨cl, ms, ms1, hcl, hms, hms1, ?_, ?_, ?_⟩
  · rw [← h.1]
  · rw [← h.1]
    exact hperm
  · intro hf
    rw [← h.1, heq hf]

/-- A completed run of the sine `main` is a completed run of each of its stages. -/
theorem sine_main_stages (sin : ℚ → ℚ) (c : Sine.Config) (fuel : Nat) (g g1 : Rng)
    (l : Sine.Locals) (h : Sine.main sin c fuel g = .ok (l, g1)) :
    ∃ (st : List Int × Rng) (ms : List dataRow) (ms1 : List dataRow × Rng),
      Sine.setup c g = .ok st ∧ Sine.inliers sin c st.1 = .ok ms ∧
      Sine.inject c fuel (toInt ((c.numRows : ℚ) * c.outlierPercentage)) (ms, st.2)
        = .ok ms1 ∧
      l.startIdxes = st.1 ∧ l.generatedMeasurements.Perm ms1.1 ∧
      (c.shuffle = false → l.generatedMeasurements = ms1.1) := by
  unfold Sine.main at h
  obtain ⟨st, hst, h⟩ := (bind_eq_ok _ _ _).1 h
  obtain ⟨ms, hms, h⟩ := (bind_eq_ok _ _ _).1 h
  obtain ⟨ms1, hms1, h⟩ := (bind_eq_ok _ _ _).1 h
  obtain ⟨sh, hsh, h⟩ := (bind_eq_ok _ _ _).1 h
  simp only [Except.ok.injEq, Prod.mk.injEq] at h
  obtain ⟨hperm, heq⟩ := optional_shuffle_perm c.shuffle ms1 sh hsh
  refine ⟨st, ms, ms1, hst, hms, hms1, ?_, ?_, ?_⟩
  · rw [← h.1]
  · rw [← h.1]
    exact hperm
  · intro hf
    rw [← h.1, heq hf]

/-- Frame of the selection loop followed by a permutation: the number of rows and the length
of every row are kept, and a row whose index is not drawn is kept as it is. -/
theorem selection_frame_shape (numRows : Int) (D : Nat)
    (step : Nat → List dataRow × Rng → Except Fault (List dataRow × Rng))
    (hstep : ∀ i s s1, step i s = .ok s1 → StepEffect numRows s s1)
    (k : Nat) (s s1 : List dataRow × Rng) (out : List dataRow)
    (hlen : s.1.length = numRows.toNat)
    (hshape : ∀ x ∈ s.1, x.IsOutlier = false ∧ x.Measurements.length = D)
    (h : forRange step 0 k s = .ok s1) (hperm : out.Perm s1.1) :
    out.length = numRows.toNat ∧
    (∀ r ∈ out, r.Measurements.length = D) ∧
    ∀ (idx : Nat) (r : dataRow), s.1[idx]? = some r →
      idx ∉ drawnRows numRows (forRangeStates step 0 k s) →
      s1.1[idx]? = some r ∧ r.IsOutlier = false ∧ r ∈ out := by
  obtain ⟨hl, hund, hrl⟩ := selection_frame numRows step hstep k 0 s s1 h
  refine ⟨?_, ?_, ?_⟩
  · rw [hperm.length_eq, hl, hlen]
  · intro r hr
    obtain ⟨idx, hidx⟩ := List.getElem?_of_mem (hperm.mem_iff.1 hr)
    obtain ⟨r0, hr0, hlen0⟩ := hrl idx r hidx
    rw [hlen0]
    exact (hshape r0 (List.getElem?_mem hr0)).2
  · intro idx r hr hnot
    have h1 : s1.1[idx]? = some r := by rw [hund idx hnot, hr]
    exact ⟨h1, (hshape r (List.getElem?_mem hr)).1, hperm.mem_iff.2 (List.getElem?_mem h1)⟩

/-! ## The header read -/

/-- The read `xs[0]` returns exactly when the slice is not empty. -/
theorem index_zero_ok {α : Type} (xs : List α) :
    (∃ a, index xs 0 = .ok a) ↔ 1 ≤ xs.length := by
  cases xs with
  | nil => simp [index]
  | cons a t => simp [index]

/-- The read `xs[0]` panics exactly when the slice is empty. -/
theorem index_zero_panic {α : Type} (xs : List α) :
    index xs 0 = .error .panic ↔ xs = [] := by
  cases xs with
  | nil => simp [index]
  | cons a t => simp [index]
/-! ## Outlier row selection (cluster and sine strategies) -/

/-- C1 (the programs at a failing input). With two rows and outlier fraction 1 the target is
`floor(2 × 1) = 2` outlier rows. When both row-index draws are 0, the second draw finds row 0
already labelled, the loop body is skipped and no further index is drawn: the cluster program
and the sine program both end with one labelled row, not two. -/
theorem inject_collision_labels_one_row :
    toInt ((collisionCluster.numRows : ℚ) * collisionCluster.outlierPercentage) = 2 ∧
    toInt ((collisionSine.numRows : ℚ) * collisionSine.outlierPercentage) = 2 ∧
    (Cluster.main collisionCluster 2 zeroHalfRng).map
        (fun r => r.1.generatedMeasurements.map (fun x => x.IsOutlier)) = .ok [true, false] ∧
    ∀ sin : ℚ → ℚ, (Sine.main sin collisionSine 2 zeroHalfRng).map
        (fun r => r.1.generatedMeasurements.map (fun x => x.IsOutlier)) = .ok [true, false] := by
  refine ⟨?_, ?_, ?_, ?_⟩
  · with_unfolding_all decide
  · with_unfolding_all decide
  · with_unfolding_all rfl
  · intro sin
    with_unfolding_all rfl

/-! ## Mixed placement in the sine strategy -/

/-- C2 (the program at a failing input). Sine program, mixed policy, one row of one dimension,
outlier fraction 1: when the coin flip of the only dimension is 0 the dimension is skipped and
nothing is forced afterwards, so the row is labelled outlier while its measurement is still the
inlier value `getSineValue(0)`, which for `sin 0 = 0` is the offset 80, inside `[30, 130]`. -/
theorem sine_mixed_leaves_inlier_values :
    Sine.inBand mixedSine (mixedSine.offset + 0 * mixedSine.amplitude) = true ∧
    ∀ sin : ℚ → ℚ, (Sine.main sin mixedSine 1 zeroHalfRng).map
        (fun r => r.1.generatedMeasurements)
      = .ok [{ IsOutlier := true, Measurements := [Sine.getSineValue sin mixedSine 0] }] := by
  refine ⟨?_, ?_⟩
  · with_unfolding_all decide
  · intro sin
    with_unfolding_all rfl

/-! ## Shape and outlier count of the uniform dataset -/

/-- C3 (counterexample). Uniform program with `numRows = 1` and outlier fraction 2: the outlier
batch has `int(1 × 2) = 2` rows and the inlier batch none, so the assembled dataset has two
rows although one row was configured. -/
theorem uniform_fraction_two_rows :
    overfullUniform.numRows = 1 ∧ overfullUniform.dimensionCount = 1 ∧
    (Uniform.main overfullUniform zeroHalfRng).map
        (fun r => r.1.generatedMeasurements.length) = .ok 2 :=
  ⟨rfl, rfl, by with_unfolding_all rfl⟩

/-- C3 (amended). Uniform program, `numRows ≥ 0`, `dimensionCount ≥ 1` and outlier fraction in
`[0, 1]`: for every random source `main` returns, the assembled and shuffled dataset has
exactly `numRows` rows and every row has exactly `dimensionCount` measurements. -/
theorem uniform_dataset_shape (c : Uniform.Config) (g : Rng)
    (hn : 0 ≤ c.numRows) (hd : 1 ≤ c.dimensionCount)
    (h0 : 0 ≤ c.outlierPercentage) (h1 : c.outlierPercentage ≤ 1) :
    ∃ r g1, Uniform.main c g = .ok (r, g1) ∧
      (r.generatedMeasurements.length : Int) = c.numRows ∧
      ∀ x ∈ r.generatedMeasurements, (x.Measurements.length : Int) = c.dimensionCount := by
  obtain ⟨r, g1, hr⟩ := uniform_main_ok c g (by omega)
  obtain ⟨hl1, hl2, ha1, ha2, hp⟩ := uniform_main_partial c g r g1 hr
  obtain ⟨he, hge, hle⟩ := uniform_numOutliers_range c.numRows c.outlierPercentage hn h0 h1
  refine ⟨r, g1, hr, ?_, ?_⟩
  · rw [hp.length_eq, List.length_append, hl1, hl2, he]
    omega
  · intro x hx
    have hx1 := hp.mem_iff.1 hx
    rcases List.mem_append.1 hx1 with h | h
    · rw [(ha2 x h).2]; omega
    · rw [(ha1 x h).2]; omega

/-- C3 (witness): the example scenario, 100 rows of one dimension with outlier fraction 0.1. -/
theorem uniform_dataset_shape_witness :
    ∃ r g1, Uniform.main scenarioUniform zeroHalfRng = .ok (r, g1) ∧
      (r.generatedMeasurements.length : Int) = 100 ∧
      ∀ x ∈ r.generatedMeasurements, (x.Measurements.length : Int) = 1 :=
  uniform_dataset_shape scenarioUniform zeroHalfRng (by decide) (by decide)
    (by with_unfolding_all decide) (by with_unfolding_all decide)

/-- C4. Uniform program, `numRows ≥ 0` and outlier fraction in `[0, 1]` (exact product): `main`
returns for every random source when the dimension count is not negative, and in every
completed run the final dataset is a permutation of the outlier batch followed by the inlier
batch, holds exactly `floor(numRows × outlierFraction)` rows with `IsOutlier = true` and
exactly `numRows - floor(numRows × outlierFraction)` rows with `IsOutlier = false`. -/
theorem uniform_outlier_count (c : Uniform.Config) (g : Rng)
    (hn : 0 ≤ c.numRows) (h0 : 0 ≤ c.outlierPercentage) (h1 : c.outlierPercentage ≤ 1) :
    (0 ≤ c.dimensionCount → ∃ r g1, Uniform.main c g = .ok (r, g1)) ∧
    ∀ r g1, Uniform.main c g = .ok (r, g1) →
      r.generatedMeasurements.Perm (r.outliers ++ r.measurements) ∧
      (r.generatedMeasurements.countP (fun x => x.IsOutlier) : Int)
        = ⌊(c.numRows : ℚ) * c.outlierPercentage⌋ ∧
      (r.generatedMeasurements.countP (fun x => !x.IsOutlier) : Int)
        = c.numRows - ⌊(c.numRows : ℚ) * c.outlierPercentage⌋ := by
  refine ⟨uniform_main_ok c g, ?_⟩
  intro r g1 hr
  obtain ⟨hl1, hl2, ha1, ha2, hp⟩ := uniform_main_partial c g r g1 hr
  obtain ⟨he, hge, hle⟩ := uniform_numOutliers_range c.numRows c.outlierPercentage hn h0 h1
  have e1 : r.outliers.countP (fun x => x.IsOutlier) = r.outliers.length :=
    List.countP_eq_length.2 (fun x hx => (ha2 x hx).1)
  have e2 : r.measurements.countP (fun x => x.IsOutlier) = 0 :=
    List.countP_eq_zero.2 (fun x hx => by simp [(ha1 x hx).1])
  have e3 : r.outliers.countP (fun x => !x.IsOutlier) = 0 :=
    List.countP_eq_zero.2 (fun x hx => by simp [(ha2 x hx).1])
  have e4 : r.measurements.countP (fun x => !x.IsOutlier) = r.measurements.length :=
    List.countP_eq_length.2 (fun x hx => by simp [(ha1 x hx).1])
  refine ⟨hp, ?_, ?_⟩
  · rw [hp.countP_eq, List.countP_append, e1, e2, hl2, he]
    omega
  · rw [hp.countP_eq, List.countP_append, e3, e4, hl1, he]
    omega

/-- C4 (witness): `numRows = 100` and outlier fraction 0.1 give 10 outlier rows and 90 inlier
rows. -/
theorem uniform_outlier_count_witness :
    ∃ r g1, Uniform.main scenarioUniform zeroHalfRng = .ok (r, g1) ∧
      r.generatedMeasurements.countP (fun x => x.IsOutlier) = 10 ∧
      r.generatedMeasurements.countP (fun x => !x.IsOutlier) = 90 := by
  have h := uniform_outlier_count scenarioUniform zeroHalfRng (by decide)
    (by with_unfolding_all decide) (by with_unfolding_all decide)
  obtain ⟨r, g1, hr⟩ := h.1 (by decide)
  obtain ⟨_, h2, h3⟩ := h.2 r g1 hr
  have hf : ⌊((scenarioUniform.numRows : Int) : ℚ) * scenarioUniform.outlierPercentage⌋ = 10 := by
    with_unfolding_all decide
  have hn : scenarioUniform.numRows = 100 := rfl
  rw [hf] at h2 h3
  rw [hn] at h3
  exact ⟨r, g1, hr, by omega, by omega⟩

/-! ## The uniform outlier synthesizer -/

/-- C5 (counterexample). Two runs of the uniform `getOutlierValue` with `min ≤ max` and
`outlierDelta = 100 > 0` whose result lies inside `[min, max]`: with range `[5, 65]`, the flag
off and the float draw `u = 0` the result is `max = 65` itself; with range `[-200, 65]`, the
flag on, `u = 1/2` and the sign flipped the result is `-115`. -/
theorem uniform_outlier_value_inside_range :
    (Uniform.getOutlierValue scenarioUniform zeroZeroRng).map (fun r => r.1) = .ok 65 ∧
    (scenarioUniform.minValue ≤ 65 ∧ (65 : ℚ) ≤ scenarioUniform.maxValue) ∧
    (Uniform.getOutlierValue wideUniform zeroHalfRng).map (fun r => r.1) = .ok (-115) ∧
    (wideUniform.minValue ≤ -115 ∧ (-115 : ℚ) ≤ wideUniform.maxValue) := by
  refine ⟨by with_unfolding_all rfl, ?_, by with_unfolding_all rfl, ?_⟩
  · with_unfolding_all decide
  · with_unfolding_all decide

/-- C5 (amended). Uniform `getOutlierValue` with `min ≤ max` and `outlierDelta > 0`: for every
random source the call returns a value `v` with `v ≥ max`, or, when the sign coin is `0` and the
negative-outliers flag is on, with `v ≤ -max`; `v ≥ max` when the flag is off; and whenever
`-max ≤ min` the value does not lie strictly inside the inlier range: `v ≤ min` or `v ≥ max`.
The bounds are not strict, the draw `u = 0` returns `max` itself. -/
theorem uniform_outlier_value_outside_range (c : Uniform.Config) (g : Rng)
    (_hmm : c.minValue ≤ c.maxValue) (hd : 0 < c.outlierDelta) :
    ∃ v g1, Uniform.getOutlierValue c g = .ok (v, g1) ∧
      (c.maxValue ≤ v ∨
        (c.generateNegativeOutliers = true ∧ g.ints g.ipos % 2 = 0 ∧ v ≤ -c.maxValue)) ∧
      (c.generateNegativeOutliers = false → c.maxValue ≤ v) ∧
      (-c.maxValue ≤ c.minValue → v ≤ c.minValue ∨ c.maxValue ≤ v) := by
  obtain ⟨g1, h⟩ := uniform_getOutlierValue_eq c g
  have hpos : 0 ≤ g.Float64.1 * c.outlierDelta :=
    mul_nonneg (Float64_range g).1 (le_of_lt hd)
  refine ⟨_, g1, h, ?_⟩
  split
  · rename_i hneg
    simp only [Bool.and_eq_true, beq_iff_eq] at hneg
    refine ⟨Or.inr ⟨hneg.2, hneg.1, by linarith⟩, ?_, ?_⟩
    · intro hf; rw [hf] at hneg; simp at hneg
    · intro hm; left; linarith
  · refine ⟨Or.inl (by linarith), ?_, ?_⟩
    · intro _; linarith
    · intro _; right; linarith

/-- C5 (witness): default range `[5, 65]`, `outlierDelta = 100`, float draw `1/2`. -/
theorem uniform_outlier_value_outside_range_witness :
    ∃ v g1, Uniform.getOutlierValue defaultUniform zeroHalfRng = .ok (v, g1) ∧
      (defaultUniform.maxValue ≤ v ∨
        (defaultUniform.generateNegativeOutliers = true ∧
          zeroHalfRng.ints zeroHalfRng.ipos % 2 = 0 ∧ v ≤ -defaultUniform.maxValue)) ∧
      (defaultUniform.generateNegativeOutliers = false → defaultUniform.maxValue ≤ v) ∧
      (-defaultUniform.maxValue ≤ defaultUniform.minValue →
        v ≤ defaultUniform.minValue ∨ defaultUniform.maxValue ≤ v) :=
  uniform_outlier_value_outside_range defaultUniform zeroHalfRng
    (by with_unfolding_all decide) (by with_unfolding_all decide)

/-! ## The cluster outlier synthesizer and the cluster inlier sampler -/

/-- C6. Cluster `getOutlierValue` with `clusterSpread ≥ 0`, `clusterMax > 0` and a centre map
that contains index 0: every returned value is not prohibited, lies outside the band
`[f - spread/2, f + spread/2]` of every centre `f` of the map, is a resampled draw
`u × (clusterMax × 1.25)` with `u` in `[0, 1)` or, with the negative-outliers flag on, the
negation of one, lies in `[0, 1.25 × clusterMax)` when the flag is off and in
`(-1.25 × clusterMax, 1.25 × clusterMax)` in either case. -/
theorem cluster_outlier_value_spec (c : Cluster.Config) (m : GoMap ℚ) (fuel : Nat)
    (g : Rng) (v : ℚ) (g1 : Rng)
    (hs : 0 ≤ c.clusterSpread) (hm : 0 < c.clusterMax)
    (h0 : ∃ f, List.lookup 0 m = some f)
    (h : Cluster.getOutlierValue c m fuel g = .ok (v, g1)) :
    Cluster.isProhibited c v m = false ∧
    (∀ e ∈ m, v < e.2 - c.clusterSpread / 2 ∨ e.2 + c.clusterSpread / 2 < v) ∧
    (∃ u : ℚ, 0 ≤ u ∧ u < 1 ∧
      (v = u * (c.clusterMax * 1.25) ∨
        (c.generateNegativeOutliers = true ∧ v = -(u * (c.clusterMax * 1.25))))) ∧
    (c.generateNegativeOutliers = false → 0 ≤ v ∧ v < 1.25 * c.clusterMax) ∧
    (-(1.25 * c.clusterMax) < v ∧ v < 1.25 * c.clusterMax) := by
  obtain ⟨f, hf⟩ := h0
  have hexit := cluster_getOutlierValue_exit c m fuel g (v, g1) h
  simp only at hexit
  have hall : ∀ e ∈ m, ¬ (Cluster.inBand c v e.2 = true) := by
    intro e he hb
    have : Cluster.isProhibited c v m = true :=
      List.any_eq_true.2 ⟨e, he, hb⟩
    rw [hexit] at this
    exact Bool.false_ne_true this
  have hinit : Cluster.isProhibited c f m = true :=
    List.any_eq_true.2 ⟨(0, f), lookup_mem 0 f m hf,
      (cluster_inBand_iff c f f).2 ⟨by linarith, by linarith⟩⟩
  have hread : GoMap.read m 0 0 = f := by simp [GoMap.read, hf]
  have hform := cluster_getOutlierValue_form c m fuel g (v, g1) h
  simp only [hread] at hform
  have hne : v ≠ f := by
    intro hvf
    rw [hvf, hinit] at hexit
    exact Bool.noConfusion hexit
  obtain ⟨u, hu0, hu1, hv⟩ := hform.resolve_left hne
  have hb1 : 0 ≤ u * (c.clusterMax * 1.25) := by positivity
  have hb2 : u * (c.clusterMax * 1.25) < 1.25 * c.clusterMax := by nlinarith
  refine ⟨hexit, ?_, ⟨u, hu0, hu1, hv⟩, ?_, ?_⟩
  · intro e he
    have := hall e he
    rw [cluster_inBand_iff] at this
    by_contra hcon
    push_neg at hcon
    exact this ⟨hcon.1, hcon.2⟩
  · intro hflag
    rcases hv with hv | ⟨hv1, _⟩
    · rw [hv]; exact ⟨hb1, hb2⟩
    · rw [hflag] at hv1; exact Bool.noConfusion hv1
  · rcases hv with hv | ⟨_, hv⟩
    · rw [hv]; exact ⟨by linarith, hb2⟩
    · rw [hv]; exact ⟨by linarith, by linarith⟩

/-- C6 (witness): `clusterMax = 100`, `clusterSpread = 10`, one centre 50 and the draw `1/2`
give the value 62.5, outside `[45, 55]` and within `[0, 125)`. -/
theorem cluster_outlier_value_spec_witness :
    Cluster.getOutlierValue collisionCluster [(0, 50)] 1 zeroHalfRng
        = .ok (125 / 2, { zeroHalfRng with ipos := 1, fpos := 1 }) ∧
    Cluster.isProhibited collisionCluster (125 / 2) [(0, 50)] = false ∧
    (∀ e ∈ ([(0, 50)] : GoMap ℚ), (125 / 2 : ℚ) < e.2 - collisionCluster.clusterSpread / 2 ∨
        e.2 + collisionCluster.clusterSpread / 2 < 125 / 2) ∧
    (collisionCluster.generateNegativeOutliers = false →
      (0 : ℚ) ≤ 125 / 2 ∧ (125 / 2 : ℚ) < 1.25 * collisionCluster.clusterMax) :=
  have h := cluster_outlier_value_spec collisionCluster [(0, 50)] 1 zeroHalfRng (125 / 2)
    { zeroHalfRng with ipos := 1, fpos := 1 }
    (by with_unfolding_all decide) (by with_unfolding_all decide) ⟨50, rfl⟩
    (by with_unfolding_all rfl)
  ⟨by with_unfolding_all rfl, h.1, h.2.1, h.2.2.2.1⟩

/-- C7 (counterexample). Cluster program with two clusters in the only dimension whose centres
are drawn as 10 and 11 and `clusterSpread = 5`: the inlier value of the only row is 10 and lies
in the bands of both centres, `[7.5, 12.5]` and `[8.5, 13.5]`, not in exactly one. -/
theorem cluster_inlier_in_two_bands :
    (Cluster.main twoClusters 1 nearCentresRng).map
        (fun r => (r.1.clusters.clusterOffsets, r.1.generatedMeasurements))
      = .ok ([(0, [(1, 11), (0, 10)])], [{ IsOutlier := false, Measurements := [10] }]) ∧
    Cluster.bandsContaining twoClusters 10 [(1, 11), (0, 10)] = 2 :=
  ⟨by with_unfolding_all rfl, by with_unfolding_all decide⟩

/-- C7 (amended). Cluster inlier sampling with `clusterSpread ≥ 0` in a dimension `j` with
`k ≥ 1` centres stored at the indices `0 .. k - 1`: for every random source the sampler returns
`f + (u × spread - spread/2)` for the centre `f` of a cluster index `i` in `[0, k)` and the
draw `u` in `[0, 1)`; this value lies within the band `[f - spread/2, f + spread/2]` of its
own centre, hence within at least one band of its dimension. -/
theorem cluster_inlier_in_own_band (c : Cluster.Config) (cl : Cluster.Clusters) (j : Nat)
    (g : Rng) (k : Int)
    (hs : 0 ≤ c.clusterSpread) (hk : index cl.clusterCount j = .ok k) (hk1 : 1 ≤ k)
    (hkeys : ∀ i : Nat, (i : Int) < k →
      ∃ f, List.lookup (i : Int) (GoMap.read cl.clusterOffsets (j : Int) []) = some f) :
    ∃ v g1, Cluster.inlierCell c cl j g = .ok (v, g1) ∧
      ∃ (i : Nat) (f u : ℚ), (i : Int) < k ∧
        List.lookup (i : Int) (GoMap.read cl.clusterOffsets (j : Int) []) = some f ∧
        0 ≤ u ∧ u < 1 ∧ v = f + (u * c.clusterSpread - c.clusterSpread / 2) ∧
        f - c.clusterSpread / 2 ≤ v ∧ v ≤ f + c.clusterSpread / 2 ∧
        Cluster.isProhibited c v (GoMap.read cl.clusterOffsets (j : Int) []) = true ∧
        1 ≤ Cluster.bandsContaining c v (GoMap.read cl.clusterOffsets (j : Int) []) := by
  obtain ⟨r, hr⟩ := Intn_pos g k (by omega)
  obtain ⟨_, hlt, _⟩ := Intn_eq_ok g k r hr
  obtain ⟨f, hf⟩ := hkeys r.1 hlt
  obtain ⟨hu0, hu1⟩ := Float64_range r.2
  have hread : GoMap.read (GoMap.read cl.clusterOffsets (j : Int) []) (r.1 : Int) 0 = f := by
    rw [GoMap.read, hf]
    rfl
  have hlo : f - c.clusterSpread / 2
      ≤ f + (r.2.Float64.1 * c.clusterSpread - c.clusterSpread / 2) := by
    have := mul_nonneg hu0 hs
    linarith
  have hhi : f + (r.2.Float64.1 * c.clusterSpread - c.clusterSpread / 2)
      ≤ f + c.clusterSpread / 2 := by
    have : r.2.Float64.1 * c.clusterSpread ≤ 1 * c.clusterSpread :=
      mul_le_mul_of_nonneg_right (le_of_lt hu1) hs
    linarith
  have hband : Cluster.inBand c
      (f + (r.2.Float64.1 * c.clusterSpread - c.clusterSpread / 2)) f = true :=
    (cluster_inBand_iff c _ f).2 ⟨hlo, hhi⟩
  have hmem := lookup_mem _ _ _ hf
  refine ⟨f + (r.2.Float64.1 * c.clusterSpread - c.clusterSpread / 2), r.2.Float64.2, ?_,
    r.1, f, r.2.Float64.1, hlt, hf, hu0, hu1, rfl, hlo, hhi, ?_, ?_⟩
  · simp only [Cluster.inlierCell, hk, hr, ok_bind, hread]
  · exact List.any_eq_true.2 ⟨_, hmem, hband⟩
  · exact List.countP_pos_iff.2 ⟨_, hmem, hband⟩

/-- C7 (witness): the dimension with centres 10 and 11 and `clusterSpread = 5`. -/
theorem cluster_inlier_in_own_band_witness :
    ∃ v g1, Cluster.inlierCell twoClusters
        { clusterCount := [2], clusterOffsets := [(0, [(1, 11), (0, 10)])] } 0 zeroHalfRng
          = .ok (v, g1) ∧
      ∃ (i : Nat) (f u : ℚ), (i : Int) < 2 ∧
        List.lookup (i : Int) (GoMap.read [(0, [(1, 11), (0, 10)])] ((0 : Nat) : Int) []) = some f ∧
        0 ≤ u ∧ u < 1 ∧ v = f + (u * twoClusters.clusterSpread - twoClusters.clusterSpread / 2) ∧
        f - twoClusters.clusterSpread / 2 ≤ v ∧ v ≤ f + twoClusters.clusterSpread / 2 ∧
        Cluster.isProhibited twoClusters v
          (GoMap.read [(0, [(1, 11), (0, 10)])] ((0 : Nat) : Int) []) = true ∧
        1 ≤ Cluster.bandsContaining twoClusters v
          (GoMap.read [(0, [(1, 11), (0, 10)])] ((0 : Nat) : Int) []) :=
  cluster_inlier_in_own_band twoClusters
    { clusterCount := [2], clusterOffsets := [(0, [(1, 11), (0, 10)])] } 0 zeroHalfRng 2
    (by with_unfolding_all decide) rfl (by decide)
    (by
      intro i hi
      have h2 : i = 0 ∨ i = 1 := by omega
      rcases h2 with rfl | rfl
      · exact ⟨10, rfl⟩
      · exact ⟨11, rfl⟩)

/-! ## The sine outlier synthesizer -/

/-- C8. Sine `getOutlierValue`: for every configuration, every fuel and every random source on
which the rejection loop exits, the returned value `v` lies strictly outside
`[offset - amplitude, offset + amplitude]`. -/
theorem sine_outlier_value_outside_band (c : Sine.Config) (idx : Int) (fuel : Nat) (g : Rng)
    (v : ℚ) (g1 : Rng) (h : Sine.getOutlierValue c idx fuel g = .ok (v, g1)) :
    v < c.offset - c.amplitude ∨ c.offset + c.amplitude < v := by
  have hexit := sine_getOutlierValue_exit c idx fuel g (v, g1) h
  have hnot : ¬ (Sine.inBand c v = true) := by
    simp only at hexit
    rw [hexit]
    exact Bool.false_ne_true
  rw [sine_inBand_iff] at hnot
  by_contra hcon
  push_neg at hcon
  exact hnot ⟨hcon.1, hcon.2⟩

/-- C8 (witness): default wave (`offset = 80`, `amplitude = 50`), `max = 65`,
`outlierDelta = 100`, sign flipped and draw `1/2`: the loop exits with `-115 < 30`. -/
theorem sine_outlier_value_outside_band_witness :
    Sine.getOutlierValue mixedSine 0 1 zeroHalfRng
        = .ok (-115, { zeroHalfRng with ipos := 1, fpos := 1 }) ∧
    ((-115 : ℚ) < mixedSine.offset - mixedSine.amplitude ∨
      mixedSine.offset + mixedSine.amplitude < -115) :=
  ⟨by with_unfolding_all rfl,
    sine_outlier_value_outside_band mixedSine 0 1 zeroHalfRng (-115)
      { zeroHalfRng with ipos := 1, fpos := 1 } (by with_unfolding_all rfl)⟩

/-- C9 (counterexample). Sine `getOutlierValue` with `offset = 0` and `amplitude = -1`: the
initial candidate `offset + amplitude × 0.5 = -1/2` does not lie within
`[offset - amplitude, offset + amplitude] = [1, -1]`, the loop performs no iteration (no fuel
is needed and the random source is untouched) and the initial candidate is returned. -/
theorem sine_negative_amplitude_returns_candidate :
    negativeAmplitudeSine.offset + negativeAmplitudeSine.amplitude * 0.5 = -1 / 2 ∧
    Sine.inBand negativeAmplitudeSine (-1 / 2) = false ∧
    Sine.getOutlierValue negativeAmplitudeSine 0 0 zeroHalfRng = .ok (-1 / 2, zeroHalfRng) :=
  ⟨by with_unfolding_all decide, by with_unfolding_all decide, by with_unfolding_all rfl⟩

/-- C9 (amended). Sine `getOutlierValue` with `amplitude ≥ 0`: the initial candidate
`offset + amplitude × 0.5` lies within `[offset - amplitude, offset + amplitude]`; the loop
cannot return without executing its body (with fuel 0 it runs out of fuel); and every returned
value is `max + u × outlierDelta` or its negation for a draw `u` in `[0, 1)` and differs from
the initial candidate. -/
theorem sine_outlier_value_resampled (c : Sine.Config) (idx : Int) (g : Rng)
    (ha : 0 ≤ c.amplitude) :
    (c.offset - c.amplitude ≤ c.offset + c.amplitude * 0.5 ∧
      c.offset + c.amplitude * 0.5 ≤ c.offset + c.amplitude) ∧
    Sine.getOutlierValue c idx 0 g = .error .fuel ∧
    ∀ fuel v g1, Sine.getOutlierValue c idx fuel g = .ok (v, g1) →
      (∃ u : ℚ, 0 ≤ u ∧ u < 1 ∧
        (v = c.maxValue + u * c.outlierDelta ∨ v = -(c.maxValue + u * c.outlierDelta))) ∧
      v ≠ c.offset + c.amplitude * 0.5 := by
  have hin : c.offset - c.amplitude ≤ c.offset + c.amplitude * 0.5 ∧
      c.offset + c.amplitude * 0.5 ≤ c.offset + c.amplitude := by
    constructor <;> norm_num <;> linarith
  have hband : Sine.inBand c (c.offset + c.amplitude * 0.5) = true :=
    (sine_inBand_iff c _).2 hin
  refine ⟨hin, ?_, ?_⟩
  · simp only [Sine.getOutlierValue, whileLoop, hband, ok_bind, if_true]
  · intro fuel v g1 h
    have hexit := sine_getOutlierValue_exit c idx fuel g (v, g1) h
    simp only at hexit
    have hne : v ≠ c.offset + c.amplitude * 0.5 := by
      intro hv
      rw [hv, hband] at hexit
      exact Bool.noConfusion hexit
    have hform := sine_getOutlierValue_form c idx fuel g (v, g1) h
    exact ⟨hform.resolve_left hne, hne⟩

/-- C9 (witness): default wave and `max = 65`, `outlierDelta = 100`; the run with one unit of
fuel and draw `1/2` returns `-115 = -(65 + u × 100)` for some `u` in `[0, 1)`. -/
theorem sine_outlier_value_resampled_witness :
    (mixedSine.offset - mixedSine.amplitude ≤ mixedSine.offset + mixedSine.amplitude * 0.5 ∧
      mixedSine.offset + mixedSine.amplitude * 0.5 ≤ mixedSine.offset + mixedSine.amplitude) ∧
    Sine.getOutlierValue mixedSine 0 0 zeroHalfRng = .error .fuel ∧
    (∃ u : ℚ, 0 ≤ u ∧ u < 1 ∧
      ((-115 : ℚ) = mixedSine.maxValue + u * mixedSine.outlierDelta ∨
        (-115 : ℚ) = -(mixedSine.maxValue + u * mixedSine.outlierDelta))) ∧
    (-115 : ℚ) ≠ mixedSine.offset + mixedSine.amplitude * 0.5 :=
  have h := sine_outlier_value_resampled mixedSine 0 zeroHalfRng (by with_unfolding_all decide)
  ⟨h.1, h.2.1,
    h.2.2 1 (-115) { zeroHalfRng with ipos := 1, fpos := 1 } (by with_unfolding_all rfl)⟩

/-! ## The single-only placement policy (cluster and sine strategies) -/

/-- C10. Cluster and sine programs under the single-only policy (single flag true, multi flag
false); cluster with `clusterSpread ≥ 0`, sine with `amplitude ≥ 0` and a sine function with
values in `[-1, 1]`. Whenever the stages of `main` before the optional shuffle complete (cluster:
setup, inlier generation, outlier injection; sine: inlier generation for any starting phases,
outlier injection), every row labelled outlier has exactly one dimension `d` whose value fails
the inlier-membership test
(cluster: not prohibited, that is outside every band of its dimension; sine: outside
`[offset - amplitude, offset + amplitude]`), and every other dimension still holds the inlier
value of the row, which passes the test. -/
theorem single_only_one_outlier_dimension
    (c : Cluster.Config) (cl : Cluster.Clusters) (cfuel : Nat) (cn : Int)
    (cg cg0 cg1 cg2 : Rng) (cms cms1 : List dataRow)
    (sin : ℚ → ℚ) (sc : Sine.Config) (st : List Int) (sfuel : Nat) (sn : Int)
    (sg0 sg1 : Rng) (sms sms1 : List dataRow)
    (hcm : c.multiDimensionalOutliersOnly = false)
    (hcs : c.singleDimensionalOutliersOnly = true)
    (hspread : 0 ≤ c.clusterSpread)
    (hcset : Cluster.setup c cg = .ok (cl, cg0))
    (hci : Cluster.inliers c cl cg0 = .ok (cms, cg1))
    (hcj : Cluster.inject c cl cfuel cn (cms, cg1) = .ok (cms1, cg2))
    (hsm : sc.multiDimensionalOutliersOnly = false)
    (hss : sc.singleDimensionalOutliersOnly = true)
    (hamp : 0 ≤ sc.amplitude)
    (hsin : ∀ y, -1 ≤ sin y ∧ sin y ≤ 1)
    (hsi : Sine.inliers sin sc st = .ok sms)
    (hsj : Sine.inject sc sfuel sn (sms, sg0) = .ok (sms1, sg1)) :
    (∀ (idx : Nat) (r : dataRow), cms1[idx]? = some r → r.IsOutlier = true →
      ∃ (r0 : dataRow) (d : Nat), cms[idx]? = some r0 ∧ d < r.Measurements.length ∧
        (∀ (e : Nat) (w : ℚ), r.Measurements[e]? = some w →
          (Cluster.isProhibited c w (GoMap.read cl.clusterOffsets (e : Int) []) = false
            ↔ e = d)) ∧
        ∀ e : Nat, e ≠ d → r.Measurements[e]? = r0.Measurements[e]?) ∧
    (∀ (idx : Nat) (r : dataRow), sms1[idx]? = some r → r.IsOutlier = true →
      ∃ (r0 : dataRow) (d : Nat), sms[idx]? = some r0 ∧ d < r.Measurements.length ∧
        (∀ (e : Nat) (w : ℚ), r.Measurements[e]? = some w →
          (Sine.inBand sc w = false ↔ e = d)) ∧
        ∀ e : Nat, e ≠ d → r.Measurements[e]? = r0.Measurements[e]?) := by
  have hcl := cluster_setup_keys c cg (cl, cg0) hcset
  have hcin := cluster_inliers_prohibited c cl cg0 (cms, cg1) hspread hcl hci
  have hsin2 := sine_inliers_inBand sin sc st sms hamp hsin hsi
  have hc0 := singleInjected_refl
    (fun d v => Cluster.isProhibited c v (GoMap.read cl.clusterOffsets (d : Int) []) = false)
    cms (fun r hr => (hcin r hr).1)
  have hs0 := singleInjected_refl (fun _ v => Sine.inBand sc v = false)
    sms (fun r hr => (hsin2 r hr).1)
  have hc1 := cluster_inject_single c cl cfuel cn cms (cms, cg1) (cms1, cg2) hcm hcs hc0 hcj
  have hs1 := sine_inject_single sc sfuel sn sms (sms, sg0) (sms1, sg1) hsm hss hs0 hsj
  constructor
  · exact singleInjected_exactly_one _ cms cms1 hc1
      (fun r0 hr0 d w hw hf => by
        have := (hcin r0 hr0).2 d w hw
        rw [this] at hf
        exact Bool.noConfusion hf)
  · exact singleInjected_exactly_one _ sms sms1 hs1
      (fun r0 hr0 d w hw hf => by
        have := (hsin2 r0 hr0).2 d w hw
        rw [this] at hf
        exact Bool.noConfusion hf)

/-- C10 (witness). Two rows of two dimensions, one outlier to inject. Cluster: one centre per
dimension, 10 and 11, `clusterSpread = 10`; row 0 becomes `[62.5, 11]`. Sine: default wave,
both phases 0; row 0 becomes `[-115, 80]`. -/
theorem single_only_one_outlier_dimension_witness :
    Cluster.setup singleCluster nearCentresRng
      = .ok ({ clusterCount := [1, 1], clusterOffsets := [(1, [(0, 11)]), (0, [(0, 10)])] },
             { nearCentresRng with ipos := 2, fpos := 2 }) ∧
    Cluster.inject singleCluster
        { clusterCount := [1, 1], clusterOffsets := [(1, [(0, 11)]), (0, [(0, 10)])] } 1 1
        ([{ IsOutlier := false, Measurements := [10, 11] },
          { IsOutlier := false, Measurements := [10, 11] }],
         { nearCentresRng with ipos := 6, fpos := 6 })
      = .ok ([{ IsOutlier := true, Measurements := [125 / 2, 11] },
              { IsOutlier := false, Measurements := [10, 11] }],
             { nearCentresRng with ipos := 9, fpos := 7 }) ∧
    Sine.inject singleSine 1 1
        ([{ IsOutlier := false, Measurements := [80, 80] },
          { IsOutlier := false, Measurements := [205080 / 2501, 205080 / 2501] }],
         { zeroHalfRng with ipos := 2 })
      = .ok ([{ IsOutlier := true, Measurements := [-115, 80] },
              { IsOutlier := false, Measurements := [205080 / 2501, 205080 / 2501] }],
             { zeroHalfRng with ipos := 5, fpos := 1 }) ∧
    (∀ (idx : Nat) (r : dataRow),
      ([{ IsOutlier := true, Measurements := [125 / 2, 11] },
        { IsOutlier := false, Measurements := [10, 11] }] : List dataRow)[idx]? = some r →
      r.IsOutlier = true →
      ∃ (r0 : dataRow) (d : Nat),
        ([{ IsOutlier := false, Measurements := [10, 11] },
          { IsOutlier := false, Measurements := [10, 11] }] : List dataRow)[idx]? = some r0 ∧
        d < r.Measurements.length ∧
        (∀ (e : Nat) (w : ℚ), r.Measurements[e]? = some w →
          (Cluster.isProhibited singleCluster w
              (GoMap.read [(1, [(0, 11)]), (0, [(0, 10)])] (e : Int) []) = false ↔ e = d)) ∧
        ∀ e : Nat, e ≠ d → r.Measurements[e]? = r0.Measurements[e]?) ∧
    (∀ (idx : Nat) (r : dataRow),
      ([{ IsOutlier := true, Measurements := [-115, 80] },
        { IsOutlier := false, Measurements := [205080 / 2501, 205080 / 2501] }]
          : List dataRow)[idx]? = some r →
      r.IsOutlier = true →
      ∃ (r0 : dataRow) (d : Nat),
        ([{ IsOutlier := false, Measurements := [80, 80] },
          { IsOutlier := false, Measurements := [205080 / 2501, 205080 / 2501] }]
            : List dataRow)[idx]? = some r0 ∧
        d < r.Measurements.length ∧
        (∀ (e : Nat) (w : ℚ), r.Measurements[e]? = some w →
          (Sine.inBand singleSine w = false ↔ e = d)) ∧
        ∀ e : Nat, e ≠ d → r.Measurements[e]? = r0.Measurements[e]?) :=
  have h0 : Cluster.setup singleCluster nearCentresRng
      = .ok ({ clusterCount := [1, 1], clusterOffsets := [(1, [(0, 11)]), (0, [(0, 10)])] },
             { nearCentresRng with ipos := 2, fpos := 2 }) := by with_unfolding_all rfl
  have h1 : Cluster.inliers singleCluster
        { clusterCount := [1, 1], clusterOffsets := [(1, [(0, 11)]), (0, [(0, 10)])] }
        { nearCentresRng with ipos := 2, fpos := 2 }
      = .ok ([{ IsOutlier := false, Measurements := [10, 11] },
              { IsOutlier := false, Measurements := [10, 11] }],
             { nearCentresRng with ipos := 6, fpos := 6 }) := by with_unfolding_all rfl
  have h2 : Cluster.inject singleCluster
        { clusterCount := [1, 1], clusterOffsets := [(1, [(0, 11)]), (0, [(0, 10)])] } 1 1
        ([{ IsOutlier := false, Measurements := [10, 11] },
          { IsOutlier := false, Measurements := [10, 11] }],
         { nearCentresRng with ipos := 6, fpos := 6 })
      = .ok ([{ IsOutlier := true, Measurements := [125 / 2, 11] },
              { IsOutlier := false, Measurements := [10, 11] }],
             { nearCentresRng with ipos := 9, fpos := 7 }) := by with_unfolding_all rfl
  have h4 : Sine.inliers boundedWave singleSine [0, 0]
      = .ok [{ IsOutlier := false, Measurements := [80, 80] },
             { IsOutlier := false, Measurements := [205080 / 2501, 205080 / 2501] }] := by
    with_unfolding_all rfl
  have h5 : Sine.inject singleSine 1 1
        ([{ IsOutlier := false, Measurements := [80, 80] },
          { IsOutlier := false, Measurements := [205080 / 2501, 205080 / 2501] }],
         { zeroHalfRng with ipos := 2 })
      = .ok ([{ IsOutlier := true, Measurements := [-115, 80] },
              { IsOutlier := false, Measurements := [205080 / 2501, 205080 / 2501] }],
             { zeroHalfRng with ipos := 5, fpos := 1 }) := by with_unfolding_all rfl
  have h := single_only_one_outlier_dimension singleCluster _ 1 1 nearCentresRng _ _ _ _ _
    boundedWave singleSine [0, 0] 1 1 _ _ _ _
    rfl rfl (by with_unfolding_all decide) h0 h1 h2
    rfl rfl (by with_unfolding_all decide) boundedWave_range h4 h5
  ⟨h0, h2, h5, h.1, h.2⟩

/-! ## Magnitude of the uniform outlier values -/

/-- C12 (counterexample). Uniform `getOutlierValue` with `max = -10`, `outlierDelta = 1 ≥ 0`,
the negative-outliers flag off and the float draw `1/2`: the returned value is `-19/2`, which
is negative. -/
theorem uniform_outlier_value_negative :
    negativeMaxUniform.generateNegativeOutliers = false ∧
    (0 : ℚ) ≤ negativeMaxUniform.outlierDelta ∧
    (Uniform.getOutlierValue negativeMaxUniform zeroHalfRng).map (fun r => r.1)
      = .ok (-19 / 2) ∧
    (-19 / 2 : ℚ) < 0 :=
  ⟨rfl, by with_unfolding_all decide, by with_unfolding_all rfl, by with_unfolding_all decide⟩

/-- C12 (amended). Uniform `getOutlierValue` with `outlierDelta ≥ 0`: for every `max` and every
random source the call returns a value `v` with `|v| ≥ max`; when the negative-outliers flag is
off, `v ≥ max`, so `v` is non-negative whenever `max ≥ 0`. -/
theorem uniform_outlier_value_magnitude (c : Uniform.Config) (g : Rng)
    (hd : 0 ≤ c.outlierDelta) :
    ∃ v g1, Uniform.getOutlierValue c g = .ok (v, g1) ∧ c.maxValue ≤ |v| ∧
      (c.generateNegativeOutliers = false → c.maxValue ≤ v) ∧
      (c.generateNegativeOutliers = false → 0 ≤ c.maxValue → 0 ≤ v) := by
  obtain ⟨g1, h⟩ := uniform_getOutlierValue_eq c g
  have hpos : 0 ≤ g.Float64.1 * c.outlierDelta := mul_nonneg (Float64_range g).1 hd
  refine ⟨_, g1, h, ?_⟩
  split
  · rename_i hneg
    simp only [Bool.and_eq_true] at hneg
    refine ⟨?_, ?_, ?_⟩
    · have h1 : (c.maxValue + g.Float64.1 * c.outlierDelta) * -1
          = -(c.maxValue + g.Float64.1 * c.outlierDelta) := by ring
      rw [h1, abs_neg]
      exact le_trans (by linarith) (le_abs_self _)
    · intro hf; rw [hf] at hneg; exact absurd hneg.2 Bool.false_ne_true
    · intro hf; rw [hf] at hneg; exact absurd hneg.2 Bool.false_ne_true
  · refine ⟨le_trans (by linarith) (le_abs_self _), fun _ => by linarith, ?_⟩
    intro _ h0
    linarith

/-- C12 (witness): `max = 65`, `outlierDelta = 100`, flag off: the value is at least 65. -/
theorem uniform_outlier_value_magnitude_witness :
    ∃ v g1, Uniform.getOutlierValue scenarioUniform zeroHalfRng = .ok (v, g1) ∧
      scenarioUniform.maxValue ≤ |v| ∧
      (scenarioUniform.generateNegativeOutliers = false → scenarioUniform.maxValue ≤ v) ∧
      (scenarioUniform.generateNegativeOutliers = false → 0 ≤ scenarioUniform.maxValue →
        0 ≤ v) :=
  uniform_outlier_value_magnitude scenarioUniform zeroHalfRng (by with_unfolding_all decide)

/-! ## The sine inlier sampler -/

/-- C15. Sine inlier sampler with `amplitude ≥ 0`, `divider ≠ 0` and a sine function with
values in `[-1, 1]`: for every row index `i` and every starting phase `p` the inlier value
`offset + sin(i / divider + p) × amplitude` lies within
`[offset - amplitude, offset + amplitude]`, and every value that the program stores in an inlier
row is such a value, taken at the starting phase of its dimension. -/
theorem sine_inlier_value_in_band (sin : ℚ → ℚ) (c : Sine.Config) (st : List Int) (i : Nat)
    (ha : 0 ≤ c.amplitude) (_hdiv : c.divider ≠ 0) (hsin : ∀ y, -1 ≤ sin y ∧ sin y ≤ 1) :
    (∀ p : Int,
      c.offset - c.amplitude ≤ Sine.getSineValue sin c (((i : ℚ) / c.divider) + (p : ℚ)) ∧
      Sine.getSineValue sin c (((i : ℚ) / c.divider) + (p : ℚ)) ≤ c.offset + c.amplitude) ∧
    ∀ m, Sine.inlierRow sin c st i = .ok m →
      ∀ (d : Nat) (w : ℚ), m[d]? = some w →
        (∃ p : Int, st[d]? = some p ∧
          w = Sine.getSineValue sin c (((i : ℚ) / c.divider) + (p : ℚ))) ∧
        c.offset - c.amplitude ≤ w ∧ w ≤ c.offset + c.amplitude := by
  have hband : ∀ x, c.offset - c.amplitude ≤ Sine.getSineValue sin c x ∧
      Sine.getSineValue sin c x ≤ c.offset + c.amplitude :=
    fun x => (sine_inBand_iff c _).1 (sine_getSineValue_inBand sin c x ha hsin)
  refine ⟨fun p => hband _, ?_⟩
  intro m hm d w hw
  obtain ⟨p, hp, hwp⟩ := (sine_inlierRow_values sin c st i m hm).2 d w hw
  refine ⟨⟨p, hp, hwp⟩, ?_⟩
  rw [hwp]
  exact hband _

/-- C15 (witness): default wave (`offset = 80`, `amplitude = 50`, `divider = 50`), row 1 with
both starting phases 0; the stored values are `205080/2501`, within `[30, 130]`. -/
theorem sine_inlier_value_in_band_witness :
    Sine.inlierRow boundedWave singleSine [0, 0] 1 = .ok [205080 / 2501, 205080 / 2501] ∧
    (∀ (d : Nat) (w : ℚ), ([205080 / 2501, 205080 / 2501] : List ℚ)[d]? = some w →
      (∃ p : Int, ([0, 0] : List Int)[d]? = some p ∧
        w = Sine.getSineValue boundedWave singleSine
              ((((1 : Nat) : ℚ) / singleSine.divider) + (p : ℚ))) ∧
      singleSine.offset - singleSine.amplitude ≤ w ∧
      w ≤ singleSine.offset + singleSine.amplitude) :=
  have h : Sine.inlierRow boundedWave singleSine [0, 0] 1
      = .ok [205080 / 2501, 205080 / 2501] := by with_unfolding_all rfl
  ⟨h, (sine_inlier_value_in_band boundedWave singleSine [0, 0] 1
    (by with_unfolding_all decide) (by with_unfolding_all decide) boundedWave_range).2 _ h⟩

/-! ## Rejection sampling that cannot succeed -/

/-- C18 (counterexample). Cluster `getOutlierValue` with `clusterMax = 100`,
`clusterSpread = 300`, the single centre 50 and negative outliers enabled: the band is
`[-100, 200]`, and with the sign flipped and the draw `9/10` the candidate is `-112.5`, which is
not prohibited; the loop exits after one iteration. -/
theorem cluster_wide_band_negative_exit :
    (Cluster.getOutlierValue (wideBandCluster 300 true) [(0, 50)] 1 zeroNineTenthsRng).map
        (fun r => r.1) = .ok (-225 / 2) ∧
    Cluster.isProhibited (wideBandCluster 300 true) (-225 / 2) [(0, 50)] = false :=
  ⟨by with_unfolding_all rfl, by with_unfolding_all decide⟩

/-- C18 (amended). Cluster `getOutlierValue` with `clusterMax = 100` and the single centre 50.
With `clusterSpread = 400` (negative outliers enabled or not) every candidate
`u × 1.25 × clusterMax` and its negation, `u` in `[0, 1)`, is prohibited; with
`clusterSpread = 300` and negative outliers disabled every candidate `u × 1.25 × clusterMax` is
prohibited. In both configurations the loop has not exited after any number of iterations:
for every random source and every fuel the call runs out of fuel. -/
theorem cluster_rejection_never_exits :
    (∀ (negative : Bool) (u : ℚ), 0 ≤ u → u < 1 →
      Cluster.isProhibited (wideBandCluster 400 negative)
        (u * ((wideBandCluster 400 negative).clusterMax * 1.25)) [(0, 50)] = true ∧
      Cluster.isProhibited (wideBandCluster 400 negative)
        (-(u * ((wideBandCluster 400 negative).clusterMax * 1.25))) [(0, 50)] = true) ∧
    (∀ (negative : Bool) (fuel : Nat) (g : Rng),
      Cluster.getOutlierValue (wideBandCluster 400 negative) [(0, 50)] fuel g
        = .error .fuel) ∧
    (∀ u : ℚ, 0 ≤ u → u < 1 →
      Cluster.isProhibited (wideBandCluster 300 false)
        (u * ((wideBandCluster 300 false).clusterMax * 1.25)) [(0, 50)] = true) ∧
    (∀ (fuel : Nat) (g : Rng),
      Cluster.getOutlierValue (wideBandCluster 300 false) [(0, 50)] fuel g = .error .fuel) := by
  have h400 : ∀ (negative : Bool) (u : ℚ), 0 ≤ u → u < 1 →
      Cluster.isProhibited (wideBandCluster 400 negative)
        (u * ((wideBandCluster 400 negative).clusterMax * 1.25)) [(0, 50)] = true ∧
      Cluster.isProhibited (wideBandCluster 400 negative)
        (-(u * ((wideBandCluster 400 negative).clusterMax * 1.25))) [(0, 50)] = true := by
    intro negative u hu0 hu1
    simp only [cluster_isProhibited_single, wideBandCluster]
    norm_num
    refine ⟨⟨by linarith, by linarith⟩, by linarith, by linarith⟩
  have h300 : ∀ u : ℚ, 0 ≤ u → u < 1 →
      Cluster.isProhibited (wideBandCluster 300 false)
        (u * ((wideBandCluster 300 false).clusterMax * 1.25)) [(0, 50)] = true := by
    intro u hu0 hu1
    simp only [cluster_isProhibited_single, wideBandCluster]
    norm_num
    exact ⟨by linarith, by linarith⟩
  refine ⟨h400, ?_, h300, ?_⟩
  · intro negative fuel g
    refine cluster_getOutlierValue_stuck _ _ ?_ (fun u hu0 hu1 => ?_) fuel g
    · simp only [cluster_isProhibited_single, wideBandCluster, GoMap.read]
      norm_num
    · exact ⟨(h400 negative u hu0 hu1).1, fun _ => (h400 negative u hu0 hu1).2⟩
  · intro fuel g
    refine cluster_getOutlierValue_stuck _ _ ?_ (fun u hu0 hu1 => ?_) fuel g
    · simp only [cluster_isProhibited_single, wideBandCluster, GoMap.read]
      norm_num
    · exact ⟨h300 u hu0 hu1, fun hf => absurd hf Bool.false_ne_true⟩

/-- C18 (witness): the draw `u = 1/2` and three units of fuel. -/
theorem cluster_rejection_never_exits_witness :
    Cluster.isProhibited (wideBandCluster 400 true)
        (1 / 2 * ((wideBandCluster 400 true).clusterMax * 1.25)) [(0, 50)] = true ∧
    Cluster.getOutlierValue (wideBandCluster 400 true) [(0, 50)] 3 zeroHalfRng
        = .error .fuel ∧
    Cluster.getOutlierValue (wideBandCluster 300 false) [(0, 50)] 3 zeroHalfRng
        = .error .fuel :=
  ⟨(cluster_rejection_never_exits.1 true (1 / 2) (by norm_num) (by norm_num)).1,
    cluster_rejection_never_exits.2.1 true 3 zeroHalfRng,
    cluster_rejection_never_exits.2.2.2 3 zeroHalfRng⟩

/-! ## The cluster setup -/

/-- C16. Cluster setup with `minClusters < maxClusters`: for every random source the setup
returns when the dimension count is not negative, and in every completed setup each dimension
`d` has a cluster count `k` with `minClusters ≤ k < maxClusters` and exactly `k` centres, stored
at the indices `0 .. k - 1`, each equal to `u × clusterMax` for a draw `u` in `[0, 1)`; with
`minClusters ≥ 1` every dimension has at least one centre, and `minClusters = 1`,
`maxClusters = 2` give exactly one centre per dimension. -/
theorem cluster_setup_centres (c : Cluster.Config) (g : Rng)
    (hlt : c.minClusterCount < c.maxClusterCount) :
    (0 ≤ c.dimensionCount → ∃ cl g1, Cluster.setup c g = .ok (cl, g1)) ∧
    ∀ cl g1, Cluster.setup c g = .ok (cl, g1) →
      cl.clusterCount.length = c.dimensionCount.toNat ∧
      ∀ d : Nat, d < c.dimensionCount.toNat → ∃ k : Int, cl.clusterCount[d]? = some k ∧
        c.minClusterCount ≤ k ∧ k < c.maxClusterCount ∧
        Cluster.CentresAt c k (GoMap.read cl.clusterOffsets (d : Int) []) ∧
        (1 ≤ c.minClusterCount → 1 ≤ (GoMap.read cl.clusterOffsets (d : Int) []).length) ∧
        (c.minClusterCount = 1 → c.maxClusterCount = 2 →
          k = 1 ∧ (GoMap.read cl.clusterOffsets (d : Int) []).length = 1) := by
  obtain ⟨htot, hpart⟩ := cluster_setup_full c g
  constructor
  · intro hd
    obtain ⟨s, hs⟩ := htot hd hlt
    exact ⟨s.1, s.2, hs⟩
  · intro cl g1 h
    obtain ⟨hlen, hall⟩ := hpart (cl, g1) h
    refine ⟨hlen, ?_⟩
    intro d hd
    obtain ⟨k, hk, hk1, hk2, hcent⟩ := hall d hd
    refine ⟨k, hk, hk1, hk2, hcent, ?_, ?_⟩
    · intro hmin
      rw [hcent.1]
      omega
    · intro hmin hmax
      refine ⟨by omega, ?_⟩
      rw [hcent.1]
      omega

/-- C16 (witness): `minClusters = 1`, `maxClusters = 2`, two dimensions, `clusterMax = 100` and
the float draws `1/10`, `11/100`: one centre per dimension, 10 and 11. -/
theorem cluster_setup_centres_witness :
    Cluster.setup singleCluster nearCentresRng
      = .ok ({ clusterCount := [1, 1], clusterOffsets := [(1, [(0, 11)]), (0, [(0, 10)])] },
             { nearCentresRng with ipos := 2, fpos := 2 }) ∧
    ∀ d : Nat, d < singleCluster.dimensionCount.toNat →
      ∃ k : Int, ([1, 1] : List Int)[d]? = some k ∧
        singleCluster.minClusterCount ≤ k ∧ k < singleCluster.maxClusterCount ∧
        Cluster.CentresAt singleCluster k
          (GoMap.read [(1, [(0, 11)]), (0, [(0, 10)])] (d : Int) []) ∧
        (1 ≤ singleCluster.minClusterCount →
          1 ≤ (GoMap.read ([(1, [(0, 11)]), (0, [(0, 10)])] : GoMap (GoMap ℚ))
                (d : Int) []).length) ∧
        (singleCluster.minClusterCount = 1 → singleCluster.maxClusterCount = 2 →
          k = 1 ∧ (GoMap.read ([(1, [(0, 11)]), (0, [(0, 10)])] : GoMap (GoMap ℚ))
                    (d : Int) []).length = 1) :=
  have h : Cluster.setup singleCluster nearCentresRng
      = .ok ({ clusterCount := [1, 1], clusterOffsets := [(1, [(0, 11)]), (0, [(0, 10)])] },
             { nearCentresRng with ipos := 2, fpos := 2 }) := by with_unfolding_all rfl
  ⟨h, ((cluster_setup_centres singleCluster nearCentresRng (by decide)).2 _ _ h).2⟩

/-! ## The single-only placement policy in the uniform strategy -/

set_option maxRecDepth 2000 in
/-- C13 (counterexample). Uniform run in binary64 with `-num-rows=1 -num-dims=2
-outlier-percentage=1 -min=5 -max=65 -outlier-delta=100`, the single-only policy and negative
outliers off, whose float draws are `1/2` and then `1 - 2⁻⁵³` (a binary64 number of `[0, 1)`).
At the second draw `getValue` computes `5 + (1 - 2⁻⁵³) × 60`, which rounds to `65 = max`,
whether the compiler fuses the multiplication and the addition or not.  The only row of the
final dataset, an outlier row, is `[65, 115]`: two of its measurements have `|v| ≥ max`, and
the measurement next to the synthesized outlier value `115` is not `< max`. -/
theorem uniform_single_only_value_rounds_to_max :
    (roundingUniform.singleDimensionalOutliersOnly = true ∧
      roundingUniform.multiDimensionalOutliersOnly = false ∧
      -roundingUniform.maxValue < roundingUniform.minValue ∧
      roundingUniform.minValue < roundingUniform.maxValue ∧
      0 ≤ roundingUniform.outlierDelta ∧ 1 ≤ roundingUniform.dimensionCount) ∧
    (0 ≤ nearOneRng.floats 1 ∧ nearOneRng.floats 1 < 1 ∧
      round64 (nearOneRng.floats 1) = nearOneRng.floats 1) ∧
    (∀ fused : Bool,
      (Uniform.getValue64 fused roundingUniform { nearOneRng with ipos := 1, fpos := 1 }).1
        = roundingUniform.maxValue) ∧
    (∀ fused : Bool, Uniform.main64 fused roundingUniform nearOneRng
      = .ok ({ measurements := [],
               outliers := [{ IsOutlier := true, Measurements := [65, 115] }],
               generatedMeasurements := [{ IsOutlier := true, Measurements := [65, 115] }] },
             { nearOneRng with ipos := 2, fpos := 2 })) ∧
    ([65, 115] : List ℚ).countP (fun v => decide (roundingUniform.maxValue ≤ |v|)) = 2 := by
  refine ⟨by with_unfolding_all decide,
    ⟨by with_unfolding_all decide, by with_unfolding_all decide, by with_unfolding_all rfl⟩,
    ?_, ?_, ?_⟩
  · intro fused
    cases fused <;> with_unfolding_all rfl
  · intro fused
    cases fused <;> with_unfolding_all rfl
  · with_unfolding_all decide

/-- C13 (amended). Uniform program under the single-only policy with `-max < min < max`,
`outlierDelta ≥ 0` and `dimensionCount ≥ 1`: for every random source `main` returns, and every
outlier row of the final dataset is a permutation of one value `v0` with `|v0| ≥ max` (the
value synthesized at dimension 0) followed by `dimensionCount - 1` values `v` with
`min ≤ v ≤ max`; so at least one measurement of the row has absolute value `≥ max` and at most
one has absolute value `> max`. -/
theorem uniform_single_only_rows (c : Uniform.Config) (g : Rng)
    (hs : c.singleDimensionalOutliersOnly = true) (hm : c.multiDimensionalOutliersOnly = false)
    (hneg : -c.maxValue < c.minValue) (hlt : c.minValue < c.maxValue)
    (hd : 0 ≤ c.outlierDelta) (hdim : 1 ≤ c.dimensionCount) :
    ∃ r g1, Uniform.main c g = .ok (r, g1) ∧
      ∀ x ∈ r.generatedMeasurements, x.IsOutlier = true →
        (∃ (v0 : ℚ) (rest : List ℚ), x.Measurements.Perm (v0 :: rest) ∧ c.maxValue ≤ |v0| ∧
          (rest.length : Int) = c.dimensionCount - 1 ∧
          ∀ v ∈ rest, c.minValue ≤ v ∧ v ≤ c.maxValue) ∧
        1 ≤ x.Measurements.countP (fun v => decide (c.maxValue ≤ |v|)) ∧
        x.Measurements.countP (fun v => decide (c.maxValue < |v|)) ≤ 1 := by
  obtain ⟨r, g1, hr⟩ := uniform_main_ok c g (by omega)
  obtain ⟨hin, hout, hp⟩ := uniform_main_rows c g r g1 (fun _ => True)
    (fun m => ∃ (v0 : ℚ) (rest : List ℚ), m.Perm (v0 :: rest) ∧ c.maxValue ≤ |v0| ∧
      (rest.length : Int) = c.dimensionCount - 1 ∧
      ∀ v ∈ rest, c.minValue ≤ v ∧ v < c.maxValue)
    (fun _ _ _ => trivial)
    (fun g2 m h => uniform_outlierRow_single c g2 m hs hm hlt hd hdim h) hr
  refine ⟨r, g1, hr, ?_⟩
  intro x hx hxo
  have hx1 : x ∈ r.outliers := by
    rcases List.mem_append.1 (hp.mem_iff.1 hx) with h | h
    · exact h
    · rw [(hin x h).1] at hxo
      exact absurd hxo Bool.false_ne_true
  obtain ⟨v0, rest, hperm, hv0, hlen, hrest⟩ := (hout x hx1).2
  refine ⟨⟨v0, rest, hperm, hv0, hlen, fun v hv => ⟨(hrest v hv).1, le_of_lt (hrest v hv).2⟩⟩,
    ?_, ?_⟩
  · rw [hperm.countP_eq, List.countP_cons]
    simp [hv0]
  · rw [hperm.countP_eq, List.countP_cons]
    have hzero : rest.countP (fun v => decide (c.maxValue < |v|)) = 0 := by
      rw [List.countP_eq_zero]
      intro v hv
      obtain ⟨h1, h2⟩ := hrest v hv
      have : |v| < c.maxValue := abs_lt.2 ⟨by linarith, h2⟩
      simpa using le_of_lt this
    rw [hzero]
    split <;> omega

/-- C13 (witness): four rows of three dimensions, outlier fraction 0.5, range `[5, 65]` and
`outlierDelta = 100`. -/
theorem uniform_single_only_rows_witness :
    ∃ r g1, Uniform.main singleUniform zeroHalfRng = .ok (r, g1) ∧
      ∀ x ∈ r.generatedMeasurements, x.IsOutlier = true →
        (∃ (v0 : ℚ) (rest : List ℚ), x.Measurements.Perm (v0 :: rest) ∧
          singleUniform.maxValue ≤ |v0| ∧
          (rest.length : Int) = singleUniform.dimensionCount - 1 ∧
          ∀ v ∈ rest, singleUniform.minValue ≤ v ∧ v ≤ singleUniform.maxValue) ∧
        1 ≤ x.Measurements.countP (fun v => decide (singleUniform.maxValue ≤ |v|)) ∧
        x.Measurements.countP (fun v => decide (singleUniform.maxValue < |v|)) ≤ 1 :=
  uniform_single_only_rows singleUniform zeroHalfRng rfl rfl
    (by with_unfolding_all decide) (by with_unfolding_all decide)
    (by with_unfolding_all decide) (by decide)

/-! ## The mixed placement policy in the cluster strategy -/

/-- C11. Cluster program under the mixed policy (both placement flags false, or both true).
Whenever outlier injection into a dataset of unlabelled rows completes, every row labelled
outlier has at least one dimension whose value is not prohibited, that is lies outside every
band of that dimension. Moreover, in an execution of the body of the loop over `mIdx` in
which the coin flip of every dimension skips (the next integer draws, one per dimension, are
even), exactly one dimension `dim` below the row length is overwritten, with a value that is
not prohibited. -/
theorem cluster_mixed_some_dimension_fails
    (c : Cluster.Config) (cl : Cluster.Clusters) (fuel : Nat) (n : Int)
    (g1 g2 : Rng) (ms ms1 : List dataRow)
    (hflags : c.multiDimensionalOutliersOnly = c.singleDimensionalOutliersOnly)
    (hun : ∀ r ∈ ms, r.IsOutlier = false)
    (hcj : Cluster.inject c cl fuel n (ms, g1) = .ok (ms1, g2)) :
    (∀ (idx : Nat) (r : dataRow), ms1[idx]? = some r → r.IsOutlier = true →
      ∃ (d : Nat) (w : ℚ), r.Measurements[d]? = some w ∧
        Cluster.isProhibited c w (GoMap.read cl.clusterOffsets (d : Int) []) = false ∧
        ∀ e ∈ GoMap.read cl.clusterOffsets (d : Int) [],
          w < e.2 - c.clusterSpread / 2 ∨ e.2 + c.clusterSpread / 2 < w) ∧
    (∀ (rows : List dataRow) (g : Rng) (mIdx : Nat) (row : dataRow) (s1 : List dataRow × Rng),
      rows[mIdx]? = some row →
      (∀ d : Nat, d < row.Measurements.length → g.ints (g.ipos + d) % 2 = 0) →
      Cluster.injectBody c cl fuel mIdx (rows, g) = .ok s1 →
      ∃ (dim : Nat) (v : ℚ), dim < row.Measurements.length ∧
        Cluster.isProhibited c v (GoMap.read cl.clusterOffsets (dim : Int) []) = false ∧
        s1.1 = rows.set mIdx
          { IsOutlier := true, Measurements := row.Measurements.set dim v }) := by
  have hmf : (c.multiDimensionalOutliersOnly && !c.singleDimensionalOutliersOnly) = false := by
    rw [hflags]; cases c.singleDimensionalOutliersOnly <;> rfl
  have hsf : (!c.multiDimensionalOutliersOnly && c.singleDimensionalOutliersOnly) = false := by
    rw [hflags]; cases c.singleDimensionalOutliersOnly <;> rfl
  constructor
  · have hinv := inject_injectedWith
      (fun _ r => ∃ (d : Nat) (w : ℚ), r.Measurements[d]? = some w ∧
        Cluster.isProhibited c w (GoMap.read cl.clusterOffsets (d : Int) []) = false)
      c.numRows fuel (fun _ mIdx => Cluster.injectBody c cl fuel mIdx)
      (by
        intro _ mIdx s s1 hb
        obtain ⟨row, r1, hrow, hs1, hri, _, hex⟩ := cluster_injectBody_row c cl fuel mIdx s s1 hb
        exact ⟨row, r1, hrow, hs1, hri.1, hex hmf⟩)
      ms n.toNat 0 (ms, g1) (ms1, g2)
      (injectedWith_refl _ ms hun) hcj
    intro idx r hr hout
    have hlt : idx < ms.length := by
      rw [← hinv.1]
      exact (List.getElem?_eq_some_iff.1 hr).1
    obtain ⟨d, w, hw, hnp⟩ := (hinv.2 idx r ms[idx] hr (List.getElem?_eq_getElem hlt)).2 hout
    refine ⟨d, w, hw, hnp, ?_⟩
    intro e he
    have hnb : ¬ (Cluster.inBand c w e.2 = true) := by
      intro hb
      have : Cluster.isProhibited c w (GoMap.read cl.clusterOffsets (d : Int) []) = true :=
        List.any_eq_true.2 ⟨e, he, hb⟩
      rw [hnp] at this
      exact Bool.false_ne_true this
    rw [cluster_inBand_iff] at hnb
    by_contra hcon
    push_neg at hcon
    exact hnb ⟨hcon.1, hcon.2⟩
  · intro rows g mIdx row s1 hrow hskip h
    unfold Cluster.injectBody at h
    obtain ⟨ms2, h1, h⟩ := (bind_eq_ok _ _ _).1 h
    obtain ⟨k, h2, h⟩ := (bind_eq_ok _ _ _).1 h
    obtain ⟨row0, hrow0, hms2⟩ := markOutlier_eq_ok rows mIdx ms2 h1
    rw [hrow] at hrow0
    simp only [Option.some.injEq] at hrow0
    subst hrow0
    have hlt : mIdx < rows.length := (List.getElem?_eq_some_iff.1 hrow).1
    obtain ⟨row1, hrow1, hk⟩ := rowLen_eq_ok _ _ _ h2
    rw [hms2, List.getElem?_set_self hlt] at hrow1
    simp only [Option.some.injEq] at hrow1
    subst hrow1
    simp only at hk
    subst hk
    simp only [hmf, hsf, Bool.false_eq_true, if_false] at h
    obtain ⟨t, ht, h⟩ := (bind_eq_ok _ _ _).1 h
    obtain ⟨g3, hg3⟩ := cluster_mixed_all_skip c cl fuel mIdx ms2 row.Measurements.length 0 g hskip
    rw [hg3] at ht
    simp only [Except.ok.injEq] at ht
    subst ht
    simp only [Bool.not_false, if_true] at h
    obtain ⟨q, _, h⟩ := (bind_eq_ok _ _ _).1 h
    obtain ⟨v, hv, hset⟩ := cluster_placeOutlier_spec c cl fuel mIdx q.1 _ s1 h
    simp only [hms2] at hset
    obtain ⟨hd, hs1⟩ := place_on_row rows mIdx q.1 _ v s1.1 hlt hset
    exact ⟨q.1, v, hd, hv, hs1⟩

/-- C11 (witness). Two rows of two dimensions, centres 10 and 11, `clusterSpread = 10`, one
outlier to inject. With the integer draws `0, 1, 0, 0, ...` the coin flip of dimension 0 does
not skip and row 0 becomes `[62.5, 11]`; with all integer draws 0 both coin flips skip and
dimension 0 is then overwritten, again giving `[62.5, 11]`. -/
theorem cluster_mixed_some_dimension_fails_witness :
    Cluster.inject mixedCluster twoCentres 1 1 (clusterInlierRows, secondOddRng)
      = .ok ([{ IsOutlier := true, Measurements := [125 / 2, 11] },
              { IsOutlier := false, Measurements := [10, 11] }],
             { secondOddRng with ipos := 4, fpos := 1 }) ∧
    (∀ (idx : Nat) (r : dataRow),
      ([{ IsOutlier := true, Measurements := [125 / 2, 11] },
        { IsOutlier := false, Measurements := [10, 11] }] : List dataRow)[idx]? = some r →
      r.IsOutlier = true →
      ∃ (d : Nat) (w : ℚ), r.Measurements[d]? = some w ∧
        Cluster.isProhibited mixedCluster w
          (GoMap.read twoCentres.clusterOffsets (d : Int) []) = false ∧
        ∀ e ∈ GoMap.read twoCentres.clusterOffsets (d : Int) [],
          w < e.2 - mixedCluster.clusterSpread / 2 ∨
            e.2 + mixedCluster.clusterSpread / 2 < w) ∧
    (∃ (dim : Nat) (v : ℚ), dim < 2 ∧
      Cluster.isProhibited mixedCluster v
        (GoMap.read twoCentres.clusterOffsets (dim : Int) []) = false ∧
      ([{ IsOutlier := true, Measurements := [125 / 2, 11] },
        { IsOutlier := false, Measurements := [10, 11] }] : List dataRow)
        = clusterInlierRows.set 0
            { IsOutlier := true, Measurements := ([10, 11] : List ℚ).set dim v }) :=
  have h1 : ∀ r ∈ clusterInlierRows, r.IsOutlier = false := by
    intro r hr
    simp only [clusterInlierRows, List.mem_cons, List.mem_singleton, List.mem_nil_iff,
      or_false, or_self] at hr
    rw [hr]
  have h2 : Cluster.inject mixedCluster twoCentres 1 1 (clusterInlierRows, secondOddRng)
      = .ok ([{ IsOutlier := true, Measurements := [125 / 2, 11] },
              { IsOutlier := false, Measurements := [10, 11] }],
             { secondOddRng with ipos := 4, fpos := 1 }) := by with_unfolding_all rfl
  have h3 : Cluster.injectBody mixedCluster twoCentres 1 0 (clusterInlierRows, zeroHalfRng)
      = .ok ([{ IsOutlier := true, Measurements := [125 / 2, 11] },
              { IsOutlier := false, Measurements := [10, 11] }],
             { zeroHalfRng with ipos := 4, fpos := 1 }) := by with_unfolding_all rfl
  have h := cluster_mixed_some_dimension_fails mixedCluster twoCentres 1 1 _ _ _ _ rfl h1 h2
  ⟨h2, h.1, h.2 clusterInlierRows zeroHalfRng 0 { IsOutlier := false, Measurements := [10, 11] }
    _ rfl (fun _ _ => rfl) h3⟩

/-! ## The multi-only placement policy (cluster and sine strategies) -/

/-- C14. Cluster and sine programs under the multi-only policy (multi flag true, single flag
false). Whenever outlier injection into a dataset of unlabelled rows completes, every
measurement of every row labelled outlier fails the inlier-membership test (cluster: it is not
prohibited, that is outside every band of its dimension; sine: it is outside
`[offset - amplitude, offset + amplitude]`), and the row has as many measurements as before. -/
theorem multi_only_all_dimensions_fail
    (c : Cluster.Config) (cl : Cluster.Clusters) (cfuel : Nat) (cn : Int)
    (cg1 cg2 : Rng) (cms cms1 : List dataRow)
    (sc : Sine.Config) (sfuel : Nat) (sn : Int) (sg0 sg1 : Rng) (sms sms1 : List dataRow)
    (hcm : c.multiDimensionalOutliersOnly = true)
    (hcs : c.singleDimensionalOutliersOnly = false)
    (hcun : ∀ r ∈ cms, r.IsOutlier = false)
    (hcj : Cluster.inject c cl cfuel cn (cms, cg1) = .ok (cms1, cg2))
    (hsm : sc.multiDimensionalOutliersOnly = true)
    (hss : sc.singleDimensionalOutliersOnly = false)
    (hsun : ∀ r ∈ sms, r.IsOutlier = false)
    (hsj : Sine.inject sc sfuel sn (sms, sg0) = .ok (sms1, sg1)) :
    (∀ (idx : Nat) (r : dataRow), cms1[idx]? = some r → r.IsOutlier = true →
      (∃ r0, cms[idx]? = some r0 ∧ r.Measurements.length = r0.Measurements.length) ∧
      ∀ (d : Nat) (w : ℚ), r.Measurements[d]? = some w →
        Cluster.isProhibited c w (GoMap.read cl.clusterOffsets (d : Int) []) = false ∧
        ∀ e ∈ GoMap.read cl.clusterOffsets (d : Int) [],
          w < e.2 - c.clusterSpread / 2 ∨ e.2 + c.clusterSpread / 2 < w) ∧
    (∀ (idx : Nat) (r : dataRow), sms1[idx]? = some r → r.IsOutlier = true →
      (∃ r0, sms[idx]? = some r0 ∧ r.Measurements.length = r0.Measurements.length) ∧
      ∀ (d : Nat) (w : ℚ), r.Measurements[d]? = some w →
        w < sc.offset - sc.amplitude ∨ sc.offset + sc.amplitude < w) := by
  have hcf : (c.multiDimensionalOutliersOnly && !c.singleDimensionalOutliersOnly) = true := by
    rw [hcm, hcs]; rfl
  have hsf : (sc.multiDimensionalOutliersOnly && !sc.singleDimensionalOutliersOnly) = true := by
    rw [hsm, hss]; rfl
  have hcinv := inject_injectedWith
    (fun r0 r => r.Measurements.length = r0.Measurements.length ∧
      ∀ (d : Nat) (w : ℚ), r.Measurements[d]? = some w →
        Cluster.isProhibited c w (GoMap.read cl.clusterOffsets (d : Int) []) = false)
    c.numRows cfuel (fun _ mIdx => Cluster.injectBody c cl cfuel mIdx)
    (by
      intro _ mIdx s s1 hb
      obtain ⟨row, r1, hrow, hs1, hri, hall, _⟩ := cluster_injectBody_row c cl cfuel mIdx s s1 hb
      exact ⟨row, r1, hrow, hs1, hri.1, hri.2.1, hall hcf⟩)
    cms cn.toNat 0 (cms, cg1) (cms1, cg2) (injectedWith_refl _ cms hcun) hcj
  have hsinv := inject_injectedWith
    (fun r0 r => r.Measurements.length = r0.Measurements.length ∧
      ∀ (d : Nat) (w : ℚ), r.Measurements[d]? = some w → Sine.inBand sc w = false)
    sc.numRows sfuel (fun i mIdx => Sine.injectBody sc sfuel i mIdx)
    (by
      intro i mIdx s s1 hb
      obtain ⟨row, r1, hrow, hs1, hri, hall⟩ := sine_injectBody_row sc sfuel i mIdx s s1 hb
      exact ⟨row, r1, hrow, hs1, hri.1, hri.2.1, hall hsf⟩)
    sms sn.toNat 0 (sms, sg0) (sms1, sg1) (injectedWith_refl _ sms hsun) hsj
  constructor
  · intro idx r hr hout
    have hlt : idx < cms.length := by
      rw [← hcinv.1]
      exact (List.getElem?_eq_some_iff.1 hr).1
    obtain ⟨hlen, hall⟩ := (hcinv.2 idx r cms[idx] hr (List.getElem?_eq_getElem hlt)).2 hout
    refine ⟨⟨_, List.getElem?_eq_getElem hlt, hlen⟩, ?_⟩
    intro d w hw
    have hnp := hall d w hw
    refine ⟨hnp, ?_⟩
    intro e he
    have hnb : ¬ (Cluster.inBand c w e.2 = true) := by
      intro hb
      have : Cluster.isProhibited c w (GoMap.read cl.clusterOffsets (d : Int) []) = true :=
        List.any_eq_true.2 ⟨e, he, hb⟩
      rw [hnp] at this
      exact Bool.false_ne_true this
    rw [cluster_inBand_iff] at hnb
    by_contra hcon
    push_neg at hcon
    exact hnb ⟨hcon.1, hcon.2⟩
  · intro idx r hr hout
    have hlt : idx < sms.length := by
      rw [← hsinv.1]
      exact (List.getElem?_eq_some_iff.1 hr).1
    obtain ⟨hlen, hall⟩ := (hsinv.2 idx r sms[idx] hr (List.getElem?_eq_getElem hlt)).2 hout
    refine ⟨⟨_, List.getElem?_eq_getElem hlt, hlen⟩, ?_⟩
    intro d w hw
    have hnb : ¬ (Sine.inBand sc w = true) := by
      rw [hall d w hw]
      exact Bool.false_ne_true
    rw [sine_inBand_iff] at hnb
    by_contra hcon
    push_neg at hcon
    exact hnb ⟨hcon.1, hcon.2⟩

/-- C14 (witness). Two rows of two dimensions, one outlier to inject. Cluster: centres 10 and
11, `clusterSpread = 10`; row 0 becomes `[62.5, 62.5]`. Sine: default wave; row 0 becomes
`[-115, -115]`. -/
theorem multi_only_all_dimensions_fail_witness :
    Cluster.inject multiCluster twoCentres 1 1
        (clusterInlierRows, { nearCentresRng with ipos := 6, fpos := 6 })
      = .ok ([{ IsOutlier := true, Measurements := [125 / 2, 125 / 2] },
              { IsOutlier := false, Measurements := [10, 11] }],
             { nearCentresRng with ipos := 9, fpos := 8 }) ∧
    Sine.inject multiSine 1 1 (sineInlierRows, zeroHalfRng)
      = .ok ([{ IsOutlier := true, Measurements := [-115, -115] },
              { IsOutlier := false, Measurements := [205080 / 2501, 205080 / 2501] }],
             { zeroHalfRng with ipos := 3, fpos := 2 }) ∧
    (∀ (idx : Nat) (r : dataRow),
      ([{ IsOutlier := true, Measurements := [125 / 2, 125 / 2] },
        { IsOutlier := false, Measurements := [10, 11] }] : List dataRow)[idx]? = some r →
      r.IsOutlier = true →
      (∃ r0, clusterInlierRows[idx]? = some r0 ∧
        r.Measurements.length = r0.Measurements.length) ∧
      ∀ (d : Nat) (w : ℚ), r.Measurements[d]? = some w →
        Cluster.isProhibited multiCluster w
          (GoMap.read twoCentres.clusterOffsets (d : Int) []) = false ∧
        ∀ e ∈ GoMap.read twoCentres.clusterOffsets (d : Int) [],
          w < e.2 - multiCluster.clusterSpread / 2 ∨
            e.2 + multiCluster.clusterSpread / 2 < w) ∧
    (∀ (idx : Nat) (r : dataRow),
      ([{ IsOutlier := true, Measurements := [-115, -115] },
        { IsOutlier := false, Measurements := [205080 / 2501, 205080 / 2501] }]
          : List dataRow)[idx]? = some r →
      r.IsOutlier = true →
      (∃ r0, sineInlierRows[idx]? = some r0 ∧
        r.Measurements.length = r0.Measurements.length) ∧
      ∀ (d : Nat) (w : ℚ), r.Measurements[d]? = some w →
        w < multiSine.offset - multiSine.amplitude ∨
          multiSine.offset + multiSine.amplitude < w) :=
  have h1 : ∀ r ∈ clusterInlierRows, r.IsOutlier = false := by
    intro r hr
    simp only [clusterInlierRows, List.mem_cons, List.mem_singleton, List.mem_nil_iff,
      or_false, or_self] at hr
    rw [hr]
  have h2 : Cluster.inject multiCluster twoCentres 1 1
        (clusterInlierRows, { nearCentresRng with ipos := 6, fpos := 6 })
      = .ok ([{ IsOutlier := true, Measurements := [125 / 2, 125 / 2] },
              { IsOutlier := false, Measurements := [10, 11] }],
             { nearCentresRng with ipos := 9, fpos := 8 }) := by with_unfolding_all rfl
  have h3 : ∀ r ∈ sineInlierRows, r.IsOutlier = false := by
    intro r hr
    simp only [sineInlierRows, List.mem_cons, List.mem_singleton, List.mem_nil_iff,
      or_false] at hr
    rcases hr with hr | hr <;> rw [hr]
  have h4 : Sine.inject multiSine 1 1 (sineInlierRows, zeroHalfRng)
      = .ok ([{ IsOutlier := true, Measurements := [-115, -115] },
              { IsOutlier := false, Measurements := [205080 / 2501, 205080 / 2501] }],
             { zeroHalfRng with ipos := 3, fpos := 2 }) := by with_unfolding_all rfl
  have h := multi_only_all_dimensions_fail multiCluster twoCentres 1 1 _ _ _ _
    multiSine 1 1 _ _ _ _ rfl rfl h1 h2 rfl rfl h3 h4
  ⟨h2, h4, h.1, h.2⟩

/-! ## Row selection (cluster and sine strategies) -/

/-- C19. Cluster and sine row selection, for `numRows ≥ 1`, any number `n` of requested
outliers and any random source, on an unlabelled dataset of `numRows` rows on which injection
completes. The selection draws one row index per outer iteration (the record of the draws has
`n` entries); a row is labelled afterwards exactly when its index is among the draws; the number
of labelled rows is the number of distinct drawn indices and is at most `min n numRows`. With
at least one unit of fuel an iteration is one draw followed by a conditional, so a drawn row
that is already labelled is not redrawn; and on a dataset whose rows are all labelled the whole
loop returns for every fuel, leaving the dataset unchanged after `n` integer draws. -/
theorem selection_draws_once_per_outlier
    (c : Cluster.Config) (cl : Cluster.Clusters) (cfuel : Nat) (cn : Int)
    (cg1 cg2 : Rng) (cms cms1 : List dataRow)
    (sc : Sine.Config) (sfuel : Nat) (sn : Int) (sg0 sg1 : Rng) (sms sms1 : List dataRow)
    (hcrows : 1 ≤ c.numRows)
    (hcun : ∀ r ∈ cms, r.IsOutlier = false) (hclen : cms.length = c.numRows.toNat)
    (hcj : Cluster.inject c cl cfuel cn (cms, cg1) = .ok (cms1, cg2))
    (hsrows : 1 ≤ sc.numRows)
    (hsun : ∀ r ∈ sms, r.IsOutlier = false) (hslen : sms.length = sc.numRows.toNat)
    (hsj : Sine.inject sc sfuel sn (sms, sg0) = .ok (sms1, sg1)) :
    ((drawnRows c.numRows (forRangeStates (fun _ t => Cluster.injectStep c cl cfuel t)
        0 cn.toNat (cms, cg1))).length = cn.toNat ∧
      (∀ (idx : Nat) (r : dataRow), cms1[idx]? = some r →
        (r.IsOutlier = true ↔
          idx ∈ drawnRows c.numRows (forRangeStates
            (fun _ t => Cluster.injectStep c cl cfuel t) 0 cn.toNat (cms, cg1)))) ∧
      cms1.countP (fun x => x.IsOutlier)
        = (drawnRows c.numRows (forRangeStates (fun _ t => Cluster.injectStep c cl cfuel t)
            0 cn.toNat (cms, cg1))).dedup.length ∧
      cms1.countP (fun x => x.IsOutlier) ≤ min cn.toNat c.numRows.toNat ∧
      (∀ (fuel : Nat) (s : List dataRow × Rng),
        Cluster.injectStep c cl (fuel + 1) s
          = (s.2.Intn c.numRows).bind (fun r =>
              (notOutlier r.1 (s.1, r.2)).bind (fun b =>
                if b then Cluster.injectBody c cl (fuel + 1) r.1 (s.1, r.2)
                else .ok (s.1, r.2)))) ∧
      (∀ (fuel : Nat) (n : Int) (s : List dataRow × Rng),
        s.1.length = c.numRows.toNat → (∀ r ∈ s.1, r.IsOutlier = true) →
        Cluster.inject c cl fuel n s
          = .ok (s.1, { s.2 with ipos := s.2.ipos + n.toNat }))) ∧
    ((drawnRows sc.numRows (forRangeStates (fun i t => Sine.injectStep sc sfuel i t)
        0 sn.toNat (sms, sg0))).length = sn.toNat ∧
      (∀ (idx : Nat) (r : dataRow), sms1[idx]? = some r →
        (r.IsOutlier = true ↔
          idx ∈ drawnRows sc.numRows (forRangeStates
            (fun i t => Sine.injectStep sc sfuel i t) 0 sn.toNat (sms, sg0)))) ∧
      sms1.countP (fun x => x.IsOutlier)
        = (drawnRows sc.numRows (forRangeStates (fun i t => Sine.injectStep sc sfuel i t)
            0 sn.toNat (sms, sg0))).dedup.length ∧
      sms1.countP (fun x => x.IsOutlier) ≤ min sn.toNat sc.numRows.toNat ∧
      (∀ (fuel i : Nat) (s : List dataRow × Rng),
        Sine.injectStep sc (fuel + 1) i s
          = (s.2.Intn sc.numRows).bind (fun r =>
              (notOutlier r.1 (s.1, r.2)).bind (fun b =>
                if b then Sine.injectBody sc (fuel + 1) i r.1 (s.1, r.2)
                else .ok (s.1, r.2)))) ∧
      (∀ (fuel : Nat) (n : Int) (s : List dataRow × Rng),
        s.1.length = sc.numRows.toNat → (∀ r ∈ s.1, r.IsOutlier = true) →
        Sine.inject sc fuel n s
          = .ok (s.1, { s.2 with ipos := s.2.ipos + n.toNat }))) := by
  constructor
  · obtain ⟨h1, h2, h3, h4⟩ := selection_count_fresh c.numRows
      (fun _ t => Cluster.injectStep c cl cfuel t)
      (fun _ s s1 h => cluster_step_effect c cl cfuel s s1 h)
      cn.toNat (cms, cg1) (cms1, cg2) hcun hclen hcj
    refine ⟨h1, h2, h3, h4, ?_, ?_⟩
    · intro fuel s
      refine selection_step_eq c.numRows fuel
        (fun mIdx => Cluster.injectBody c cl (fuel + 1) mIdx) ?_ s
      intro mIdx t t1 hb
      obtain ⟨row, r1, hrow, ht1, hri, _⟩ :=
        cluster_injectBody_row c cl (fuel + 1) mIdx t t1 hb
      exact ⟨row, r1, hrow, ht1, hri.1, hri.2.1⟩
    · intro fuel n s hlen hall
      exact selection_all_labelled c.numRows fuel
        (fun _ mIdx => Cluster.injectBody c cl fuel mIdx) hcrows n.toNat 0 s hlen hall
  · obtain ⟨h1, h2, h3, h4⟩ := selection_count_fresh sc.numRows
      (fun i t => Sine.injectStep sc sfuel i t)
      (fun i s s1 h => sine_step_effect sc sfuel i s s1 h)
      sn.toNat (sms, sg0) (sms1, sg1) hsun hslen hsj
    refine ⟨h1, h2, h3, h4, ?_, ?_⟩
    · intro fuel i s
      refine selection_step_eq sc.numRows fuel
        (fun mIdx => Sine.injectBody sc (fuel + 1) i mIdx) ?_ s
      intro mIdx t t1 hb
      obtain ⟨row, r1, hrow, ht1, hri, _⟩ :=
        sine_injectBody_row sc (fuel + 1) i mIdx t t1 hb
      exact ⟨row, r1, hrow, ht1, hri.1, hri.2.1⟩
    · intro fuel n s hlen hall
      exact selection_all_labelled sc.numRows fuel
        (fun i mIdx => Sine.injectBody sc fuel i mIdx) hsrows n.toNat 0 s hlen hall

/-- C19 (witness). Two rows, two requested outliers, every integer draw `0`: both iterations
draw row 0, so the draws are `[0, 0]` and one row is labelled, in the cluster program and in
the sine program. -/
theorem selection_draws_once_per_outlier_witness :
    Cluster.inject collisionCluster collisionCentres 1 2
        (collisionClusterRows, { zeroHalfRng with ipos := 3, fpos := 3 })
      = .ok ([{ IsOutlier := true, Measurements := [125 / 2] },
              { IsOutlier := false, Measurements := [50] }],
             { zeroHalfRng with ipos := 8, fpos := 4 }) ∧
    Sine.inject collisionSine 1 2 (collisionSineRows, { zeroHalfRng with ipos := 1 })
      = .ok ([{ IsOutlier := true, Measurements := [80] },
              { IsOutlier := false, Measurements := [205080 / 2501] }],
             { zeroHalfRng with ipos := 4 }) ∧
    drawnRows collisionCluster.numRows (forRangeStates
        (fun _ t => Cluster.injectStep collisionCluster collisionCentres 1 t) 0 (2 : Int).toNat
        (collisionClusterRows, { zeroHalfRng with ipos := 3, fpos := 3 })) = [0, 0] ∧
    drawnRows collisionSine.numRows (forRangeStates
        (fun i t => Sine.injectStep collisionSine 1 i t) 0 (2 : Int).toNat
        (collisionSineRows, { zeroHalfRng with ipos := 1 })) = [0, 0] ∧
    ([{ IsOutlier := true, Measurements := [125 / 2] },
      { IsOutlier := false, Measurements := [50] }] : List dataRow).countP
        (fun x => x.IsOutlier)
      = (drawnRows collisionCluster.numRows (forRangeStates
          (fun _ t => Cluster.injectStep collisionCluster collisionCentres 1 t) 0
          (2 : Int).toNat
          (collisionClusterRows, { zeroHalfRng with ipos := 3, fpos := 3 }))).dedup.length ∧
    ([{ IsOutlier := true, Measurements := [80] },
      { IsOutlier := false, Measurements := [205080 / 2501] }] : List dataRow).countP
        (fun x => x.IsOutlier)
      = (drawnRows collisionSine.numRows (forRangeStates
          (fun i t => Sine.injectStep collisionSine 1 i t) 0 (2 : Int).toNat
          (collisionSineRows, { zeroHalfRng with ipos := 1 }))).dedup.length :=
  have h1 : ∀ r ∈ collisionClusterRows, r.IsOutlier = false := by
    intro r hr
    simp only [collisionClusterRows, List.mem_cons, List.mem_singleton, List.mem_nil_iff,
      or_false, or_self] at hr
    rw [hr]
  have h2 : Cluster.inject collisionCluster collisionCentres 1 2
        (collisionClusterRows, { zeroHalfRng with ipos := 3, fpos := 3 })
      = .ok ([{ IsOutlier := true, Measurements := [125 / 2] },
              { IsOutlier := false, Measurements := [50] }],
             { zeroHalfRng with ipos := 8, fpos := 4 }) := by with_unfolding_all rfl
  have h3 : ∀ r ∈ collisionSineRows, r.IsOutlier = false := by
    intro r hr
    simp only [collisionSineRows, List.mem_cons, List.mem_singleton, List.mem_nil_iff,
      or_false] at hr
    rcases hr with hr | hr <;> rw [hr]
  have h4 : Sine.inject collisionSine 1 2 (collisionSineRows, { zeroHalfRng with ipos := 1 })
      = .ok ([{ IsOutlier := true, Measurements := [80] },
              { IsOutlier := false, Measurements := [205080 / 2501] }],
             { zeroHalfRng with ipos := 4 }) := by with_unfolding_all rfl
  have h := selection_draws_once_per_outlier collisionCluster collisionCentres 1 2 _ _ _ _
    collisionSine 1 2 _ _ _ _ (by decide) h1 rfl h2 (by decide) h3 rfl h4
  ⟨h2, h4, by with_unfolding_all rfl, by with_unfolding_all rfl, h.1.2.2.1, h.2.2.2.1⟩

/-! ## Frame of outlier injection and shuffle (cluster and sine strategies) -/

/-- C17. Cluster and sine programs, `numRows ≥ 1`, `dimensionCount ≥ 1`, any outlier fraction
and any random source for which `main` completes. The run passes through the inlier dataset
`ms` and the injected dataset `ms1`; the final dataset is a permutation of `ms1`, it has
exactly `numRows` rows, each of exactly `dimensionCount` measurements, and every row of `ms`
whose index is never drawn by row selection is not labelled, is the row of `ms1` at the same
index, and is a row of the final dataset. -/
theorem injection_and_shuffle_frame
    (c : Cluster.Config) (cfuel : Nat) (cg cg1 : Rng) (cl : Cluster.Locals)
    (sin : ℚ → ℚ) (sc : Sine.Config) (sfuel : Nat) (sg sg1 : Rng) (sl : Sine.Locals)
    (hcrows : 1 ≤ c.numRows) (hcdims : 1 ≤ c.dimensionCount)
    (hcm : Cluster.main c cfuel cg = .ok (cl, cg1))
    (hsrows : 1 ≤ sc.numRows) (hsdims : 1 ≤ sc.dimensionCount)
    (hsm : Sine.main sin sc sfuel sg = .ok (sl, sg1)) :
    (∃ (cen : Cluster.Clusters × Rng) (ms ms1 : List dataRow × Rng),
      Cluster.setup c cg = .ok cen ∧ Cluster.inliers c cen.1 cen.2 = .ok ms ∧
      Cluster.inject c cen.1 cfuel (toInt ((c.numRows : ℚ) * c.outlierPercentage)) ms
        = .ok ms1 ∧
      cl.generatedMeasurements.Perm ms1.1 ∧
      (cl.generatedMeasurements.length : Int) = c.numRows ∧
      (∀ r ∈ cl.generatedMeasurements, (r.Measurements.length : Int) = c.dimensionCount) ∧
      ∀ (idx : Nat) (r : dataRow), ms.1[idx]? = some r →
        idx ∉ drawnRows c.numRows (forRangeStates
          (fun _ t => Cluster.injectStep c cen.1 cfuel t) 0
          (toInt ((c.numRows : ℚ) * c.outlierPercentage)).toNat ms) →
        ms1.1[idx]? = some r ∧ r.IsOutlier = false ∧ r ∈ cl.generatedMeasurements) ∧
    (∃ (st : List Int × Rng) (ms : List dataRow) (ms1 : List dataRow × Rng),
      Sine.setup sc sg = .ok st ∧ Sine.inliers sin sc st.1 = .ok ms ∧
      Sine.inject sc sfuel (toInt ((sc.numRows : ℚ) * sc.outlierPercentage)) (ms, st.2)
        = .ok ms1 ∧
      sl.generatedMeasurements.Perm ms1.1 ∧
      (sl.generatedMeasurements.length : Int) = sc.numRows ∧
      (∀ r ∈ sl.generatedMeasurements, (r.Measurements.length : Int) = sc.dimensionCount) ∧
      ∀ (idx : Nat) (r : dataRow), ms[idx]? = some r →
        idx ∉ drawnRows sc.numRows (forRangeStates
          (fun i t => Sine.injectStep sc sfuel i t) 0
          (toInt ((sc.numRows : ℚ) * sc.outlierPercentage)).toNat (ms, st.2)) →
        ms1.1[idx]? = some r ∧ r.IsOutlier = false ∧ r ∈ sl.generatedMeasurements) := by
  constructor
  · obtain ⟨cen, ms, ms1, hcen, hms, hms1, _, hperm, _⟩ :=
      cluster_main_stages c cfuel cg cg1 cl hcm
    obtain ⟨hlen, hshape⟩ := cluster_inliers_shape c cen.1 cen.2 ms hms
    obtain ⟨h1, h2, h3⟩ := selection_frame_shape c.numRows c.dimensionCount.toNat
      (fun _ t => Cluster.injectStep c cen.1 cfuel t)
      (fun _ s s1 h => cluster_step_effect c cen.1 cfuel s s1 h)
      (toInt ((c.numRows : ℚ) * c.outlierPercentage)).toNat ms ms1
      cl.generatedMeasurements hlen hshape hms1 hperm
    refine ⟨cen, ms, ms1, hcen, hms, hms1, hperm, ?_, ?_, h3⟩
    · rw [h1]
      omega
    · intro r hr
      rw [h2 r hr]
      omega
  · obtain ⟨st, ms, ms1, hst, hms, hms1, _, hperm, _⟩ :=
      sine_main_stages sin sc sfuel sg sg1 sl hsm
    obtain ⟨hlen, hshape⟩ := sine_inliers_shape sin sc st.1 ms hms
    obtain ⟨h1, h2, h3⟩ := selection_frame_shape sc.numRows sc.dimensionCount.toNat
      (fun i t => Sine.injectStep sc sfuel i t)
      (fun i s s1 h => sine_step_effect sc sfuel i s s1 h)
      (toInt ((sc.numRows : ℚ) * sc.outlierPercentage)).toNat (ms, st.2) ms1
      sl.generatedMeasurements hlen hshape hms1 hperm
    refine ⟨st, ms, ms1, hst, hms, hms1, hperm, ?_, ?_, h3⟩
    · rw [h1]
      omega
    · intro r hr
      rw [h2 r hr]
      omega

/-- C17 (witness). Two rows of one dimension, outlier fraction 1, every integer draw `0`: row 0
is drawn twice, row 1 is never drawn. Both programs end with two rows of one measurement. -/
theorem injection_and_shuffle_frame_witness :
    Cluster.main collisionCluster 1 zeroHalfRng
      = .ok ({ clusters := collisionCentres,
               generatedMeasurements := [{ IsOutlier := true, Measurements := [125 / 2] },
                                         { IsOutlier := false, Measurements := [50] }] },
             { zeroHalfRng with ipos := 8, fpos := 4 }) ∧
    Sine.main boundedWave collisionSine 1 zeroHalfRng
      = .ok ({ startIdxes := [0],
               generatedMeasurements := [{ IsOutlier := true, Measurements := [80] },
                 { IsOutlier := false, Measurements := [205080 / 2501] }] },
             { zeroHalfRng with ipos := 4 }) ∧
    ((([{ IsOutlier := true, Measurements := [125 / 2] },
        { IsOutlier := false, Measurements := [50] }] : List dataRow).length : Int)
      = collisionCluster.numRows) ∧
    ((([{ IsOutlier := true, Measurements := [80] },
        { IsOutlier := false, Measurements := [205080 / 2501] }] : List dataRow).length : Int)
      = collisionSine.numRows) :=
  have h1 : Cluster.main collisionCluster 1 zeroHalfRng
      = .ok ({ clusters := collisionCentres,
               generatedMeasurements := [{ IsOutlier := true, Measurements := [125 / 2] },
                                         { IsOutlier := false, Measurements := [50] }] },
             { zeroHalfRng with ipos := 8, fpos := 4 }) := by with_unfolding_all rfl
  have h2 : Sine.main boundedWave collisionSine 1 zeroHalfRng
      = .ok ({ startIdxes := [0],
               generatedMeasurements := [{ IsOutlier := true, Measurements := [80] },
                 { IsOutlier := false, Measurements := [205080 / 2501] }] },
             { zeroHalfRng with ipos := 4 }) := by with_unfolding_all rfl
  have h := injection_and_shuffle_frame collisionCluster 1 zeroHalfRng _ _
    boundedWave collisionSine 1 zeroHalfRng _ _ (by decide) (by decide) h1
    (by decide) (by decide) h2
  ⟨h1, h2,
    h.1.elim (fun _ h3 => h3.elim (fun _ h4 => h4.elim (fun _ h5 => h5.2.2.2.2.1))),
    h.2.elim (fun _ h3 => h3.elim (fun _ h4 => h4.elim (fun _ h5 => h5.2.2.2.2.1)))⟩

/-! ## The header read of the renderers -/

/-- C20. Rendering starts with the read `measurements[0]`. In the uniform program
`measurements` is the batch of inlier rows: for `numRows ≥ 1` and
`0 ≤ outlierFraction ≤ 1`, after a completed run the read is in range if and only if
`numRows - ⌊numRows × outlierFraction⌋ ≥ 1`; it panics if and only if
`⌊numRows × outlierFraction⌋ = numRows`, which is the case if and only if every row of the
produced dataset is an outlier. In the cluster and sine programs the read is in range after
every completed run with `numRows ≥ 1`. -/
theorem header_read_in_range
    (u : Uniform.Config) (ug ug1 : Rng) (ul : Uniform.Locals)
    (c : Cluster.Config) (cfuel : Nat) (cg cg1 : Rng) (cl : Cluster.Locals)
    (sin : ℚ → ℚ) (sc : Sine.Config) (sfuel : Nat) (sg sg1 : Rng) (sl : Sine.Locals)
    (hurows : 1 ≤ u.numRows) (hf0 : 0 ≤ u.outlierPercentage) (hf1 : u.outlierPercentage ≤ 1)
    (hum : Uniform.main u ug = .ok (ul, ug1))
    (hcrows : 1 ≤ c.numRows) (hcm : Cluster.main c cfuel cg = .ok (cl, cg1))
    (hsrows : 1 ≤ sc.numRows) (hsm : Sine.main sin sc sfuel sg = .ok (sl, sg1)) :
    ((∃ r, Uniform.headerRow ul = .ok r) ↔
      1 ≤ u.numRows - ⌊(u.numRows : ℚ) * u.outlierPercentage⌋) ∧
    (Uniform.headerRow ul = .error .panic ↔
      ⌊(u.numRows : ℚ) * u.outlierPercentage⌋ = u.numRows) ∧
    (Uniform.headerRow ul = .error .panic ↔
      ∀ r ∈ ul.generatedMeasurements, r.IsOutlier = true) ∧
    (∃ r, Cluster.headerRow cl = .ok r) ∧
    (∃ r, Sine.headerRow sl = .ok r) := by
  obtain ⟨hm, _, hin, hout, hperm⟩ := uniform_main_partial u ug ul ug1 hum
  obtain ⟨ht, h0, hle⟩ := uniform_numOutliers_range u.numRows u.outlierPercentage
    (by omega) hf0 hf1
  rw [ht] at hm
  refine ⟨?_, ?_, ?_, ?_, ?_⟩
  · unfold Uniform.headerRow
    rw [index_zero_ok, hm]
    omega
  · unfold Uniform.headerRow
    rw [index_zero_panic, ← List.length_eq_zero, hm]
    omega
  · unfold Uniform.headerRow
    rw [index_zero_panic]
    constructor
    · intro hnil r hr
      have hr1 := hperm.mem_iff.1 hr
      rw [hnil, List.append_nil] at hr1
      exact (hout r hr1).1
    · intro hall
      cases hms : ul.measurements with
      | nil => rfl
      | cons a t =>
        have ha : a ∈ ul.measurements := by rw [hms]; exact List.mem_cons_self a t
        have h1 := (hin a ha).1
        have h2 := hall a (hperm.mem_iff.2 (List.mem_append_right _ ha))
        rw [h1] at h2
        exact absurd h2 (by simp)
  · obtain ⟨cen, ms, ms1, _, hms, hms1, _, hperm1, _⟩ :=
      cluster_main_stages c cfuel cg cg1 cl hcm
    obtain ⟨hlen, hshape⟩ := cluster_inliers_shape c cen.1 cen.2 ms hms
    obtain ⟨h1, _, _⟩ := selection_frame_shape c.numRows c.dimensionCount.toNat
      (fun _ t => Cluster.injectStep c cen.1 cfuel t)
      (fun _ s s1 h => cluster_step_effect c cen.1 cfuel s s1 h)
      (toInt ((c.numRows : ℚ) * c.outlierPercentage)).toNat ms ms1
      cl.generatedMeasurements hlen hshape hms1 hperm1
    unfold Cluster.headerRow
    rw [index_zero_ok, h1]
    omega
  · obtain ⟨st, ms, ms1, _, hms, hms1, _, hperm1, _⟩ :=
      sine_main_stages sin sc sfuel sg sg1 sl hsm
    obtain ⟨hlen, hshape⟩ := sine_inliers_shape sin sc st.1 ms hms
    obtain ⟨h1, _, _⟩ := selection_frame_shape sc.numRows sc.dimensionCount.toNat
      (fun i t => Sine.injectStep sc sfuel i t)
      (fun i s s1 h => sine_step_effect sc sfuel i s s1 h)
      (toInt ((sc.numRows : ℚ) * sc.outlierPercentage)).toNat (ms, st.2) ms1
      sl.generatedMeasurements hlen hshape hms1 hperm1
    unfold Sine.headerRow
    rw [index_zero_ok, h1]
    omega

/-- C20 (witness). Uniform run with `numRows = 10` and `outlierFraction = 1`: the inlier batch
is empty and the header read panics; the cluster and sine runs with two rows and outlier
fraction 1 read their header. -/
theorem header_read_in_range_witness :
    Uniform.main allOutliersUniform zeroHalfRng
      = .ok ({ measurements := [],
               outliers := List.replicate 10 { IsOutlier := true, Measurements := [115] },
               generatedMeasurements :=
                 List.replicate 10 { IsOutlier := true, Measurements := [115] } },
             { zeroHalfRng with ipos := 19, fpos := 10 }) ∧
    Uniform.headerRow
        { measurements := [],
          outliers := List.replicate 10 { IsOutlier := true, Measurements := [115] },
          generatedMeasurements :=
            List.replicate 10 { IsOutlier := true, Measurements := [115] } }
      = .error .panic ∧
    (∃ r, Cluster.headerRow
        { clusters := collisionCentres,
          generatedMeasurements := [{ IsOutlier := true, Measurements := [125 / 2] },
                                    { IsOutlier := false, Measurements := [50] }] }
      = .ok r) ∧
    (∃ r, Sine.headerRow
        { startIdxes := [0],
          generatedMeasurements := [{ IsOutlier := true, Measurements := [80] },
            { IsOutlier := false, Measurements := [205080 / 2501] }] }
      = .ok r) :=
  have h0 : Uniform.main allOutliersUniform zeroHalfRng
      = .ok ({ measurements := [],
               outliers := List.replicate 10 { IsOutlier := true, Measurements := [115] },
               generatedMeasurements :=
                 List.replicate 10 { IsOutlier := true, Measurements := [115] } },
             { zeroHalfRng with ipos := 19, fpos := 10 }) := by with_unfolding_all rfl
  have h1 : Cluster.main collisionCluster 1 zeroHalfRng
      = .ok ({ clusters := collisionCentres,
               generatedMeasurements := [{ IsOutlier := true, Measurements := [125 / 2] },
                                         { IsOutlier := false, Measurements := [50] }] },
             { zeroHalfRng with ipos := 8, fpos := 4 }) := by with_unfolding_all rfl
  have h2 : Sine.main boundedWave collisionSine 1 zeroHalfRng
      = .ok ({ startIdxes := [0],
               generatedMeasurements := [{ IsOutlier := true, Measurements := [80] },
                 { IsOutlier := false, Measurements := [205080 / 2501] }] },
             { zeroHalfRng with ipos := 4 }) := by with_unfolding_all rfl
  have h := header_read_in_range allOutliersUniform zeroHalfRng _ _
    collisionCluster 1 zeroHalfRng _ _ boundedWave collisionSine 1 zeroHalfRng _ _
    (by decide) (by with_unfolding_all decide) (by with_unfolding_all decide) h0
    (by decide) h1 (by decide) h2
  ⟨h0, h.2.1.2 (by with_unfolding_all decide), h.2.2.2.1, h.2.2.2.2⟩

end DataGen
